import Mathlib

/-!
# Proof-of-stake kernel and validator registry of bit2coin

A shallow embedding of the stake-modifier engine, the kernel hash check, the
protocol-era predicates and the stake-modifier checkpoints of `src/kernel.cpp`,
and of the validators and their registry of `src/validator.h` and
`src/validator.cpp`, followed by theorems about them.

Conventions of the embedding.

* `unsigned int`, `uint64_t` and `uint256` values are natural numbers; where the
  C++ type truncates (a shift of a `uint64_t`, the return of a 256-bit hash as
  `unsigned int`) the reduction modulo `2^w` is written out.
* `int` and `int64_t` values are integers. C++ division of signed integers and
  `CBigNum` division truncate toward zero, which is `Int.tdiv`.
* A `const CBlockIndex*` is the list of index entries reached through `pprev`,
  the pointed-to entry first; the null pointer is the empty list.
* `Params()`, the double-SHA256 `Hash`, `CBigNum::SetCompact`, the block index
  lookup of the chain state and `GetRand` are not part of the sources; they are
  parameters of the functions that use them. Examples that depend on the value
  of a hash take `sha256d` for the hash.
* A call that can be left by a C++ exception or run into undefined behaviour
  yields an `Outcome`.
* A `std::map` is the list of its entries in iteration order; a method that
  changes an object returns the object afterwards.
-/

namespace Bit2coin

/-! ## Outcomes of calls -/

/-- How a call of a C++ function ends: it returns a value, it is left by an
exception that the sources do not catch, or it runs into undefined behaviour. -/
inductive Outcome (α : Type) where
  | returned (value : α)
  | thrown
  | undefined
deriving DecidableEq, Repr

/-- The outcome with `f` applied to a returned value. -/
def Outcome.map {α β : Type} (f : α → β) : Outcome α → Outcome β
  | Outcome.returned value => Outcome.returned (f value)
  | Outcome.thrown => Outcome.thrown
  | Outcome.undefined => Outcome.undefined

/-! ## Chain parameters -/

/-- The value of `Params().NetworkIDString()`: the three ids `kernel.cpp` compares
with (`CBaseChainParams::MAIN`, `TESTNET`, `REGTEST`) and any other id. -/
inductive NetworkID where
  | MAIN
  | TESTNET
  | REGTEST
  | OTHER
deriving DecidableEq, Repr

/-- Modelled from the spec: the fields of `Consensus::Params` (declared in
`consensus/params.h`, which is not among the sources) read by `kernel.cpp`. They
are 64-bit signed integers: `kernel.cpp` takes `min` of `nStakeMaxAge` with an
`int64_t` and adds the other two to `int64_t` values. -/
structure ConsensusParams where
  nModifierInterval : Int
  nStakeMinAge : Int
  nStakeMaxAge : Int
deriving DecidableEq, Repr

/-- `MODIFIER_INTERVAL_RATIO` of `kernel.h`. -/
def MODIFIER_INTERVAL_RATIO : Int := 3

/-- Modelled from the spec: `COIN` (declared in `consensus/amount.h`, which is not
among the sources); the spec gives `COIN = 10^8`. -/
def COIN : Int := 100000000

/-! ## Protocol switch times (`kernel.cpp` lines 25-58) -/

def nProtocolV03SwitchTime : Nat := 1363800000
def nProtocolV03TestSwitchTime : Nat := 1359781000
def nProtocolV04SwitchTime : Nat := 1399300000
def nProtocolV04TestSwitchTime : Nat := 1395700000
def nProtocolV05SwitchTime : Nat := 1461700000
def nProtocolV05TestSwitchTime : Nat := 1447700000
def nProtocolV06SwitchTime : Nat := 1513050000
def nProtocolV06TestSwitchTime : Nat := 1508198400
def nProtocolV07SwitchTime : Nat := 1552392000
def nProtocolV07TestSwitchTime : Nat := 1541505600
def nBTC16BIPsSwitchTime : Nat := 1569931200
def nBTC16BIPsTestSwitchTime : Nat := 1554811200
def nProtocolV09SwitchTime : Nat := 1591617600
def nProtocolV09TestSwitchTime : Nat := 1581940800
def nProtocolV10SwitchTime : Nat := 1635768000
def nProtocolV10TestSwitchTime : Nat := 1625140800
def nProtocolV12SwitchTime : Nat := 1700276331
def nProtocolV12TestSwitchTime : Nat := 1671060214
def nProtocolV14SwitchTime : Nat := 1717416000
def nProtocolV14TestSwitchTime : Nat := 1710720000
def nProtocolV15SwitchTime : Nat := 1741780800
def nProtocolV15TestSwitchTime : Nat := 1734004800

/-! ## Block index -/

/-- Modelled from the spec: the fields of `CBlockIndex` (declared in `chain.h`,
which is not among the sources) that `kernel.cpp` reads. `hashBlock` is
`GetBlockHash()`, `nTime` is also `GetBlockTime()`. The three accessors
`IsProofOfStake()`, `GeneratedStakeModifier()` and `GetStakeEntropyBit()` are
kept as fields of their own, so nothing is assumed on how `chain.h` derives
them from `nFlags`. -/
structure CBlockIndex where
  nHeight : Int
  nTime : Nat
  nFlags : Nat
  nStakeModifier : Nat
  nStakeModifierChecksum : Nat
  hashProofOfStake : Nat
  hashBlock : Nat
  fProofOfStake : Bool
  fGeneratedStakeModifier : Bool
  nStakeEntropyBit : Nat
deriving DecidableEq, Repr

/-! ## Protocol eras (`kernel.cpp` lines 100-203) -/

/-- `IsProtocolV03(nTimeCoinStake)`. -/
def IsProtocolV03 (net : NetworkID) (nTimeCoinStake : Nat) : Bool :=
  decide (nTimeCoinStake ≥
    (if net ≠ NetworkID.MAIN then nProtocolV03TestSwitchTime else nProtocolV03SwitchTime))

/-- `IsProtocolV04(nTimeBlock)`. -/
def IsProtocolV04 (net : NetworkID) (nTimeBlock : Nat) : Bool :=
  decide (nTimeBlock ≥
    (if net ≠ NetworkID.MAIN then nProtocolV04TestSwitchTime else nProtocolV04SwitchTime))

/-- `IsProtocolV05(nTimeTx)`. -/
def IsProtocolV05 (net : NetworkID) (nTimeTx : Nat) : Bool :=
  decide (nTimeTx ≥
    (if net ≠ NetworkID.MAIN then nProtocolV05TestSwitchTime else nProtocolV05SwitchTime))

/-- `IsProtocolV06(pindexPrev)`. -/
def IsProtocolV06 (net : NetworkID) (pindexPrev : CBlockIndex) : Bool :=
  if net = NetworkID.REGTEST then true
  else if pindexPrev.nTime <
      (if net ≠ NetworkID.MAIN then nProtocolV06TestSwitchTime else nProtocolV06SwitchTime) then
    false
  else if (net = NetworkID.MAIN ∧ pindexPrev.nHeight > 339678) ∨
      (net ≠ NetworkID.MAIN ∧ pindexPrev.nHeight > 301251) then
    true
  else false

/-- `IsProtocolV07(nTimeTx)`. -/
def IsProtocolV07 (net : NetworkID) (nTimeTx : Nat) : Bool :=
  let fTestNet := decide (net ≠ NetworkID.MAIN)
  decide (nTimeTx ≥ (if fTestNet then nProtocolV07TestSwitchTime else nProtocolV07SwitchTime))

/-- `IsBTC16BIPsEnabled(nTimeTx)`. -/
def IsBTC16BIPsEnabled (net : NetworkID) (nTimeTx : Nat) : Bool :=
  let fTestNet := decide (net ≠ NetworkID.MAIN)
  decide (nTimeTx ≥ (if fTestNet then nBTC16BIPsTestSwitchTime else nBTC16BIPsSwitchTime))

/-- `IsProtocolV09(nTime)`. -/
def IsProtocolV09 (net : NetworkID) (nTime : Nat) : Bool :=
  decide (nTime ≥
    (if net ≠ NetworkID.MAIN then nProtocolV09TestSwitchTime else nProtocolV09SwitchTime))

/-- `IsProtocolV10(nTime)`. -/
def IsProtocolV10 (net : NetworkID) (nTime : Nat) : Bool :=
  decide (nTime ≥
    (if net ≠ NetworkID.MAIN then nProtocolV10TestSwitchTime else nProtocolV10SwitchTime))

/-- `IsProtocolV12(pindexPrev)`. -/
def IsProtocolV12 (net : NetworkID) (pindexPrev : CBlockIndex) : Bool :=
  if net = NetworkID.REGTEST then true
  else decide (pindexPrev.nTime ≥
    (if net ≠ NetworkID.MAIN then nProtocolV12TestSwitchTime else nProtocolV12SwitchTime))

/-- `IsProtocolV14(pindexPrev)`. -/
def IsProtocolV14 (net : NetworkID) (pindexPrev : CBlockIndex) : Bool :=
  if net = NetworkID.REGTEST then true
  else if pindexPrev.nTime <
      (if net ≠ NetworkID.MAIN then nProtocolV14TestSwitchTime else nProtocolV14SwitchTime) then
    false
  else if (net = NetworkID.MAIN ∧ pindexPrev.nHeight > 770395) ∨
      (net ≠ NetworkID.MAIN ∧ pindexPrev.nHeight > 573706) then
    true
  else false

/-- `IsProtocolV15(pindexPrev)`. -/
def IsProtocolV15 (net : NetworkID) (pindexPrev : CBlockIndex) : Bool :=
  if net = NetworkID.REGTEST then true
  else if pindexPrev.nTime <
      (if net ≠ NetworkID.MAIN then nProtocolV15TestSwitchTime else nProtocolV15SwitchTime) then
    false
  else if (net = NetworkID.MAIN ∧ pindexPrev.nHeight > 801330) ∨
      (net ≠ NetworkID.MAIN ∧ pindexPrev.nHeight > 612775) then
    true
  else false

/-! ## Stake-modifier checkpoints (`kernel.cpp` lines 60-98, 725-744) -/

/-- `mapStakeModifierCheckpoints`, as the list of its (height, checksum) entries. -/
def mapStakeModifierCheckpoints : List (Int × Nat) :=
  [ (0, 0x0e00670b), (19080, 0xad4e4d29), (30583, 0xdc7bf136), (99999, 0xf555cfd2),
    (219999, 0x91b7444d), (336000, 0x6c3c8048), (371850, 0x9b850bdf), (407813, 0x46fe50b5),
    (443561, 0x114a6e38), (455470, 0x9b7af181), (479189, 0xe04fb8e0), (504051, 0x459f5a16),
    (589659, 0xbd02492a), (714688, 0xd70a5b68), (770396, 0x565fb851), (801334, 0x90485c37) ]

/-- `mapStakeModifierTestnetCheckpoints`. -/
def mapStakeModifierTestnetCheckpoints : List (Int × Nat) :=
  [ (0, 0x0e00670b), (19080, 0x3711dc3a), (30583, 0xb480fade), (99999, 0x9a62eaec),
    (219999, 0xeafe96c3), (336000, 0x8330dc09), (372751, 0xafb94e2f), (382019, 0x7f5cf5eb),
    (408500, 0x68cadee2), (412691, 0x93138e67), (441299, 0x03e195cb), (442735, 0xe42d94fe),
    (516308, 0x04a0897a), (573702, 0xe69df1ac), (612778, 0x6be16d62) ]

/-- `std::map::count`: 1 when the key is present, else 0. -/
def mapCount (m : List (Int × Nat)) (k : Int) : Nat :=
  if (m.lookup k).isSome then 1 else 0

/-- `std::map::operator[]` read: the mapped value, value-initialised (0) when absent. -/
def mapAt (m : List (Int × Nat)) (k : Int) : Nat :=
  (m.lookup k).getD 0

/-- `CheckStakeModifierCheckpoints(nHeight, nStakeModifierChecksum)`. -/
def CheckStakeModifierCheckpoints (net : NetworkID) (nHeight : Int)
    (nStakeModifierChecksum : Nat) : Bool :=
  if nHeight = 0 then true
  else
    let fTestNet := decide (net = NetworkID.TESTNET)
    if fTestNet && decide (mapCount mapStakeModifierTestnetCheckpoints nHeight > 0) then
      decide (nStakeModifierChecksum = mapAt mapStakeModifierTestnetCheckpoints nHeight)
    else if !fTestNet && decide (mapCount mapStakeModifierCheckpoints nHeight > 0) then
      decide (nStakeModifierChecksum = mapAt mapStakeModifierCheckpoints nHeight)
    else true

/-! ## Serialisation and hashing -/

/-- The `n` little-endian bytes a `CDataStream` appends for an unsigned scalar
of `n` bytes (`ss << x`; a `uint256` is streamed as its 32 bytes). -/
def leBytes : Nat → Nat → List Nat
  | 0, _ => []
  | n + 1, x => (x % 256) :: leBytes n (x / 256)

/-- `UintToArith256(Hash(ss))`: the 256-bit number that is the hash of the stream.
The double SHA-256 of `hash.h` is not among the sources; `H` stands for it, and
the result type `uint256` bounds the value. -/
def Hash256 (H : List Nat → Nat) (ss : List Nat) : Nat :=
  H ss % 2 ^ 256

/-! ### The double SHA-256

`hash.h` is not among the sources. The functions of the embedding take the hash
as the parameter `H`; `sha256d` below is the function that `Hash` computes, for
the examples whose outcome depends on the value of a hash. -/

/-- The round constants of SHA-256 (FIPS 180-4). -/
def sha256K : List Nat :=
  [1116352408, 1899447441, 3049323471, 3921009573, 961987163, 1508970993, 2453635748, 2870763221,
   3624381080, 310598401, 607225278, 1426881987, 1925078388, 2162078206, 2614888103, 3248222580,
   3835390401, 4022224774, 264347078, 604807628, 770255983, 1249150122, 1555081692, 1996064986,
   2554220882, 2821834349, 2952996808, 3210313671, 3336571891, 3584528711, 113926993, 338241895,
   666307205, 773529912, 1294757372, 1396182291, 1695183700, 1986661051, 2177026350, 2456956037,
   2730485921, 2820302411, 3259730800, 3345764771, 3516065817, 3600352804, 4094571909, 275423344,
   430227734, 506948616, 659060556, 883997877, 958139571, 1322822218, 1537002063, 1747873779,
   1955562222, 2024104815, 2227730452, 2361852424, 2428436474, 2756734187, 3204031479, 3329325298]

/-- The initial hash value of SHA-256. -/
def sha256Init : List Nat :=
  [1779033703, 3144134277, 1013904242, 2773480762, 1359893119, 2600822924, 528734635, 1541459225]

/-- Rotation of a 32-bit word to the right. -/
def rotr32 (x n : Nat) : Nat :=
  ((x >>> n) ||| (x <<< (32 - n))) % 2 ^ 32

/-- The padded message: the bytes, the byte `0x80`, zero bytes up to 56 modulo
64, and the bit length as 8 big-endian bytes. -/
def sha256Pad (msg : List Nat) : List Nat :=
  msg ++ 0x80 :: List.replicate ((119 - msg.length % 64) % 64) 0 ++
    (leBytes 8 (8 * msg.length)).reverse

/-- The big-endian 32-bit words of a byte string. -/
def beWords : List Nat → List Nat
  | b0 :: b1 :: b2 :: b3 :: rest => (((b0 * 256 + b1) * 256 + b2) * 256 + b3) :: beWords rest
  | _ => []

/-- One more word of the message schedule; the list holds the words so far, the
latest first. -/
def sha256Extend (w : List Nat) : List Nat :=
  match w with
  | _ :: w2 :: _ :: _ :: _ :: _ :: w7 :: _ :: _ :: _ :: _ :: _ :: _ :: _ :: w15 :: w16 :: _ =>
    let s0 := rotr32 w15 7 ^^^ rotr32 w15 18 ^^^ (w15 >>> 3)
    let s1 := rotr32 w2 17 ^^^ rotr32 w2 19 ^^^ (w2 >>> 10)
    ((w16 + s0 + w7 + s1) % 2 ^ 32) :: w
  | _ => w

/-- The 64 words of the message schedule of a block of 16 words. -/
def sha256Schedule (block : List Nat) : List Nat :=
  ((List.range 48).foldl (fun w _ => sha256Extend w) block.reverse).reverse

/-- One round on the working variables `a, ..., h`, with the round constant and
the schedule word. -/
def sha256Round (s : List Nat) (kw : Nat × Nat) : List Nat :=
  match s with
  | [a, b, c, d, e, f, g, h] =>
    let S1 := rotr32 e 6 ^^^ rotr32 e 11 ^^^ rotr32 e 25
    let ch := (e &&& f) ^^^ ((e ^^^ (2 ^ 32 - 1)) &&& g)
    let t1 := (h + S1 + ch + kw.1 + kw.2) % 2 ^ 32
    let S0 := rotr32 a 2 ^^^ rotr32 a 13 ^^^ rotr32 a 22
    let mj := (a &&& b) ^^^ (a &&& c) ^^^ (b &&& c)
    let t2 := (S0 + mj) % 2 ^ 32
    [(t1 + t2) % 2 ^ 32, a, b, c, (d + t1) % 2 ^ 32, e, f, g]
  | _ => s

/-- The compression function: the hash value after one block. -/
def sha256Compress (state : List Nat) (block : List Nat) : List Nat :=
  List.zipWith (fun x y => (x + y) % 2 ^ 32) state
    ((sha256K.zip (sha256Schedule block)).foldl sha256Round state)

/-- The first `n` blocks of 16 words. -/
def sha256Blocks : Nat → List Nat → List (List Nat)
  | 0, _ => []
  | n + 1, ws => ws.take 16 :: sha256Blocks n (ws.drop 16)

/-- SHA-256: the 32 bytes of the digest. -/
def sha256 (msg : List Nat) : List Nat :=
  let ws := beWords (sha256Pad msg)
  let state := (sha256Blocks (ws.length / 16) ws).foldl sha256Compress sha256Init
  state.flatMap (fun w => (leBytes 4 w).reverse)

/-- The number whose little-endian bytes are given, as `uint256` reads its 32
bytes. -/
def leNumber : List Nat → Nat
  | [] => 0
  | b :: rest => b + 256 * leNumber rest

/-- Modelled from the spec: the hash `H` of the specification as `Hash` of
`hash.h` (not among the sources) computes it, SHA-256 applied twice, the digest
read as a `uint256`. -/
def sha256d (msg : List Nat) : Nat :=
  leNumber (sha256 (sha256 msg))

/-! ## Stake-modifier checksum (`kernel.cpp` lines 711-723) -/

/-- `GetStakeModifierChecksum(pindex)`; `pprev` is `pindex->pprev`. The `assert`
(a parentless entry is the genesis block) is not modelled. -/
def GetStakeModifierChecksum (H : List Nat → Nat) (pindex : CBlockIndex)
    (pprev : List CBlockIndex) : Nat :=
  let ss : List Nat :=
    match pprev with
    | [] => []
    | p :: _ => leBytes 4 p.nStakeModifierChecksum
  let ss := ss ++ leBytes 4 pindex.nFlags ++ leBytes 32 pindex.hashProofOfStake ++
    leBytes 8 pindex.nStakeModifier
  let hashChecksum := Hash256 H ss
  let hashChecksum := hashChecksum >>> (256 - 32)
  -- `GetLow64()`, returned as `unsigned int`
  (hashChecksum % 2 ^ 64) % 2 ^ 32

/-! ## Stake modifier engine (`kernel.cpp` lines 205-429) -/

/-- `GetLastStakeModifier(pindex)`: `some (nStakeModifier, nModifierTime)` when it
returns true, `none` when it reports an error. -/
def GetLastStakeModifier : List CBlockIndex → Option (Nat × Int)
  | [] => none
  | [b] => if b.fGeneratedStakeModifier then some (b.nStakeModifier, (b.nTime : Int)) else none
  | b :: p :: rest =>
    if !b.fGeneratedStakeModifier then GetLastStakeModifier (p :: rest)
    else some (b.nStakeModifier, (b.nTime : Int))

/-- `GetStakeModifierSelectionIntervalSection(nSection)`. -/
def GetStakeModifierSelectionIntervalSection (params : ConsensusParams) (nSection : Int) : Int :=
  (params.nModifierInterval * 63).tdiv (63 + ((63 - nSection) * ( MODIFIER_INTERVAL_RATIO - 1)))

/-- `GetStakeModifierSelectionInterval()`. -/
def GetStakeModifierSelectionInterval (params : ConsensusParams) : Int :=
  (List.range 64).foldl
    (fun nSelectionInterval nSection =>
      nSelectionInterval + GetStakeModifierSelectionIntervalSection params (nSection : Int)) 0

/-- The selection hash of a candidate in `SelectBlockFromCandidates`: the hash of
its proof-hash and the previous stake modifier, shifted right by 32 bits for a
proof-of-stake block. -/
def hashSelection (H : List Nat → Nat) (nStakeModifierPrev : Nat) (pindex : CBlockIndex) : Nat :=
  let hashProof := if pindex.fProofOfStake then pindex.hashProofOfStake else pindex.hashBlock
  let ss := leBytes 32 hashProof ++ leBytes 8 nStakeModifierPrev
  let hashSelection := Hash256 H ss
  if pindex.fProofOfStake then hashSelection >>> 32 else hashSelection

/-- The loop variables of `SelectBlockFromCandidates`. -/
structure SelectState where
  fSelected : Bool
  hashBest : Nat
  pindexSelected : Option CBlockIndex
deriving DecidableEq, Repr

/-- The `for` loop of `SelectBlockFromCandidates` over the remaining items;
`none` is the error return (candidate missing from the block index).
`LookupBlockIndex` is the lookup of the chain state; `mapSelectedBlocks` is the
key set of the map (the function only calls `count` on it). -/
def selectLoop (H : List Nat → Nat) (LookupBlockIndex : Nat → Option CBlockIndex)
    (mapSelectedBlocks : List Nat) (nSelectionIntervalStop : Int) (nStakeModifierPrev : Nat) :
    List (Int × Nat) → SelectState → Option SelectState
  | [], st => some st
  | item :: rest, st =>
    match LookupBlockIndex item.2 with
    | none => none
    | some pindex =>
      if st.fSelected && decide ((pindex.nTime : Int) > nSelectionIntervalStop) then
        some st
      else if mapSelectedBlocks.contains pindex.hashBlock then
        selectLoop H LookupBlockIndex mapSelectedBlocks nSelectionIntervalStop
          nStakeModifierPrev rest st
      else
        let h := hashSelection H nStakeModifierPrev pindex
        if st.fSelected && decide (h < st.hashBest) then
          selectLoop H LookupBlockIndex mapSelectedBlocks nSelectionIntervalStop
            nStakeModifierPrev rest { st with hashBest := h, pindexSelected := some pindex }
        else if !st.fSelected then
          selectLoop H LookupBlockIndex mapSelectedBlocks nSelectionIntervalStop
            nStakeModifierPrev rest
            { fSelected := true, hashBest := h, pindexSelected := some pindex }
        else
          selectLoop H LookupBlockIndex mapSelectedBlocks nSelectionIntervalStop
            nStakeModifierPrev rest st

/-- `SelectBlockFromCandidates`: `some pindex` when it returns true with
`*pindexSelected = pindex`, `none` when it returns false. -/
def SelectBlockFromCandidates (H : List Nat → Nat) (LookupBlockIndex : Nat → Option CBlockIndex)
    (vSortedByTimestamp : List (Int × Nat)) (mapSelectedBlocks : List Nat)
    (nSelectionIntervalStop : Int) (nStakeModifierPrev : Nat) : Option CBlockIndex :=
  match selectLoop H LookupBlockIndex mapSelectedBlocks nSelectionIntervalStop
      nStakeModifierPrev vSortedByTimestamp
      { fSelected := false, hashBest := 0, pindexSelected := none } with
  | none => none
  | some st => if st.fSelected then st.pindexSelected else none

/-- The candidate collection loop of `ComputeNextStakeModifier`: walk back from
`pindexPrev` while the block time is at least `nSelectionIntervalStart`. -/
def collectCandidates (nSelectionIntervalStart : Int) : List CBlockIndex → List (Int × Nat)
  | [] => []
  | pindex :: pprev =>
    if (pindex.nTime : Int) ≥ nSelectionIntervalStart then
      ((pindex.nTime : Int), pindex.hashBlock) :: collectCandidates nSelectionIntervalStart pprev
    else []

/-- `std::swap(v[i], v[j])`; out-of-range indices (not reached by the shuffle)
leave the vector as it is. -/
def swapAt (v : List (Int × Nat)) (i j : Nat) : List (Int × Nat) :=
  match v[i]?, v[j]? with
  | some a, some b => (v.set i b).set j a
  | _, _ => v

/-- The shuffle loop `for (i = size - 1; i > 1; --i) swap(v[i], v[GetRand(i)])`,
entered with `i`. `rnd i` is the raw random draw of the call `GetRand(i)`, whose
result lies in `[0, i)`. -/
def shuffleLoop (rnd : Nat → Nat) : Nat → List (Int × Nat) → List (Int × Nat)
  | 0, v => v
  | i + 1, v =>
    if i + 1 > 1 then shuffleLoop rnd i (swapAt v (i + 1) (rnd (i + 1) % (i + 1)))
    else v

/-- The 32-bit limb `((const uint32_t*) h.data())[cnt]` of a `uint256`
(little-endian host). -/
def limb32 (h : Nat) (cnt : Nat) : Nat :=
  (h / 2 ^ (32 * cnt)) % 2 ^ 32

/-- The `do ... while (cnt)` loop of the sort comparator, entered with `cnt`:
compares the limbs `cnt - 1` down to 0. -/
def limbsLess (pa pb : Nat) : Nat → Bool
  | 0 => false
  | cnt + 1 =>
    if limb32 pa cnt ≠ limb32 pb cnt then decide (limb32 pa cnt < limb32 pb cnt)
    else limbsLess pa pb cnt

/-- The comparator lambda passed to `sort` in `ComputeNextStakeModifier`. -/
def candidateLess (a b : Int × Nat) : Bool :=
  if a.1 ≠ b.1 then decide (a.1 < b.1)
  else limbsLess a.2 b.2 (256 / 32)

/-- `sort(begin, end, comp)` with the comparator above: the elements in an order
in which no element is `candidateLess` than one before it, computed by insertion. -/
def sortCandidates (v : List (Int × Nat)) : List (Int × Nat) :=
  List.insertionSort (fun a b => candidateLess b a = false) v

/-- The selection rounds of `ComputeNextStakeModifier`: `remaining` rounds are
left, the next one is `nRound`. `none` is the error return "unable to select
block". -/
def modifierRounds (params : ConsensusParams) (H : List Nat → Nat)
    (LookupBlockIndex : Nat → Option CBlockIndex) (vSortedByTimestamp : List (Int × Nat))
    (nStakeModifier : Nat) :
    Nat → Nat → Nat → Int → List Nat → Option Nat
  | 0, _, nStakeModifierNew, _, _ => some nStakeModifierNew
  | remaining + 1, nRound, nStakeModifierNew, nSelectionIntervalStop, mapSelectedBlocks =>
    let nSelectionIntervalStop :=
      nSelectionIntervalStop + GetStakeModifierSelectionIntervalSection params (nRound : Int)
    match SelectBlockFromCandidates H LookupBlockIndex vSortedByTimestamp mapSelectedBlocks
        nSelectionIntervalStop nStakeModifier with
    | none => none
    | some pindex =>
      -- `nStakeModifierNew |= ((uint64_t) pindex->GetStakeEntropyBit()) << nRound`
      modifierRounds params H LookupBlockIndex vSortedByTimestamp nStakeModifier remaining
        (nRound + 1)
        (nStakeModifierNew ||| ((pindex.nStakeEntropyBit <<< nRound) % 2 ^ 64))
        nSelectionIntervalStop (pindex.hashBlock :: mapSelectedBlocks)

/-- `ComputeNextStakeModifier(pindexCurrent, ...)`; `pindexPrev` is
`pindexCurrent->pprev`. `some (nStakeModifier, fGeneratedStakeModifier)` when it
returns true, `none` when it reports an error. `rnd` supplies the draws of
`GetRand` in the shuffle. -/
def ComputeNextStakeModifier (params : ConsensusParams) (net : NetworkID) (H : List Nat → Nat)
    (LookupBlockIndex : Nat → Option CBlockIndex) (rnd : Nat → Nat)
    (pindexCurrent : CBlockIndex) (pindexPrev : List CBlockIndex) : Option (Nat × Bool) :=
  match pindexPrev with
  | [] => some (0, true)
  | prev :: _ =>
    match GetLastStakeModifier pindexPrev with
    | none => none
    | some (nStakeModifier, nModifierTime) =>
      if nModifierTime.tdiv params.nModifierInterval ≥
          (prev.nTime : Int).tdiv params.nModifierInterval then
        some (nStakeModifier, false)
      else if nModifierTime.tdiv params.nModifierInterval ≥
            (pindexCurrent.nTime : Int).tdiv params.nModifierInterval ∧
          IsProtocolV04 net pindexCurrent.nTime = true then
        some (nStakeModifier, false)
      else
        let nSelectionInterval := GetStakeModifierSelectionInterval params
        let nSelectionIntervalStart :=
          ((prev.nTime : Int).tdiv params.nModifierInterval) * params.nModifierInterval -
            nSelectionInterval
        let vSortedByTimestamp := collectCandidates nSelectionIntervalStart pindexPrev
        let vSortedByTimestamp :=
          shuffleLoop rnd (vSortedByTimestamp.length - 1) vSortedByTimestamp
        let vSortedByTimestamp := sortCandidates vSortedByTimestamp
        match modifierRounds params H LookupBlockIndex vSortedByTimestamp nStakeModifier
            (min 64 vSortedByTimestamp.length) 0 0 nSelectionIntervalStart [] with
        | none => none
        | some nStakeModifierNew => some (nStakeModifierNew, true)

/-! ## Kernel stake modifier (`kernel.cpp` lines 431-540) -/

/-- The `while` loop of `GetKernelStakeModifierV05`, at entry `pindex` with
`pprev` its chain of ancestors. -/
def kernelModifierWalkV05 (params : ConsensusParams) (nStakeModifierSelectionInterval : Int)
    (nTimeTx : Nat) : CBlockIndex → Int → Int → List CBlockIndex → Option (Nat × Int × Int)
  | pindex, nStakeModifierHeight, nStakeModifierTime, [] =>
    if nStakeModifierTime + params.nStakeMinAge - nStakeModifierSelectionInterval >
        (nTimeTx : Int) then
      none
    else some (pindex.nStakeModifier, nStakeModifierHeight, nStakeModifierTime)
  | pindex, nStakeModifierHeight, nStakeModifierTime, p :: rest =>
    if nStakeModifierTime + params.nStakeMinAge - nStakeModifierSelectionInterval >
        (nTimeTx : Int) then
      if p.fGeneratedStakeModifier then
        kernelModifierWalkV05 params nStakeModifierSelectionInterval nTimeTx p p.nHeight
          (p.nTime : Int) rest
      else
        kernelModifierWalkV05 params nStakeModifierSelectionInterval nTimeTx p
          nStakeModifierHeight nStakeModifierTime rest
    else some (pindex.nStakeModifier, nStakeModifierHeight, nStakeModifierTime)

/-- `GetKernelStakeModifierV05(pindexPrev, nTimeTx, ...)`; `pprev` is
`pindexPrev->pprev`. `some (nStakeModifier, nStakeModifierHeight,
nStakeModifierTime)` when it returns true, `none` when it returns false. -/
def GetKernelStakeModifierV05 (params : ConsensusParams) (pindexPrev : CBlockIndex)
    (pprev : List CBlockIndex) (nTimeTx : Nat) : Option (Nat × Int × Int) :=
  let nStakeModifierHeight := pindexPrev.nHeight
  let nStakeModifierTime : Int := (pindexPrev.nTime : Int)
  let nStakeModifierSelectionInterval := GetStakeModifierSelectionInterval params
  if nStakeModifierTime + params.nStakeMinAge - nStakeModifierSelectionInterval ≤
      (nTimeTx : Int) then
    none
  else
    kernelModifierWalkV05 params nStakeModifierSelectionInterval nTimeTx pindexPrev
      nStakeModifierHeight nStakeModifierTime pprev

/-- Modelled from the spec: the part of `Chainstate` that `kernel.cpp` uses
(`validation.h` and `chain.h` are not among the sources): the block index lookup
by hash and, for the active chain, `Contains` and `Next`. -/
structure Chainstate where
  LookupBlockIndex : Nat → Option CBlockIndex
  Contains : CBlockIndex → Bool
  Next : CBlockIndex → Option CBlockIndex

/-- The loop of `GetKernelStakeModifierV03` that fills `tmpChain` (before the
`reverse`), entered with counter `i` and `it` the head of the list. -/
def buildTmpChain (cs : Chainstate) (nDepth : Int) : Int → List CBlockIndex → List CBlockIndex
  | _, [] => []
  | i, it :: pprev =>
    if i ≤ nDepth ∧ cs.Contains it = false then it :: buildTmpChain cs nDepth (i + 1) pprev
    else []

/-- The `while` loop of `GetKernelStakeModifierV03`. The loop follows `Next` of
the active chain, so the embedding bounds the number of iterations by `fuel`
(`none` when it runs out, as for the "reached best block" returns). -/
def kernelModifierWalkV03 (cs : Chainstate) (tmpChain : List CBlockIndex)
    (nTimeFrom : Int) (nStakeModifierSelectionInterval : Int) :
    Nat → CBlockIndex → Nat → Int → Int → Option (Nat × Int × Int)
  | 0, _, _, _, _ => none
  | fuel + 1, pindex, n, nStakeModifierHeight, nStakeModifierTime =>
    if nStakeModifierTime < nTimeFrom + nStakeModifierSelectionInterval then
      let next : Option (CBlockIndex × Nat) :=
        match tmpChain with
        | first :: _ =>
          if pindex.nHeight ≥ first.nHeight - 1 then
            (tmpChain[n]?).map (fun p => (p, n + 1))
          else (cs.Next pindex).map (fun p => (p, n))
        | [] => (cs.Next pindex).map (fun p => (p, n))
      match next with
      | none => none
      | some (p, n) =>
        if p.fGeneratedStakeModifier then
          kernelModifierWalkV03 cs tmpChain nTimeFrom nStakeModifierSelectionInterval fuel p n
            p.nHeight (p.nTime : Int)
        else
          kernelModifierWalkV03 cs tmpChain nTimeFrom nStakeModifierSelectionInterval fuel p n
            nStakeModifierHeight nStakeModifierTime
    else some (pindex.nStakeModifier, nStakeModifierHeight, nStakeModifierTime)

/-- `GetKernelStakeModifierV03(pindexPrev, hashBlockFrom, ...)`: inside the
outcome, `some (nStakeModifier, nStakeModifierHeight, nStakeModifierTime)` when
it returns true and `none` when it returns false. `nDepth` is negative when the
block of `hashBlockFrom` lies more than one above `pindexPrev`; then
`tmpChain.reserve(nDepth)` converts it to a `size_t` beyond `max_size()` and
throws `std::length_error`, which `kernel.cpp` does not catch. -/
def GetKernelStakeModifierV03 (params : ConsensusParams) (cs : Chainstate) (fuel : Nat)
    (pindexPrev : CBlockIndex) (pprev : List CBlockIndex) (hashBlockFrom : Nat) :
    Outcome (Option (Nat × Int × Int)) :=
  match cs.LookupBlockIndex hashBlockFrom with
  | none => Outcome.returned none
  | some pindexFrom =>
    let nStakeModifierSelectionInterval := GetStakeModifierSelectionInterval params
    let nDepth := pindexPrev.nHeight - (pindexFrom.nHeight - 1)
    if nDepth < 0 then Outcome.thrown
    else
      let tmpChain := (buildTmpChain cs nDepth 1 (pindexPrev :: pprev)).reverse
      Outcome.returned
        (kernelModifierWalkV03 cs tmpChain (pindexFrom.nTime : Int)
          nStakeModifierSelectionInterval fuel pindexFrom 0 pindexFrom.nHeight
          (pindexFrom.nTime : Int))

/-- `GetKernelStakeModifier`: the V05 lookup from the V05 switch time on, the V03
lookup before. -/
def GetKernelStakeModifier (params : ConsensusParams) (net : NetworkID) (cs : Chainstate)
    (fuel : Nat) (pindexPrev : CBlockIndex) (pprev : List CBlockIndex) (hashBlockFrom : Nat)
    (nTimeTx : Nat) : Outcome (Option (Nat × Int × Int)) :=
  if IsProtocolV05 net nTimeTx then
    Outcome.returned (GetKernelStakeModifierV05 params pindexPrev pprev nTimeTx)
  else GetKernelStakeModifierV03 params cs fuel pindexPrev pprev hashBlockFrom

/-! ## Kernel hash check (`kernel.cpp` lines 568-644) -/

/-- Modelled from the spec: what `CheckStakeKernelHash` reads of the header
`blockFrom` (`primitives/block.h` is not among the sources): `GetBlockTime()`
and `GetHash()`. -/
structure CBlockHeader where
  nTime : Nat
  hash : Nat
deriving DecidableEq, Repr

/-- Modelled from the spec: what `CheckStakeKernelHash` reads of `txPrev`
(`primitives/transaction.h` is not among the sources): its timestamp and the
values (`nValue`, a signed 64-bit amount) of its outputs. -/
structure CTransaction where
  nTime : Nat
  vout : List Int
deriving DecidableEq, Repr

/-- Modelled from the spec: `COutPoint` (`primitives/transaction.h`), transaction
hash and output index. -/
structure COutPoint where
  hash : Nat
  n : Nat
deriving DecidableEq, Repr

/-- The expression `txPrev->nTime ? txPrev->nTime : nTimeBlockFrom`. -/
def nTimeTxPrev (blockFrom : CBlockHeader) (txPrev : CTransaction) : Nat :=
  if txPrev.nTime ≠ 0 then txPrev.nTime else blockFrom.nTime

/-- The local `nValueIn = txPrev->vout[prevout.n].nValue` (an index outside
`vout` is undefined behaviour in C++; the embedding reads 0). -/
def nValueIn (txPrev : CTransaction) (prevout : COutPoint) : Int :=
  (txPrev.vout[prevout.n]?).getD 0

/-- The local `nTimeWeight` of `CheckStakeKernelHash`. -/
def nTimeWeight (params : ConsensusParams) (net : NetworkID) (blockFrom : CBlockHeader)
    (txPrev : CTransaction) (nTimeTx : Nat) : Int :=
  min ((nTimeTx : Int) - (nTimeTxPrev blockFrom txPrev : Int)) params.nStakeMaxAge -
    (if IsProtocolV03 net nTimeTx then params.nStakeMinAge else 0)

/-- The local `bnCoinDayWeight` of `CheckStakeKernelHash`
(`CBigNum(nValueIn) * nTimeWeight / COIN / (24 * 60 * 60)`). -/
def bnCoinDayWeight (params : ConsensusParams) (net : NetworkID) (blockFrom : CBlockHeader)
    (txPrev : CTransaction) (prevout : COutPoint) (nTimeTx : Nat) : Int :=
  ((nValueIn txPrev prevout * nTimeWeight params net blockFrom txPrev nTimeTx).tdiv COIN).tdiv
    (24 * 60 * 60)

/-- The bytes hashed by `CheckStakeKernelHash`, after the leading modifier bytes
`ss0` (the stake modifier under v0.3+, `nBits` before). -/
def kernelStream (ss0 : List Nat) (blockFrom : CBlockHeader) (nTxPrevOffset : Nat)
    (txPrev : CTransaction) (prevout : COutPoint) (nTimeTx : Nat) : List Nat :=
  ss0 ++ leBytes 4 blockFrom.nTime ++ leBytes 4 nTxPrevOffset ++
    leBytes 4 (nTimeTxPrev blockFrom txPrev) ++ leBytes 4 prevout.n ++ leBytes 4 nTimeTx

/-- `CheckStakeKernelHash`. A returned result pairs the returned `bool` with the
value written to `hashProofOfStake` (`none` when the function returns before
writing it); an exception of the stake-modifier lookup leaves the function.
`SetCompact` is `CBigNum::SetCompact` of `bignum.h` (not among the sources): the
signed big integer decoded from `nBits`. -/
def CheckStakeKernelHash (params : ConsensusParams) (net : NetworkID) (H : List Nat → Nat)
    (SetCompact : Nat → Int) (cs : Chainstate) (fuel : Nat)
    (nBits : Nat) (pindexPrev : CBlockIndex) (pprev : List CBlockIndex)
    (blockFrom : CBlockHeader) (nTxPrevOffset : Nat) (txPrev : CTransaction)
    (prevout : COutPoint) (nTimeTx : Nat) : Outcome (Bool × Option Nat) :=
  let nTimeBlockFrom := blockFrom.nTime
  if nTimeTx < nTimeTxPrev blockFrom txPrev then Outcome.returned (false, none)
  else if (nTimeBlockFrom : Int) + params.nStakeMinAge > (nTimeTx : Int) then
    Outcome.returned (false, none)
  else
    let bnTargetPerCoinDay := SetCompact nBits
    let bnCoinDayWeight := bnCoinDayWeight params net blockFrom txPrev prevout nTimeTx
    let ss0 : Outcome (Option (List Nat)) :=
      if IsProtocolV03 net nTimeTx then
        (GetKernelStakeModifier params net cs fuel pindexPrev pprev blockFrom.hash nTimeTx).map
          (Option.map (fun m => leBytes 8 m.1))
      else Outcome.returned (some (leBytes 4 nBits))
    match ss0 with
    | Outcome.thrown => Outcome.thrown
    | Outcome.undefined => Outcome.undefined
    | Outcome.returned none => Outcome.returned (false, none)
    | Outcome.returned (some ss0) =>
      let hashProofOfStake :=
        Hash256 H (kernelStream ss0 blockFrom nTxPrevOffset txPrev prevout nTimeTx)
      if (hashProofOfStake : Int) > bnCoinDayWeight * bnTargetPerCoinDay then
        Outcome.returned (false, some hashProofOfStake)
      else Outcome.returned (true, some hashProofOfStake)

/-! ## Example data

A mainnet scenario after the v0.5 switch: `exAncestor` generated stake modifier
77, `exPrev` and `exPrevLate` are later blocks on top of it, and an output of
10 coins confirmed at time 1497408000 is staked. Stake ages are 30 and 90 days,
the modifier interval is 6 hours. -/

def exParams : ConsensusParams :=
  { nModifierInterval := 21600, nStakeMinAge := 2592000, nStakeMaxAge := 7776000 }

def exChainstate : Chainstate :=
  { LookupBlockIndex := fun _ => none, Contains := fun _ => false, Next := fun _ => none }

/-- The value `CBigNum::SetCompact` decodes from `0x1d00ffff`. -/
def exSetCompact : Nat → Int := fun _ => 0xffff * 2 ^ 208

def exAncestor : CBlockIndex :=
  { nHeight := 10, nTime := 1497000000, nFlags := 4, nStakeModifier := 77,
    nStakeModifierChecksum := 0, hashProofOfStake := 0, hashBlock := 1010,
    fProofOfStake := false, fGeneratedStakeModifier := true, nStakeEntropyBit := 0 }

def exPrev : CBlockIndex :=
  { nHeight := 11, nTime := 1499990000, nFlags := 0, nStakeModifier := 77,
    nStakeModifierChecksum := 0, hashProofOfStake := 0, hashBlock := 1111,
    fProofOfStake := false, fGeneratedStakeModifier := false, nStakeEntropyBit := 0 }

def exPrevLate : CBlockIndex :=
  { nHeight := 11, nTime := 1505180000, nFlags := 0, nStakeModifier := 77,
    nStakeModifierChecksum := 0, hashProofOfStake := 0, hashBlock := 1112,
    fProofOfStake := false, fGeneratedStakeModifier := false, nStakeEntropyBit := 0 }

def exBlockFrom : CBlockHeader := { nTime := 1497408000, hash := 999 }

def exTxPrev : CTransaction := { nTime := 1497408000, vout := [10 * COIN] }

def exPrevout : COutPoint := { hash := 5, n := 0 }

/-- The epoch-gate scenario: the last modifier was generated at time 999000, the
previous block has time 1000000, the modifier interval is 21600 seconds. -/
def exGateAncestor : CBlockIndex :=
  { nHeight := 5, nTime := 999000, nFlags := 4, nStakeModifier := 4242,
    nStakeModifierChecksum := 0, hashProofOfStake := 0, hashBlock := 505,
    fProofOfStake := false, fGeneratedStakeModifier := true, nStakeEntropyBit := 0 }

def exGatePrev : CBlockIndex :=
  { nHeight := 6, nTime := 1000000, nFlags := 0, nStakeModifier := 4242,
    nStakeModifierChecksum := 0, hashProofOfStake := 0, hashBlock := 606,
    fProofOfStake := false, fGeneratedStakeModifier := false, nStakeEntropyBit := 0 }

def exGateCurrent : CBlockIndex :=
  { nHeight := 7, nTime := 1000600, nFlags := 0, nStakeModifier := 0,
    nStakeModifierChecksum := 0, hashProofOfStake := 0, hashBlock := 707,
    fProofOfStake := false, fGeneratedStakeModifier := false, nStakeEntropyBit := 0 }

/-- A block on top of `exGatePrev` in the next modifier epoch (epoch 47). -/
def exEpochPrev : CBlockIndex :=
  { nHeight := 7, nTime := 1016000, nFlags := 2, nStakeModifier := 4242,
    nStakeModifierChecksum := 0, hashProofOfStake := 0, hashBlock := 808,
    fProofOfStake := false, fGeneratedStakeModifier := false, nStakeEntropyBit := 1 }

/-- Its successor, whose stake modifier is to be computed. -/
def exEpochCurrent : CBlockIndex :=
  { nHeight := 8, nTime := 1016600, nFlags := 0, nStakeModifier := 0,
    nStakeModifierChecksum := 0, hashProofOfStake := 0, hashBlock := 909,
    fProofOfStake := false, fGeneratedStakeModifier := false, nStakeEntropyBit := 0 }

/-- A block index holding the blocks of the epoch scenarios. -/
def exLookup : Nat → Option CBlockIndex := fun h =>
  if h = 505 then some exGateAncestor
  else if h = 606 then some exGatePrev
  else if h = 808 then some exEpochPrev
  else none

/-- The two blocks as a candidate list, sorted by time. -/
def exCandidates : List (Int × Nat) := [(999000, 505), (1000000, 606)]

/-! ## The V05 modifier lookup as the specification words it -/

/-- The V05 kernel stake-modifier lookup in the words of the specification:
walking back from `prev` (the head of `chain`, included), the stake modifier of
the most recent block with `block_time + StakeMinAge - S ≤ tx_time`;
unavailable only when there is no such block. -/
def kernelStakeModifierV05_spec (params : ConsensusParams) (chain : List CBlockIndex)
    (nTimeTx : Nat) : Option Nat :=
  (chain.find? (fun b => decide ((b.nTime : Int) + params.nStakeMinAge -
    GetStakeModifierSelectionInterval params ≤ (nTimeTx : Int)))).map (fun b => b.nStakeModifier)

/-! ## Coinstake timestamp (`kernel.cpp` lines 702-709) -/

/-- `CheckCoinStakeTimestamp(nTimeBlock, nTimeTx)`, both `int64_t`. The call
`IsProtocolV03(nTimeTx)` converts `nTimeTx` to `unsigned int`, that is reduces it
modulo 2^32. `MAX_FUTURE_BLOCK_TIME_PREV9` is declared in `chain.h` (not among
the sources) and is a parameter. -/
def CheckCoinStakeTimestamp (net : NetworkID) (MAX_FUTURE_BLOCK_TIME_PREV9 : Int)
    (nTimeBlock nTimeTx : Int) : Bool :=
  if IsProtocolV03 net (nTimeTx % 2 ^ 32).toNat then decide (nTimeBlock = nTimeTx)
  else decide (nTimeTx ≤ nTimeBlock ∧ nTimeBlock ≤ nTimeTx + MAX_FUTURE_BLOCK_TIME_PREV9)

/-- The coinstake timestamp rule in the words of the specification, with "V03 is
active at `t_tx`" read as `t_tx ≥ switch_time[network]` on the 64-bit timestamp. -/
def CheckCoinStakeTimestamp_spec (net : NetworkID) (MAX_FUTURE_BLOCK_TIME_PREV9 : Int)
    (nTimeBlock nTimeTx : Int) : Bool :=
  if nTimeTx ≥ ((if net ≠ NetworkID.MAIN then nProtocolV03TestSwitchTime
      else nProtocolV03SwitchTime : Nat) : Int) then
    decide (nTimeBlock = nTimeTx)
  else decide (nTimeTx ≤ nTimeBlock ∧ nTimeBlock ≤ nTimeTx + MAX_FUTURE_BLOCK_TIME_PREV9)

/-! ## Validators (`validator.h`, `validator_status.h`, `validator.cpp`) -/

/-- `enum class ValidatorStatus`. -/
inductive ValidatorStatus where
  | INACTIVE
  | ACTIVE
  | SLASHED
  | PENDING_EXIT
deriving DecidableEq, Repr

/-- `struct ValidatorReputation`: three `uint32_t` counters, the `int16_t` score and
three `int64_t` times. -/
structure ValidatorReputation where
  blocksProduced : Nat
  blocksMissed : Nat
  slashableOffenses : Nat
  reputationScore : Int
  firstActiveTime : Int
  lastActiveTime : Int
  totalActiveTime : Int
deriving DecidableEq, Repr

/-- The constructor `ValidatorReputation()`. -/
def ValidatorReputation.new : ValidatorReputation :=
  { blocksProduced := 0, blocksMissed := 0, slashableOffenses := 0, reputationScore := 50,
    firstActiveTime := 0, lastActiveTime := 0, totalActiveTime := 0 }

/-- Conversion of an `unsigned int` value to `int` (two's complement). -/
def toInt32 (n : Nat) : Int :=
  if n % 2 ^ 32 < 2 ^ 31 then ((n % 2 ^ 32 : Nat) : Int) else ((n % 2 ^ 32 : Nat) : Int) - 2 ^ 32

/-- Conversion of an `int` value to `unsigned int`. -/
def toUInt32 (x : Int) : Nat :=
  (x % 2 ^ 32).toNat

/-- `ValidatorReputation::UpdateReputationScore()`. Each `score op= unsigned`
is evaluated in `unsigned int` (the operand `score` is converted, the result
wraps modulo 2^32) and converted back to `int`; `slashableOffenses * 10` is an
`unsigned int` product. -/
def ValidatorReputation.UpdateReputationScore (r : ValidatorReputation) : ValidatorReputation :=
  let score : Int := 50
  let score := toInt32 ((toUInt32 score + min (r.blocksProduced / 10) 30) % 2 ^ 32)
  let score := toInt32 ((toUInt32 score + 2 ^ 32 - min (r.blocksMissed / 5) 20) % 2 ^ 32)
  let score :=
    toInt32 ((toUInt32 score + 2 ^ 32 - min ((r.slashableOffenses * 10) % 2 ^ 32) 50) % 2 ^ 32)
  { r with reputationScore := max 0 (min score 100) }

/-- `class CValidator`. The script is its byte string, the id a `uint256`. -/
structure CValidator where
  scriptPubKey : List Nat
  stakedAmount : Int
  status : ValidatorStatus
  reputation : ValidatorReputation
  registrationTime : Int
  validatorId : Nat
deriving DecidableEq, Repr

/-- `VALIDATOR_MIN_STAKE = 32 * COIN`. -/
def VALIDATOR_MIN_STAKE : Int := 32 * COIN

/-- The constructor `CValidator(scriptPubKeyIn, stakedAmountIn)`. The id is the
hash of the `CHashWriter` stream `hasher << scriptPubKey`; `serializeScript`
stands for the serialisation of a `CScript` (`serialize.h` and `script.h` are not
among the sources). -/
def CValidator.new (H : List Nat → Nat) (serializeScript : List Nat → List Nat)
    (scriptPubKeyIn : List Nat) (stakedAmountIn : Int) : CValidator :=
  { scriptPubKey := scriptPubKeyIn, stakedAmount := stakedAmountIn,
    status := ValidatorStatus.INACTIVE, reputation := ValidatorReputation.new,
    registrationTime := 0, validatorId := Hash256 H (serializeScript scriptPubKeyIn) }

/-- `CValidator::MeetsMinimumStake()`. -/
def CValidator.MeetsMinimumStake (v : CValidator) : Bool :=
  decide (v.stakedAmount ≥ VALIDATOR_MIN_STAKE)

/-- `CValidator::Activate(activationTime)`. -/
def CValidator.Activate (v : CValidator) (activationTime : Int) : CValidator :=
  let v := { v with status := ValidatorStatus.ACTIVE }
  let v :=
    if v.reputation.firstActiveTime = 0 then
      { v with reputation := { v.reputation with firstActiveTime := activationTime } }
    else v
  { v with reputation := { v.reputation with lastActiveTime := activationTime } }

/-- `CValidator::Deactivate(deactivationTime)`. -/
def CValidator.Deactivate (v : CValidator) (deactivationTime : Int) : CValidator :=
  let v :=
    if v.status = ValidatorStatus.ACTIVE then
      let activeTime := deactivationTime - v.reputation.lastActiveTime
      { v with reputation :=
          { v.reputation with totalActiveTime := v.reputation.totalActiveTime + activeTime } }
    else v
  { v with status := ValidatorStatus.INACTIVE }

/-- `CValidator::Slash(slashTime, slashRatio)`: the returned amount and the
validator afterwards. The amount is computed in `double` arithmetic, which the
embedding does not model: `slashedAmountOf s` stands for
`static_cast<CAmount>(s * slashRatio)` at the given ratio. -/
def CValidator.Slash (v : CValidator) (slashTime : Int) (slashedAmountOf : Int → Int) :
    Int × CValidator :=
  let _ := slashTime
  let reputation :=
    { v.reputation with slashableOffenses := (v.reputation.slashableOffenses + 1) % 2 ^ 32 }
  let reputation := reputation.UpdateReputationScore
  let slashedAmount := slashedAmountOf v.stakedAmount
  (slashedAmount,
    { v with reputation := reputation, stakedAmount := v.stakedAmount - slashedAmount,
             status := ValidatorStatus.SLASHED })

/-! ### The registry

`std::map<uint256, CValidator>` is the list of its entries in iteration order,
that is with strictly increasing keys. An id is the natural number that orders
as the map's key comparison orders the `uint256` (the validator code only tests
ids for equality and uses them as map keys). -/

/-- `class CValidatorRegistry`: the map `validators`. -/
structure CValidatorRegistry where
  validators : List (Nat × CValidator)
deriving DecidableEq, Repr

/-- The invariant of `std::map`: keys strictly increasing in iteration order. -/
def CValidatorRegistry.WellFormed (reg : CValidatorRegistry) : Prop :=
  reg.validators.Pairwise (fun a b => a.1 < b.1)

/-- `std::map::find`: the mapped value, `none` for `end()`. -/
def mapFind (m : List (Nat × CValidator)) (k : Nat) : Option CValidator :=
  match m with
  | [] => none
  | e :: rest => if e.1 = k then some e.2 else mapFind rest k

/-- `m[k] = v`: assignment through `std::map::operator[]`, which inserts the key
at its place in the order when it is absent. -/
def mapAssign (k : Nat) (v : CValidator) : List (Nat × CValidator) → List (Nat × CValidator)
  | [] => [(k, v)]
  | e :: rest =>
    if k < e.1 then (k, v) :: e :: rest
    else if k = e.1 then (k, v) :: rest
    else e :: mapAssign k v rest

/-- A write through the iterator or pointer returned by `find` / `GetValidator`:
the entry found for `k` is replaced by `f` of it; nothing changes when `k` is
absent. -/
def mapModify (k : Nat) (f : CValidator → CValidator) :
    List (Nat × CValidator) → List (Nat × CValidator)
  | [] => []
  | e :: rest => if e.1 = k then (e.1, f e.2) :: rest else e :: mapModify k f rest

/-- `CValidatorRegistry::RegisterValidator`: the returned `bool` and the registry
afterwards. -/
def CValidatorRegistry.RegisterValidator (H : List Nat → Nat)
    (serializeScript : List Nat → List Nat) (reg : CValidatorRegistry)
    (scriptPubKey : List Nat) (stakedAmount : Int) (registrationTime : Int) :
    Bool × CValidatorRegistry :=
  let validator := CValidator.new H serializeScript scriptPubKey stakedAmount
  let validator := { validator with registrationTime := registrationTime }
  if !validator.MeetsMinimumStake then (false, reg)
  else (true, { validators := mapAssign validator.validatorId validator reg.validators })

/-- `CValidatorRegistry::RemoveValidator`. -/
def CValidatorRegistry.RemoveValidator (reg : CValidatorRegistry) (validatorId : Nat) :
    Bool × CValidatorRegistry :=
  match mapFind reg.validators validatorId with
  | none => (false, reg)
  | some _ =>
    (true,
      { validators :=
          mapModify validatorId (fun v => { v with status := ValidatorStatus.PENDING_EXIT })
            reg.validators })

/-- `CValidatorRegistry::GetValidator`: the entry pointed to, `none` for
`nullptr`. -/
def CValidatorRegistry.GetValidator (reg : CValidatorRegistry) (validatorId : Nat) :
    Option CValidator :=
  mapFind reg.validators validatorId

/-- `CValidatorRegistry::GetActiveValidators`. -/
def CValidatorRegistry.GetActiveValidators (reg : CValidatorRegistry) : List CValidator :=
  (reg.validators.filter (fun pair => pair.2.status = ValidatorStatus.ACTIVE)).map
    (fun pair => pair.2)

/-- `CValidatorRegistry::UpdateValidatorReputation`. -/
def CValidatorRegistry.UpdateValidatorReputation (reg : CValidatorRegistry) (validatorId : Nat)
    (producedBlock : Bool) : CValidatorRegistry :=
  match mapFind reg.validators validatorId with
  | none => reg
  | some _ =>
    { validators :=
        mapModify validatorId
          (fun v =>
            let reputation :=
              if producedBlock then
                { v.reputation with
                  blocksProduced := (v.reputation.blocksProduced + 1) % 2 ^ 32 }
              else
                { v.reputation with blocksMissed := (v.reputation.blocksMissed + 1) % 2 ^ 32 }
            { v with reputation := reputation.UpdateReputationScore })
          reg.validators }

/-- Narrowing of an `int64_t` value to `int`. -/
def wrapInt32 (x : Int) : Int :=
  (x + 2 ^ 31) % 2 ^ 32 - 2 ^ 31

/-- The local `weight` of `SelectNextValidator` for one active validator. -/
def validatorWeight (v : CValidator) : Int :=
  let reputationFactor := v.reputation.reputationScore.tdiv 10
  wrapInt32 (v.stakedAmount.tdiv COIN * (reputationFactor + 1))

/-- The locals `activeValidators`, `weights`, `totalWeight` of
`SelectNextValidator`. -/
structure SelectionTable where
  activeValidators : List CValidator
  weights : List Int
  totalWeight : Int
deriving DecidableEq, Repr

/-- The first loop of `SelectNextValidator`, over the entries of the map in
order. The `int` sum `totalWeight += weight` is taken modulo 2^32 (its overflow
is undefined behaviour in C++). -/
def collectSelectionTable : List (Nat × CValidator) → SelectionTable → SelectionTable
  | [], t => t
  | pair :: rest, t =>
    if pair.2.status = ValidatorStatus.ACTIVE then
      let weight := validatorWeight pair.2
      collectSelectionTable rest
        { activeValidators := t.activeValidators ++ [pair.2],
          weights := t.weights ++ [weight],
          totalWeight := wrapInt32 (t.totalWeight + weight) }
    else collectSelectionTable rest t

/-- The second loop of `SelectNextValidator`, over `activeValidators[i]` and
`weights[i]` from index `i` on, entered with `cumulativeWeight`; `none` when the
loop ends without a `return`. -/
def selectByWeight (randomValue : Nat) : List CValidator → List Int → Nat → Option CValidator
  | v :: vs, w :: ws, cumulativeWeight =>
    let cumulativeWeight := (cumulativeWeight + (w % 2 ^ 64).toNat) % 2 ^ 64
    if randomValue < cumulativeWeight then some v
    else selectByWeight randomValue vs ws cumulativeWeight
  | _, _, _ => none

/-- `CValidatorRegistry::SelectNextValidator(prevBlockHash, timestamp)`: the
validator pointed to, `none` for `nullptr`. `GetRand` is the random number
generator of `random.h` (not among the sources), applied to `totalWeight`; its
result is stored in a `uint64_t`. The function computes `selectionSeed` from
`prevBlockHash` and `timestamp` and never reads it again. -/
def CValidatorRegistry.SelectNextValidator (GetRand : Int → Nat) (reg : CValidatorRegistry)
    (prevBlockHash : Nat) (timestamp : Int) : Option CValidator :=
  let _ := prevBlockHash
  let _ := timestamp
  let t := collectSelectionTable reg.validators
    { activeValidators := [], weights := [], totalWeight := 0 }
  if t.activeValidators.isEmpty then none
  else
    let randomValue := GetRand t.totalWeight % 2 ^ 64
    match selectByWeight randomValue t.activeValidators t.weights 0 with
    | some v => some v
    | none => t.activeValidators.getLast?

/-! ### Validator eligibility (`kernel.cpp` lines 808-906) -/

/-- Modelled from the spec: an entry of the UTXO view (`coins.h` is not among the
sources): the outpoint, the script and value of the output, and whether it is
spent. -/
structure Coin where
  outpoint : COutPoint
  scriptPubKey : List Nat
  nValue : Int
  fSpent : Bool
deriving DecidableEq, Repr

/-- `view.GetCoin(outpoint, coin)`: the coin of the view at `outpoint`. -/
def GetCoin (view : List Coin) (outpoint : COutPoint) : Option Coin :=
  view.find? (fun c => c.outpoint = outpoint)

/-- The second loop of `CheckValidatorMinimumStake(scriptPubKey, chainstate)`, a
range-`for` over `vOutPoints`, at the outpoints still to visit and entered with
`totalStake`: the total when the loop ends, `none` when it runs into undefined
behaviour. For a coin that is unspent and pays the script the body adds the
value and then calls `vOutPoints.push_back(outpoint)` on the vector the loop
runs over; this invalidates the iterators the loop goes on with (the end
iterator always, all of them when the vector reallocates), so the behaviour is
undefined from there on. -/
def checkValidatorMinimumStakeLoop (view : List Coin) (scriptPubKey : List Nat) :
    List COutPoint → Int → Option Int
  | [], totalStake => some totalStake
  | outpoint :: rest, totalStake =>
    match GetCoin view outpoint with
    | none => checkValidatorMinimumStakeLoop view scriptPubKey rest totalStake
    | some coin =>
      if coin.fSpent then checkValidatorMinimumStakeLoop view scriptPubKey rest totalStake
      else if coin.scriptPubKey = scriptPubKey then
        -- `totalStake += coin.out.nValue; vOutPoints.push_back(outpoint);`
        let _ := totalStake + coin.nValue
        none
      else checkValidatorMinimumStakeLoop view scriptPubKey rest totalStake

/-- `CheckValidatorMinimumStake(scriptPubKey, chainstate)`; `view` is the UTXO
set of `chainstate.CoinsTip()` in cursor order. The first loop collects the
outpoints of the unspent coins paying `scriptPubKey`; the second loop is
`checkValidatorMinimumStakeLoop`. -/
def CheckValidatorMinimumStakeScript (view : List Coin) (scriptPubKey : List Nat) :
    Outcome Bool :=
  let vOutPoints :=
    (view.filter (fun coin => !coin.fSpent && decide (coin.scriptPubKey = scriptPubKey))).map
      (fun coin => coin.outpoint)
  match checkValidatorMinimumStakeLoop view scriptPubKey vOutPoints 0 with
  | none => Outcome.undefined
  | some totalStake =>
    if totalStake < VALIDATOR_MIN_STAKE then Outcome.returned false else Outcome.returned true

/-- `IsValidatorEligible(validator, chainstate)`. -/
def IsValidatorEligible (view : List Coin) (validator : CValidator) : Outcome Bool :=
  if validator.status ≠ ValidatorStatus.ACTIVE then Outcome.returned false
  else if validator.status = ValidatorStatus.SLASHED then Outcome.returned false
  else if validator.stakedAmount < VALIDATOR_MIN_STAKE then Outcome.returned false
  else
    match CheckValidatorMinimumStakeScript view validator.scriptPubKey with
    | Outcome.returned stakeVerified =>
      if !stakeVerified then Outcome.returned false else Outcome.returned true
    | Outcome.thrown => Outcome.thrown
    | Outcome.undefined => Outcome.undefined

/-! ### Sequences of registry operations -/

/-- A call on the registry, or on the validator that `GetValidator` returns for
an id (`Activate`, `Deactivate`, `Slash`). -/
inductive RegistryOp where
  | register (scriptPubKey : List Nat) (stakedAmount : Int) (registrationTime : Int)
  | remove (validatorId : Nat)
  | updateReputation (validatorId : Nat) (producedBlock : Bool)
  | activate (validatorId : Nat) (activationTime : Int)
  | deactivate (validatorId : Nat) (deactivationTime : Int)
  | slash (validatorId : Nat) (slashTime : Int) (slashedAmountOf : Int → Int)

/-- The registry after one operation. A validator method called for an id that
`GetValidator` does not find is not a call at all and leaves the registry as it
is. -/
def applyOp (H : List Nat → Nat) (serializeScript : List Nat → List Nat)
    (reg : CValidatorRegistry) : RegistryOp → CValidatorRegistry
  | RegistryOp.register scriptPubKey stakedAmount registrationTime =>
    (reg.RegisterValidator H serializeScript scriptPubKey stakedAmount registrationTime).2
  | RegistryOp.remove validatorId => (reg.RemoveValidator validatorId).2
  | RegistryOp.updateReputation validatorId producedBlock =>
    reg.UpdateValidatorReputation validatorId producedBlock
  | RegistryOp.activate validatorId activationTime =>
    { validators := mapModify validatorId (fun v => v.Activate activationTime) reg.validators }
  | RegistryOp.deactivate validatorId deactivationTime =>
    { validators :=
        mapModify validatorId (fun v => v.Deactivate deactivationTime) reg.validators }
  | RegistryOp.slash validatorId slashTime slashedAmountOf =>
    { validators :=
        mapModify validatorId (fun v => (v.Slash slashTime slashedAmountOf).2) reg.validators }

/-- The registry after a sequence of operations, first to last. -/
def applyOps (H : List Nat → Nat) (serializeScript : List Nat → List Nat)
    (reg : CValidatorRegistry) (ops : List RegistryOp) : CValidatorRegistry :=
  ops.foldl (applyOp H serializeScript) reg

/-! ## Example validators -/

/-- A stand-in hash for the examples. -/
def exHash : List Nat → Nat := fun bytes => bytes.sum + 1000

/-- The serialisation of a short script: its length, then its bytes. -/
def exSerialize : List Nat → List Nat := fun script => script.length :: script

def exScriptA : List Nat := [118, 169, 1]

def exScriptB : List Nat := [118, 169, 2]

/-- The registry after registering `exScriptA` with 100 coins and `exScriptB`
with 32 coins. -/
def exRegistry : CValidatorRegistry :=
  applyOps exHash exSerialize { validators := [] }
    [RegistryOp.register exScriptA (100 * COIN) 1700000000,
     RegistryOp.register exScriptB (32 * COIN) 1700000100]

/-- The id under which `exScriptA` is registered. -/
def exIdA : Nat := Hash256 exHash (exSerialize exScriptA)

/-- The id under which `exScriptB` is registered. -/
def exIdB : Nat := Hash256 exHash (exSerialize exScriptB)

/-- `exRegistry` with both validators activated. -/
def exActiveRegistry : CValidatorRegistry :=
  applyOps exHash exSerialize exRegistry
    [RegistryOp.activate exIdA 1700000500, RegistryOp.activate exIdB 1700000600]

/-- A history of one validator: registered, activated, slashed by a tenth of
its stake, then charged with a missed block. -/
def exOps : List RegistryOp :=
  [RegistryOp.register exScriptA (100 * COIN) 1700000000,
   RegistryOp.activate exIdA 1700000500,
   RegistryOp.slash exIdA 1700001000 (fun s => s.tdiv 10),
   RegistryOp.updateReputation exIdA false]

/-- The registry entry of that validator after `exOps`. -/
def exSlashedValidator : CValidator :=
  { scriptPubKey := exScriptA, stakedAmount := 90 * COIN, status := ValidatorStatus.SLASHED,
    reputation :=
      { blocksProduced := 0, blocksMissed := 1, slashableOffenses := 1, reputationScore := 40,
        firstActiveTime := 1700000500, lastActiveTime := 1700000500, totalActiveTime := 0 },
    registrationTime := 1700000000, validatorId := exIdA }

/-- A UTXO view with one unspent output of 90 coins paying `exScriptA`. -/
def exView : List Coin :=
  [{ outpoint := { hash := 77, n := 0 }, scriptPubKey := exScriptA, nValue := 90 * COIN,
     fSpent := false }]

/-- The selection weight in the words of the specification:
`(stake / COIN) * (reputation_score / 10 + 1)` with integer division. -/
def selectionWeight_spec (v : CValidator) : Int :=
  v.stakedAmount / COIN * (v.reputation.reputationScore / 10 + 1)

/-! ## The minter and the validator RPCs (`node/miner.cpp`, `rpc/validator.cpp`) -/

/-- The bookkeeping of `PoSMiner` after `ProcessBlockFound` has returned
(`node/miner.cpp` lines 723-729): when `GetValidator(ourValidatorId)` finds our
validator, `validator->reputation.blocksProduced++` through the pointer, then
`UpdateValidatorReputation(ourValidatorId, true)`. -/
def PoSMinerUpdateReputation (reg : CValidatorRegistry) (ourValidatorId : Nat) :
    CValidatorRegistry :=
  match reg.GetValidator ourValidatorId with
  | none => reg
  | some _ =>
    let reg : CValidatorRegistry :=
      { validators :=
          mapModify ourValidatorId
            (fun v =>
              { v with reputation :=
                  { v.reputation with
                    blocksProduced := (v.reputation.blocksProduced + 1) % 2 ^ 32 } })
            reg.validators }
    reg.UpdateValidatorReputation ourValidatorId true

/-- The `registervalidator` RPC (`rpc/validator.cpp` lines 56-111) from the parsed
`stake_amount` on: the reported `validator_id`, `none` when a `JSONRPCError` is
thrown, and the registry afterwards. `available_balance` is the trusted balance
of the wallet, `scriptPubKey` the script of the destination, `registration_time`
the value of `GetTime()`. The reported id is `Hash(scriptPubKey)`, the hash of
the bytes of the script. -/
def registervalidator (H : List Nat → Nat) (serializeScript : List Nat → List Nat)
    (reg : CValidatorRegistry) (stake_amount available_balance : Int)
    (scriptPubKey : List Nat) (registration_time : Int) : Option Nat × CValidatorRegistry :=
  if stake_amount < 32 * COIN then (none, reg)
  else if available_balance < stake_amount then (none, reg)
  else
    let r := reg.RegisterValidator H serializeScript scriptPubKey stake_amount registration_time
    if !r.1 then (none, r.2)
    else
      let validator_id := Hash256 H scriptPubKey
      (some validator_id, r.2)

/-- The lookup of the `getvalidatorinfo` RPC (`rpc/validator.cpp` lines 247-255):
the validator it goes on to describe, `none` when it throws "Validator not
found". -/
def getvalidatorinfo (reg : CValidatorRegistry) (validator_id : Nat) : Option CValidator :=
  reg.GetValidator validator_id

/-! ## Further examples -/

/-- The entry of `exScriptA` once registered with 100 coins and activated. -/
def exActiveValidatorA : CValidator :=
  { scriptPubKey := exScriptA, stakedAmount := 100 * COIN, status := ValidatorStatus.ACTIVE,
    reputation :=
      { ValidatorReputation.new with
        firstActiveTime := 1700000500, lastActiveTime := 1700000500 },
    registrationTime := 1700000000, validatorId := exIdA }

/-- `exRegistry` with the validator of `exScriptA` activated, the other one left
as registered. -/
def exOneActiveRegistry : CValidatorRegistry :=
  applyOps exHash exSerialize exRegistry [RegistryOp.activate exIdA 1700000500]

/-- A proof-of-stake block at time 999000. -/
def exStakeBlock : CBlockIndex :=
  { nHeight := 5, nTime := 999000, nFlags := 1, nStakeModifier := 4242,
    nStakeModifierChecksum := 0, hashProofOfStake := 2869085, hashBlock := 515,
    fProofOfStake := true, fGeneratedStakeModifier := false, nStakeEntropyBit := 0 }

/-- A proof-of-work block at time 1000000. -/
def exWorkBlock : CBlockIndex :=
  { nHeight := 6, nTime := 1000000, nFlags := 0, nStakeModifier := 4242,
    nStakeModifierChecksum := 0, hashProofOfStake := 0, hashBlock := 6039696186,
    fProofOfStake := false, fGeneratedStakeModifier := false, nStakeEntropyBit := 0 }

/-- A block index holding these two blocks. -/
def exMixedLookup : Nat → Option CBlockIndex := fun h =>
  if h = 515 then some exStakeBlock
  else if h = 6039696186 then some exWorkBlock
  else none

/-- The two blocks as a candidate list, sorted by time. -/
def exMixedCandidates : List (Int × Nat) := [(999000, 515), (1000000, 6039696186)]

/-- The transaction `exTxPrev` with 20 coins in place of 10 in its output. -/
def exTxPrevLarger : CTransaction := { nTime := 1497408000, vout := [20 * COIN] }

/-- A UTXO view with two unspent outputs of 20 coins each paying `exScriptA`. -/
def exStakeView : List Coin :=
  [{ outpoint := { hash := 77, n := 0 }, scriptPubKey := exScriptA, nValue := 20 * COIN,
     fSpent := false },
   { outpoint := { hash := 78, n := 1 }, scriptPubKey := exScriptA, nValue := 20 * COIN,
     fSpent := false }]

/-- Two Active validators: `exScriptA` staking 715827883 coins and `exScriptB`
staking 32 coins. -/
def exLargeStakeRegistry : CValidatorRegistry :=
  applyOps exHash exSerialize { validators := [] }
    [RegistryOp.register exScriptA (715827883 * COIN) 1700000000,
     RegistryOp.register exScriptB (32 * COIN) 1700000100,
     RegistryOp.activate exIdA 1700000500, RegistryOp.activate exIdB 1700000600]

/-- The stake of the secondary check in the words of the specification: the sum
of the values of the unspent outputs of the view paying `scriptPubKey`. -/
def utxoStake_spec (view : List Coin) (scriptPubKey : List Nat) : Int :=
  ((view.filter (fun coin => !coin.fSpent && decide (coin.scriptPubKey = scriptPubKey))).map
    (fun coin => coin.nValue)).sum

/-! # Theorems -/

/-- C10: on mainnet and testnet each time-keyed era predicate holds exactly from
the era's switch time of the network on, and each height-gated predicate
(V06, V14, V15) holds exactly when the previous block's time has reached the
switch time and its height exceeds the era's threshold of the network. -/
theorem era_predicates_main_and_testnet (t : Nat) (prev : CBlockIndex) :
    (IsProtocolV03 NetworkID.MAIN t = true ↔ t ≥ nProtocolV03SwitchTime) ∧
    (IsProtocolV03 NetworkID.TESTNET t = true ↔ t ≥ nProtocolV03TestSwitchTime) ∧
    (IsProtocolV04 NetworkID.MAIN t = true ↔ t ≥ nProtocolV04SwitchTime) ∧
    (IsProtocolV04 NetworkID.TESTNET t = true ↔ t ≥ nProtocolV04TestSwitchTime) ∧
    (IsProtocolV05 NetworkID.MAIN t = true ↔ t ≥ nProtocolV05SwitchTime) ∧
    (IsProtocolV05 NetworkID.TESTNET t = true ↔ t ≥ nProtocolV05TestSwitchTime) ∧
    (IsProtocolV07 NetworkID.MAIN t = true ↔ t ≥ nProtocolV07SwitchTime) ∧
    (IsProtocolV07 NetworkID.TESTNET t = true ↔ t ≥ nProtocolV07TestSwitchTime) ∧
    (IsProtocolV09 NetworkID.MAIN t = true ↔ t ≥ nProtocolV09SwitchTime) ∧
    (IsProtocolV09 NetworkID.TESTNET t = true ↔ t ≥ nProtocolV09TestSwitchTime) ∧
    (IsProtocolV10 NetworkID.MAIN t = true ↔ t ≥ nProtocolV10SwitchTime) ∧
    (IsProtocolV10 NetworkID.TESTNET t = true ↔ t ≥ nProtocolV10TestSwitchTime) ∧
    (IsProtocolV06 NetworkID.MAIN prev = true ↔
      prev.nTime ≥ nProtocolV06SwitchTime ∧ prev.nHeight > 339678) ∧
    (IsProtocolV06 NetworkID.TESTNET prev = true ↔
      prev.nTime ≥ nProtocolV06TestSwitchTime ∧ prev.nHeight > 301251) ∧
    (IsProtocolV14 NetworkID.MAIN prev = true ↔
      prev.nTime ≥ nProtocolV14SwitchTime ∧ prev.nHeight > 770395) ∧
    (IsProtocolV14 NetworkID.TESTNET prev = true ↔
      prev.nTime ≥ nProtocolV14TestSwitchTime ∧ prev.nHeight > 573706) ∧
    (IsProtocolV15 NetworkID.MAIN prev = true ↔
      prev.nTime ≥ nProtocolV15SwitchTime ∧ prev.nHeight > 801330) ∧
    (IsProtocolV15 NetworkID.TESTNET prev = true ↔
      prev.nTime ≥ nProtocolV15TestSwitchTime ∧ prev.nHeight > 612775) := by
  refine ⟨?_, ?_, ?_, ?_, ?_, ?_, ?_, ?_, ?_, ?_, ?_, ?_, ?_, ?_, ?_, ?_, ?_, ?_⟩ <;>
    simp [IsProtocolV03, IsProtocolV04, IsProtocolV05, IsProtocolV06, IsProtocolV07,
      IsProtocolV09, IsProtocolV10, IsProtocolV14, IsProtocolV15]

/-- C9: `CheckStakeModifierCheckpoints` accepts exactly when the height is 0, or
the height is absent from the checkpoint map of the network (the testnet map on
testnet, the mainnet map on every other network), or the checksum is the mapped
value; on mainnet height 19080 passes only with 0xad4e4d29 and height 19081
passes with every checksum. -/
theorem checkStakeModifierCheckpoints_iff (net : NetworkID) (nHeight : Int) (checksum : Nat) :
    (CheckStakeModifierCheckpoints net nHeight checksum = true ↔
      nHeight = 0 ∨
      (if net = NetworkID.TESTNET then mapStakeModifierTestnetCheckpoints
        else mapStakeModifierCheckpoints).lookup nHeight = none ∨
      (if net = NetworkID.TESTNET then mapStakeModifierTestnetCheckpoints
        else mapStakeModifierCheckpoints).lookup nHeight = some checksum) ∧
    (CheckStakeModifierCheckpoints NetworkID.MAIN 19080 checksum = true ↔
      checksum = 0xad4e4d29) ∧
    CheckStakeModifierCheckpoints NetworkID.MAIN 19081 checksum = true := by
  refine ⟨?_, ?_, ?_⟩
  · unfold CheckStakeModifierCheckpoints mapCount mapAt
    by_cases h0 : nHeight = 0
    · simp only [h0, if_true, true_or]
    · by_cases hn : net = NetworkID.TESTNET
      · rw [if_neg h0]
        simp only [hn, if_true, decide_True, Bool.true_and, Bool.not_true, Bool.false_and,
          h0, false_or]
        cases hl : List.lookup nHeight mapStakeModifierTestnetCheckpoints with
        | none => simp
        | some v => simp [eq_comm]
      · rw [if_neg h0]
        simp only [hn, if_false, decide_False, Bool.false_and, Bool.not_false, Bool.true_and,
          h0, false_or]
        cases hl : List.lookup nHeight mapStakeModifierCheckpoints with
        | none => simp
        | some v => simp [eq_comm]
  · set_option maxRecDepth 4000 in
    simp [CheckStakeModifierCheckpoints, mapCount, mapAt, mapStakeModifierCheckpoints,
      List.lookup]
  · set_option maxRecDepth 4000 in
    simp [CheckStakeModifierCheckpoints, mapCount, mapAt, mapStakeModifierCheckpoints,
      List.lookup]

/-! ## Stake-modifier checksum -/

/-- C8: the stake-modifier checksum of an index entry is the upper 32 bits
(bits 224..255) of the 256-bit hash of previous checksum, flags,
hashProofOfStake and stake modifier, and for an entry without a parent of the
hash of flags, hashProofOfStake and stake modifier alone; it is below 2^32. -/
theorem getStakeModifierChecksum_high32 (H : List Nat → Nat) (b p : CBlockIndex)
    (rest pprev : List CBlockIndex) :
    GetStakeModifierChecksum H b (p :: rest) =
      Hash256 H (leBytes 4 p.nStakeModifierChecksum ++ leBytes 4 b.nFlags ++
        leBytes 32 b.hashProofOfStake ++ leBytes 8 b.nStakeModifier) / 2 ^ 224 ∧
    GetStakeModifierChecksum H b [] =
      Hash256 H (leBytes 4 b.nFlags ++ leBytes 32 b.hashProofOfStake ++
        leBytes 8 b.nStakeModifier) / 2 ^ 224 ∧
    GetStakeModifierChecksum H b pprev < 2 ^ 32 := by
  refine ⟨?_, ?_, ?_⟩
  · simp only [GetStakeModifierChecksum, Hash256, Nat.shiftRight_eq_div_pow, List.nil_append,
      List.append_assoc]
    omega
  · simp only [GetStakeModifierChecksum, Hash256, Nat.shiftRight_eq_div_pow, List.nil_append]
    omega
  · simp only [GetStakeModifierChecksum]
    omega

/-! ## Kernel hash check -/

/-- The decision of `CheckStakeKernelHash` once both precondition checks pass and
the leading stream bytes `ss0` are available: it returns, accepts exactly when
the hash does not exceed coin-day weight times target, and reports the hash. -/
theorem checkStakeKernelHash_of_checks (params : ConsensusParams) (net : NetworkID)
    (H : List Nat → Nat) (SetCompact : Nat → Int) (cs : Chainstate) (fuel nBits : Nat)
    (pindexPrev : CBlockIndex) (pprev : List CBlockIndex) (blockFrom : CBlockHeader)
    (nTxPrevOffset : Nat) (txPrev : CTransaction) (prevout : COutPoint) (nTimeTx : Nat)
    (ss0 : List Nat)
    (h1 : nTimeTxPrev blockFrom txPrev ≤ nTimeTx)
    (h2 : (blockFrom.nTime : Int) + params.nStakeMinAge ≤ (nTimeTx : Int))
    (h3 : (if IsProtocolV03 net nTimeTx then
        (GetKernelStakeModifier params net cs fuel pindexPrev pprev blockFrom.hash nTimeTx).map
          (Option.map (fun m => leBytes 8 m.1))
      else Outcome.returned (some (leBytes 4 nBits))) = Outcome.returned (some ss0)) :
    CheckStakeKernelHash params net H SetCompact cs fuel nBits pindexPrev pprev blockFrom
        nTxPrevOffset txPrev prevout nTimeTx =
      Outcome.returned
        (decide ((Hash256 H (kernelStream ss0 blockFrom nTxPrevOffset txPrev prevout nTimeTx) : Int)
          ≤ bnCoinDayWeight params net blockFrom txPrev prevout nTimeTx * SetCompact nBits),
        some (Hash256 H (kernelStream ss0 blockFrom nTxPrevOffset txPrev prevout nTimeTx))) := by
  unfold CheckStakeKernelHash
  simp only [h3]
  rw [if_neg (by omega), if_neg (by omega)]
  by_cases hc : (Hash256 H (kernelStream ss0 blockFrom nTxPrevOffset txPrev prevout nTimeTx) : Int)
      > bnCoinDayWeight params net blockFrom txPrev prevout nTimeTx * SetCompact nBits
  · rw [if_pos hc]
    simp [not_le.mpr hc]
  · rw [if_neg hc]
    simp [not_lt.mp hc]

/-- The V03 lookup is left by an exception when the block of `hashBlockFrom` lies
more than one above `pindexPrev`. -/
theorem getKernelStakeModifierV03_thrown (params : ConsensusParams) (cs : Chainstate)
    (fuel : Nat) (pindexPrev pindexFrom : CBlockIndex) (pprev : List CBlockIndex)
    (hashBlockFrom : Nat) (hfrom : cs.LookupBlockIndex hashBlockFrom = some pindexFrom)
    (hdepth : pindexPrev.nHeight + 1 < pindexFrom.nHeight) :
    GetKernelStakeModifierV03 params cs fuel pindexPrev pprev hashBlockFrom = Outcome.thrown := by
  unfold GetKernelStakeModifierV03
  simp only [hfrom]
  rw [if_pos (by omega)]

/-- C2: `CheckStakeKernelHash` returns false, whatever the target, the input
value and the hash, when the coinstake time is before the time of `txPrev`
(its own time if non-zero, else the time of its block) or the block of
`txPrev` is younger than the minimum stake age. -/
theorem checkStakeKernelHash_false_of_time_violation (params : ConsensusParams)
    (net : NetworkID) (H : List Nat → Nat) (SetCompact : Nat → Int) (cs : Chainstate)
    (fuel nBits : Nat) (pindexPrev : CBlockIndex) (pprev : List CBlockIndex)
    (blockFrom : CBlockHeader) (nTxPrevOffset : Nat) (txPrev : CTransaction)
    (prevout : COutPoint) (nTimeTx : Nat)
    (h : nTimeTx < (if txPrev.nTime ≠ 0 then txPrev.nTime else blockFrom.nTime) ∨
      (blockFrom.nTime : Int) + params.nStakeMinAge > (nTimeTx : Int)) :
    CheckStakeKernelHash params net H SetCompact cs fuel nBits pindexPrev pprev blockFrom
        nTxPrevOffset txPrev prevout nTimeTx = Outcome.returned (false, none) := by
  unfold CheckStakeKernelHash
  by_cases h1 : nTimeTx < nTimeTxPrev blockFrom txPrev
  · simp only [h1, if_true]
  · have h2 : (blockFrom.nTime : Int) + params.nStakeMinAge > (nTimeTx : Int) := by
      rcases h with h | h
      · exact absurd h h1
      · exact h
    simp only [h1, if_false, h2, if_true]

set_option maxRecDepth 100000 in
/-- Witness of C2: a coinstake 100 seconds short of the minimum stake age. -/
theorem checkStakeKernelHash_false_of_time_violation_witness :
    ((1499999900 : Nat) < (if exTxPrev.nTime ≠ 0 then exTxPrev.nTime else exBlockFrom.nTime) ∨
      (exBlockFrom.nTime : Int) + exParams.nStakeMinAge > ((1499999900 : Nat) : Int)) ∧
    CheckStakeKernelHash exParams NetworkID.MAIN (fun _ => 0) exSetCompact exChainstate 0
        0x1d00ffff exPrev [exAncestor] exBlockFrom 81 exTxPrev exPrevout 1499999900 =
      Outcome.returned (false, none) :=
  ⟨by decide,
    checkStakeKernelHash_false_of_time_violation exParams NetworkID.MAIN (fun _ => 0)
      exSetCompact exChainstate 0 0x1d00ffff exPrev [exAncestor] exBlockFrom 81 exTxPrev
      exPrevout 1499999900 (by decide)⟩

/-- C3: in `CheckStakeKernelHash` the time weight is
`min(t_tx - t_tx_prev, StakeMaxAge) - (V03 ? StakeMinAge : 0)` and the coin-day
weight is `value_in * time_weight / COIN / 86400`, the two truncating divisions
taken in that order; these are the weights the final comparison uses; and from
`t_tx = t_tx_prev + StakeMaxAge` on the time weight is
`StakeMaxAge - (V03 ? StakeMinAge : 0)`. -/
theorem checkStakeKernelHash_weights (params : ConsensusParams) (net : NetworkID)
    (H : List Nat → Nat) (SetCompact : Nat → Int) (cs : Chainstate) (fuel nBits : Nat)
    (pindexPrev : CBlockIndex) (pprev : List CBlockIndex) (blockFrom : CBlockHeader)
    (nTxPrevOffset : Nat) (txPrev : CTransaction) (prevout : COutPoint) (nTimeTx : Nat)
    (ss0 : List Nat) :
    nTimeWeight params net blockFrom txPrev nTimeTx =
      min ((nTimeTx : Int) - ((if txPrev.nTime ≠ 0 then txPrev.nTime else blockFrom.nTime : Nat) : Int))
          params.nStakeMaxAge -
        (if IsProtocolV03 net nTimeTx = true then params.nStakeMinAge else 0) ∧
    bnCoinDayWeight params net blockFrom txPrev prevout nTimeTx =
      (((txPrev.vout[prevout.n]?).getD 0 * nTimeWeight params net blockFrom txPrev nTimeTx).tdiv
        100000000).tdiv 86400 ∧
    ((if txPrev.nTime ≠ 0 then txPrev.nTime else blockFrom.nTime) ≤ nTimeTx →
      (blockFrom.nTime : Int) + params.nStakeMinAge ≤ (nTimeTx : Int) →
      (if IsProtocolV03 net nTimeTx then
          (GetKernelStakeModifier params net cs fuel pindexPrev pprev blockFrom.hash
            nTimeTx).map (Option.map (fun m => leBytes 8 m.1))
        else Outcome.returned (some (leBytes 4 nBits))) = Outcome.returned (some ss0) →
      CheckStakeKernelHash params net H SetCompact cs fuel nBits pindexPrev pprev blockFrom
          nTxPrevOffset txPrev prevout nTimeTx =
        Outcome.returned
          (decide
            ((Hash256 H (kernelStream ss0 blockFrom nTxPrevOffset txPrev prevout nTimeTx) : Int) ≤
              (((txPrev.vout[prevout.n]?).getD 0 *
                  (min ((nTimeTx : Int) -
                      ((if txPrev.nTime ≠ 0 then txPrev.nTime else blockFrom.nTime : Nat) : Int))
                    params.nStakeMaxAge -
                  (if IsProtocolV03 net nTimeTx = true then params.nStakeMinAge else 0))).tdiv
                100000000).tdiv 86400 * SetCompact nBits),
            some (Hash256 H (kernelStream ss0 blockFrom nTxPrevOffset txPrev prevout nTimeTx)))) ∧
    ((nTimeTx : Int) ≥
        ((if txPrev.nTime ≠ 0 then txPrev.nTime else blockFrom.nTime : Nat) : Int) +
          params.nStakeMaxAge →
      nTimeWeight params net blockFrom txPrev nTimeTx =
        params.nStakeMaxAge -
          (if IsProtocolV03 net nTimeTx = true then params.nStakeMinAge else 0)) := by
  refine ⟨rfl, rfl, ?_, ?_⟩
  · intro h1 h2 h3
    exact checkStakeKernelHash_of_checks params net H SetCompact cs fuel nBits pindexPrev pprev
      blockFrom nTxPrevOffset txPrev prevout nTimeTx ss0 h1 h2 h3
  · intro h
    unfold nTimeWeight nTimeTxPrev
    rw [min_eq_right (by omega)]

set_option maxRecDepth 100000 in
/-- Witness of C3: the 10-coin output staked exactly `StakeMaxAge` after its
confirmation, under v0.5: time weight 60 days, coin-day weight 600. -/
theorem checkStakeKernelHash_weights_witness :
    nTimeWeight exParams NetworkID.MAIN exBlockFrom exTxPrev 1505184000 = 5184000 ∧
    bnCoinDayWeight exParams NetworkID.MAIN exBlockFrom exTxPrev exPrevout 1505184000 = 600 ∧
    CheckStakeKernelHash exParams NetworkID.MAIN (fun _ => 12345) exSetCompact exChainstate 0
        0x1d00ffff exPrevLate [exAncestor] exBlockFrom 81 exTxPrev exPrevout 1505184000 =
      Outcome.returned (true, some 12345) ∧
    nTimeWeight exParams NetworkID.MAIN exBlockFrom exTxPrev 1505184000 =
      exParams.nStakeMaxAge - exParams.nStakeMinAge := by
  have h := checkStakeKernelHash_weights exParams NetworkID.MAIN (fun _ => 12345) exSetCompact
    exChainstate 0 0x1d00ffff exPrevLate [exAncestor] exBlockFrom 81 exTxPrev exPrevout
    1505184000 (leBytes 8 77)
  refine ⟨by decide, by decide, ?_, ?_⟩
  · rw [h.2.2.1 (by decide) (by decide) (by decide)]
    decide
  · rw [h.2.2.2 (by decide)]
    decide

/-! ## Stake modifier engine: the epoch gate -/

/-- `GetLastStakeModifier` finds the nearest entry of the chain that generated a
stake modifier and reports an error exactly when there is none. -/
theorem getLastStakeModifier_eq_find (chain : List CBlockIndex) :
    GetLastStakeModifier chain =
      (chain.find? (fun b => b.fGeneratedStakeModifier)).map
        (fun b => (b.nStakeModifier, (b.nTime : Int))) := by
  induction chain with
  | nil => rfl
  | cons b rest ih =>
    cases rest with
    | nil => by_cases hb : b.fGeneratedStakeModifier <;> simp [GetLastStakeModifier, hb]
    | cons p rest =>
      by_cases hb : b.fGeneratedStakeModifier
      · simp [GetLastStakeModifier, hb]
      · simp only [GetLastStakeModifier, hb, ih]
        simp [List.find?, hb]

/-- C4: for a non-genesis block `current` with parent `prev`, let `g` be the
nearest ancestor of `prev` (`prev` included) that generated a modifier. If the
modifier interval is positive and `g` lies in the epoch of `prev` or later, or
v0.4 is active at `current.time` and `g` lies in the epoch of `current` or
later, `ComputeNextStakeModifier` succeeds with the modifier of `g` and
`generated = false`. Epochs are `floor(time / nModifierInterval)`. -/
theorem computeNextStakeModifier_epoch_gate (params : ConsensusParams) (net : NetworkID)
    (H : List Nat → Nat) (LookupBlockIndex : Nat → Option CBlockIndex) (rnd : Nat → Nat)
    (current prev g : CBlockIndex) (rest : List CBlockIndex)
    (hT : 0 < params.nModifierInterval)
    (hg : (prev :: rest).find? (fun b => b.fGeneratedStakeModifier) = some g)
    (hgate : (g.nTime : Int) / params.nModifierInterval ≥
          (prev.nTime : Int) / params.nModifierInterval ∨
        (IsProtocolV04 net current.nTime = true ∧
          (g.nTime : Int) / params.nModifierInterval ≥
            (current.nTime : Int) / params.nModifierInterval)) :
    ComputeNextStakeModifier params net H LookupBlockIndex rnd current (prev :: rest) =
      some (g.nStakeModifier, false) := by
  have hdiv : ∀ n : Nat, (n : Int).tdiv params.nModifierInterval =
      (n : Int) / params.nModifierInterval :=
    fun n => Int.tdiv_eq_ediv (Int.ofNat_nonneg n) (le_of_lt hT)
  unfold ComputeNextStakeModifier
  simp only [getLastStakeModifier_eq_find, hg, Option.map_some', hdiv]
  by_cases h1 : (g.nTime : Int) / params.nModifierInterval ≥
      (prev.nTime : Int) / params.nModifierInterval
  · rw [if_pos h1]
  · rw [if_neg h1]
    rcases hgate with h | ⟨h4, h2⟩
    · exact absurd h h1
    · rw [if_pos ⟨h2, h4⟩]

set_option maxRecDepth 100000 in
/-- Witness of C4: last modifier at time 999000, `prev` at time 1000000 and a
modifier interval of 21600: both lie in epoch 46. -/
theorem computeNextStakeModifier_epoch_gate_witness :
    (0 : Int) < exParams.nModifierInterval ∧
    [exGatePrev, exGateAncestor].find? (fun b => b.fGeneratedStakeModifier) =
      some exGateAncestor ∧
    (exGateAncestor.nTime : Int) / exParams.nModifierInterval = 46 ∧
    (exGatePrev.nTime : Int) / exParams.nModifierInterval = 46 ∧
    ComputeNextStakeModifier exParams NetworkID.MAIN (fun _ => 0) (fun _ => none) (fun _ => 0)
        exGateCurrent [exGatePrev, exGateAncestor] = some (4242, false) :=
  ⟨by decide, by decide, by decide, by decide,
    computeNextStakeModifier_epoch_gate exParams NetworkID.MAIN (fun _ => 0) (fun _ => none)
      (fun _ => 0) exGateCurrent exGatePrev exGateAncestor [exGateAncestor] (by decide)
      (by decide) (Or.inl (by decide))⟩

/-! ## Kernel stake modifier, V05 -/

/-- The V05 walk stops at once when the current modifier time is old enough. -/
theorem kernelModifierWalkV05_done (params : ConsensusParams) (S : Int) (nTimeTx : Nat)
    (pindex : CBlockIndex) (h t : Int) (l : List CBlockIndex)
    (hold : ¬ t + params.nStakeMinAge - S > (nTimeTx : Int)) :
    kernelModifierWalkV05 params S nTimeTx pindex h t l = some (pindex.nStakeModifier, h, t) := by
  cases l <;> simp only [kernelModifierWalkV05, if_neg hold]

/-- The V05 walk, started while the current modifier time is too recent, ends at
the first entry that generated a modifier and is old enough. -/
theorem kernelModifierWalkV05_eq_find (params : ConsensusParams) (S : Int) (nTimeTx : Nat)
    (l : List CBlockIndex) :
    ∀ (pindex : CBlockIndex) (h t : Int), t + params.nStakeMinAge - S > (nTimeTx : Int) →
      kernelModifierWalkV05 params S nTimeTx pindex h t l =
        (l.find? (fun b => b.fGeneratedStakeModifier &&
            decide ((b.nTime : Int) + params.nStakeMinAge - S ≤ (nTimeTx : Int)))).map
          (fun b => (b.nStakeModifier, b.nHeight, (b.nTime : Int))) := by
  induction l with
  | nil =>
    intro pindex h t hyoung
    simp only [kernelModifierWalkV05, if_pos hyoung, List.find?, Option.map_none']
  | cons p rest ih =>
    intro pindex h t hyoung
    simp only [kernelModifierWalkV05, if_pos hyoung]
    by_cases hgen : p.fGeneratedStakeModifier = true
    · rw [if_pos hgen]
      by_cases hp : (p.nTime : Int) + params.nStakeMinAge - S ≤ (nTimeTx : Int)
      · rw [kernelModifierWalkV05_done params S nTimeTx p _ _ rest (by omega)]
        simp [List.find?, hgen, hp]
      · rw [ih p _ _ (by omega)]
        simp [List.find?, hgen, hp]
    · rw [if_neg hgen, ih p h t hyoung]
      simp [List.find?, hgen]

/-- C7, as amended: when `prev` itself has
`block_time + StakeMinAge - S ≤ tx_time` the V05 lookup reports unavailable;
otherwise it returns the stake modifier (with height and time) of the most
recent strict ancestor of `prev` that generated a stake modifier and has
`block_time + StakeMinAge - S ≤ tx_time`, and reports unavailable exactly when
no ancestor is such. -/
theorem getKernelStakeModifierV05_eq (params : ConsensusParams) (pindexPrev : CBlockIndex)
    (pprev : List CBlockIndex) (nTimeTx : Nat) :
    GetKernelStakeModifierV05 params pindexPrev pprev nTimeTx =
      if (pindexPrev.nTime : Int) + params.nStakeMinAge -
          GetStakeModifierSelectionInterval params ≤ (nTimeTx : Int) then none
      else
        (pprev.find? (fun b => b.fGeneratedStakeModifier &&
            decide ((b.nTime : Int) + params.nStakeMinAge -
              GetStakeModifierSelectionInterval params ≤ (nTimeTx : Int)))).map
          (fun b => (b.nStakeModifier, b.nHeight, (b.nTime : Int))) := by
  unfold GetKernelStakeModifierV05
  by_cases h : (pindexPrev.nTime : Int) + params.nStakeMinAge -
      GetStakeModifierSelectionInterval params ≤ (nTimeTx : Int)
  · simp only [h, if_true]
  · simp only [h, if_false]
    exact kernelModifierWalkV05_eq_find params _ nTimeTx pprev pindexPrev _ _ (by omega)

set_option maxRecDepth 100000 in
/-- C7 fails as stated: with `prev = exAncestor` (time 1497000000, modifier 77)
and `tx_time = 1500000000`, `prev` itself is old enough, so the specification's
lookup yields its modifier 77, but the code reports unavailable. -/
theorem getKernelStakeModifierV05_prev_old_enough :
    kernelStakeModifierV05_spec exParams [exAncestor, exGateAncestor] 1500000000 = some 77 ∧
    GetKernelStakeModifierV05 exParams exAncestor [exGateAncestor] 1500000000 = none := by
  decide

/-! ## Block selection -/

/-- Once a block is selected, the loop of `SelectBlockFromCandidates` over a list
sorted by time ends with the first block of least selection hash among the
selected one and the later unselected candidates up to the cutoff. -/
theorem selectLoop_selected (H : List Nat → Nat) (L : Nat → Option CBlockIndex)
    (sel : List Nat) (stop : Int) (M : Nat) (v : List (Int × Nat)) :
    (∀ it ∈ v, ∃ b, L it.2 = some b ∧ (b.nTime : Int) = it.1) →
    v.Pairwise (fun a b => a.1 ≤ b.1) →
    ∀ p : CBlockIndex,
      ∃ q, selectLoop H L sel stop M v
          { fSelected := true, hashBest := hashSelection H M p, pindexSelected := some p } =
          some { fSelected := true, hashBest := hashSelection H M q, pindexSelected := some q } ∧
        (q = p ∨ ∃ it ∈ v, L it.2 = some q ∧ q.hashBlock ∉ sel ∧ (q.nTime : Int) ≤ stop) ∧
        hashSelection H M q ≤ hashSelection H M p ∧
        ∀ it ∈ v, ∀ c, L it.2 = some c → c.hashBlock ∉ sel → (c.nTime : Int) ≤ stop →
          hashSelection H M q ≤ hashSelection H M c := by
  induction v with
  | nil =>
    intro _ _ p
    exact ⟨p, rfl, Or.inl rfl, le_refl _, by simp⟩
  | cons item rest ih =>
    intro hlook hsorted p
    obtain ⟨b, hb, hbt⟩ := hlook item (List.mem_cons_self _ _)
    have hlook' : ∀ it ∈ rest, ∃ b, L it.2 = some b ∧ (b.nTime : Int) = it.1 :=
      fun it hit => hlook it (List.mem_cons_of_mem _ hit)
    have hsorted' := (List.pairwise_cons.mp hsorted).2
    have hle := (List.pairwise_cons.mp hsorted).1
    simp only [selectLoop, hb]
    by_cases hstop : (b.nTime : Int) > stop
    · -- break
      refine ⟨p, by simp [hstop], Or.inl rfl, le_refl _, ?_⟩
      intro it hit c hc _ hct
      exfalso
      rcases List.mem_cons.mp hit with h | h
      · subst h
        rw [hb] at hc
        cases hc
        omega
      · obtain ⟨c', hc', hct'⟩ := hlook' it h
        rw [hc] at hc'
        cases hc'
        have := hle it h
        omega
    · simp only [hstop, decide_False, Bool.and_false, Bool.false_eq_true, if_false]
      by_cases hsel : sel.contains b.hashBlock = true
      · -- continue
        rw [if_pos hsel]
        obtain ⟨q, hq, hq1, hq2, hq3⟩ := ih hlook' hsorted' p
        refine ⟨q, hq, ?_, hq2, ?_⟩
        · rcases hq1 with h | ⟨it, hit, h⟩
          · exact Or.inl h
          · exact Or.inr ⟨it, List.mem_cons_of_mem _ hit, h⟩
        · intro it hit c hc hcs hct
          rcases List.mem_cons.mp hit with h | h
          · subst h
            rw [hb] at hc
            cases hc
            exact absurd (by simpa using hsel) hcs
          · exact hq3 it h c hc hcs hct
      · rw [if_neg hsel]
        have hbs : b.hashBlock ∉ sel := by simpa using hsel
        by_cases hlt : hashSelection H M b < hashSelection H M p
        · simp only [Bool.true_and, hlt, decide_True, if_true]
          obtain ⟨q, hq, hq1, hq2, hq3⟩ := ih hlook' hsorted' b
          refine ⟨q, hq, ?_, by omega, ?_⟩
          · rcases hq1 with h | ⟨it, hit, h⟩
            · exact Or.inr ⟨item, List.mem_cons_self _ _, h ▸ hb, h ▸ hbs, h ▸ (by omega)⟩
            · exact Or.inr ⟨it, List.mem_cons_of_mem _ hit, h⟩
          · intro it hit c hc hcs hct
            rcases List.mem_cons.mp hit with h | h
            · subst h
              rw [hb] at hc
              cases hc
              exact hq2
            · exact hq3 it h c hc hcs hct
        · simp only [Bool.true_and, hlt, decide_False, Bool.false_eq_true, if_false,
            Bool.not_true]
          obtain ⟨q, hq, hq1, hq2, hq3⟩ := ih hlook' hsorted' p
          refine ⟨q, hq, ?_, hq2, ?_⟩
          · rcases hq1 with h | ⟨it, hit, h⟩
            · exact Or.inl h
            · exact Or.inr ⟨it, List.mem_cons_of_mem _ hit, h⟩
          · intro it hit c hc hcs hct
            rcases List.mem_cons.mp hit with h | h
            · subst h
              rw [hb] at hc
              cases hc
              omega
            · exact hq3 it h c hc hcs hct

/-- Before anything is selected, the loop skips the already selected candidates
and takes the first one that is not, whatever its time. -/
theorem selectLoop_unselected (H : List Nat → Nat) (L : Nat → Option CBlockIndex)
    (sel : List Nat) (stop : Int) (M : Nat) (pre : List (Int × Nat)) (item : Int × Nat)
    (post : List (Int × Nat)) (x : CBlockIndex) (hb : Nat) (ps : Option CBlockIndex)
    (hpre : ∀ it ∈ pre, ∃ c, L it.2 = some c ∧ c.hashBlock ∈ sel)
    (hx : L item.2 = some x) (hxs : x.hashBlock ∉ sel) :
    selectLoop H L sel stop M (pre ++ item :: post)
        { fSelected := false, hashBest := hb, pindexSelected := ps } =
      selectLoop H L sel stop M post
        { fSelected := true, hashBest := hashSelection H M x, pindexSelected := some x } := by
  induction pre with
  | nil =>
    simp [selectLoop, hx, hxs]
  | cons a rest ih =>
    obtain ⟨c, hc, hcs⟩ := hpre a (List.mem_cons_self _ _)
    have : sel.contains c.hashBlock = true := by simpa using hcs
    simp only [List.cons_append, selectLoop, hc, Bool.false_and, Bool.false_eq_true, if_false,
      this, if_true]
    exact ih (fun it hit => hpre it (List.mem_cons_of_mem _ hit))

/-- A list with a not yet selected candidate splits at the first such one. -/
theorem exists_first_unselected (L : Nat → Option CBlockIndex) (sel : List Nat)
    (v : List (Int × Nat)) :
    (∀ it ∈ v, ∃ b, L it.2 = some b ∧ (b.nTime : Int) = it.1) →
    (∃ it ∈ v, ∃ b, L it.2 = some b ∧ b.hashBlock ∉ sel) →
    ∃ pre item post x, v = pre ++ item :: post ∧
      (∀ it ∈ pre, ∃ c, L it.2 = some c ∧ c.hashBlock ∈ sel) ∧
      L item.2 = some x ∧ x.hashBlock ∉ sel := by
  induction v with
  | nil =>
    intro _ hex
    obtain ⟨it, hit, _⟩ := hex
    cases hit
  | cons a rest ih =>
    intro hlook hex
    obtain ⟨b, hb, _⟩ := hlook a (List.mem_cons_self _ _)
    by_cases hbs : b.hashBlock ∈ sel
    · have hex' : ∃ it ∈ rest, ∃ b, L it.2 = some b ∧ b.hashBlock ∉ sel := by
        obtain ⟨it, hit, c, hc, hcs⟩ := hex
        rcases List.mem_cons.mp hit with h | h
        · subst h
          rw [hb] at hc
          cases hc
          exact absurd hbs hcs
        · exact ⟨it, h, c, hc, hcs⟩
      obtain ⟨pre, item, post, x, hv, hpre, hx, hxs⟩ :=
        ih (fun it hit => hlook it (List.mem_cons_of_mem _ hit)) hex'
      refine ⟨a :: pre, item, post, x, by rw [hv]; rfl, ?_, hx, hxs⟩
      intro it hit
      rcases List.mem_cons.mp hit with h | h
      · subst h
        exact ⟨b, hb, hbs⟩
      · exact hpre it h
    · exact ⟨[], a, rest, b, rfl, by simp, hb, hbs⟩

/-- C5, as amended: on a candidate list sorted by time whose entries are all in
the block index and not all selected yet, `SelectBlockFromCandidates` returns a
block of the list that is not already selected. If some not yet selected
candidate has time ≤ cutoff, the returned block has time ≤ cutoff and the
smallest selection hash among the not yet selected candidates with time ≤
cutoff. If none has, the returned block is the first not yet selected candidate
of the list, and its time exceeds the cutoff. -/
theorem selectBlockFromCandidates_result (H : List Nat → Nat)
    (LookupBlockIndex : Nat → Option CBlockIndex) (v : List (Int × Nat)) (sel : List Nat)
    (stop : Int) (M : Nat)
    (hlook : ∀ it ∈ v, ∃ b, LookupBlockIndex it.2 = some b ∧ (b.nTime : Int) = it.1)
    (hsorted : v.Pairwise (fun a b => a.1 ≤ b.1))
    (hex : ∃ it ∈ v, ∃ b, LookupBlockIndex it.2 = some b ∧ b.hashBlock ∉ sel) :
    ∃ q, SelectBlockFromCandidates H LookupBlockIndex v sel stop M = some q ∧
      q.hashBlock ∉ sel ∧
      (∃ it ∈ v, LookupBlockIndex it.2 = some q) ∧
      ((∃ it ∈ v, ∃ c, LookupBlockIndex it.2 = some c ∧ c.hashBlock ∉ sel ∧
            (c.nTime : Int) ≤ stop) →
        (q.nTime : Int) ≤ stop ∧
        ∀ it ∈ v, ∀ c, LookupBlockIndex it.2 = some c → c.hashBlock ∉ sel →
          (c.nTime : Int) ≤ stop → hashSelection H M q ≤ hashSelection H M c) ∧
      ((¬ ∃ it ∈ v, ∃ c, LookupBlockIndex it.2 = some c ∧ c.hashBlock ∉ sel ∧
            (c.nTime : Int) ≤ stop) →
        stop < (q.nTime : Int) ∧
        ∃ pre item post, v = pre ++ item :: post ∧ LookupBlockIndex item.2 = some q ∧
          ∀ it ∈ pre, ∃ c, LookupBlockIndex it.2 = some c ∧ c.hashBlock ∈ sel) := by
  obtain ⟨pre, item, post, x, hv, hpre, hx, hxs⟩ :=
    exists_first_unselected LookupBlockIndex sel v hlook hex
  subst hv
  have hitem : item ∈ pre ++ item :: post := by simp
  have hpost : ∀ it ∈ post, it ∈ pre ++ item :: post := fun it hit => by simp [hit]
  obtain ⟨x', hx', hxt⟩ := hlook item hitem
  rw [hx] at hx'
  cases hx'
  have hs2 := (List.pairwise_append.mp hsorted).2.1
  obtain ⟨q, hq, hq1, hq2, hq3⟩ :=
    selectLoop_selected H LookupBlockIndex sel stop M post
      (fun it hit => hlook it (hpost it hit)) (List.pairwise_cons.mp hs2).2 x
  have hle : ∀ it ∈ post, item.1 ≤ it.1 := (List.pairwise_cons.mp hs2).1
  have hres : SelectBlockFromCandidates H LookupBlockIndex (pre ++ item :: post) sel stop M =
      some q := by
    unfold SelectBlockFromCandidates
    rw [selectLoop_unselected H LookupBlockIndex sel stop M pre item post x 0 none hpre hx hxs,
      hq]
    rfl
  -- every eligible candidate sits at `item` or after it
  have hcases : ∀ it ∈ pre ++ item :: post, ∀ c, LookupBlockIndex it.2 = some c →
      c.hashBlock ∉ sel → c = x ∨ (it ∈ post ∧ (x.nTime : Int) ≤ (c.nTime : Int)) := by
    intro it hit c hc hcs
    rcases List.mem_append.mp hit with h | h
    · obtain ⟨c', hc', hcs'⟩ := hpre it h
      rw [hc] at hc'
      cases hc'
      exact absurd hcs' hcs
    · rcases List.mem_cons.mp h with h | h
      · subst h
        rw [hx] at hc
        cases hc
        exact Or.inl rfl
      · obtain ⟨c', hc', hct'⟩ := hlook it (hpost it h)
        rw [hc] at hc'
        cases hc'
        have := hle it h
        exact Or.inr ⟨h, by omega⟩
  refine ⟨q, hres, ?_, ?_, ?_, ?_⟩
  · rcases hq1 with h | ⟨_, _, _, h, _⟩
    · exact h ▸ hxs
    · exact h
  · rcases hq1 with h | ⟨it, hit, h, _⟩
    · exact ⟨item, hitem, h ▸ hx⟩
    · exact ⟨it, hpost it hit, h⟩
  · rintro ⟨it, hit, c, hc, hcs, hct⟩
    have hxstop : (x.nTime : Int) ≤ stop := by
      rcases hcases it hit c hc hcs with h | ⟨_, h⟩
      · exact h ▸ hct
      · omega
    refine ⟨?_, ?_⟩
    · rcases hq1 with h | ⟨_, _, _, _, h⟩
      · exact h ▸ hxstop
      · exact h
    · intro it' hit' c' hc' hcs' hct'
      rcases hcases it' hit' c' hc' hcs' with h | ⟨h, _⟩
      · exact h ▸ hq2
      · exact hq3 it' h c' hc' hcs' hct'
  · intro hnone
    have hqx : q = x := by
      rcases hq1 with h | ⟨it, hit, h1, h2, h3⟩
      · exact h
      · exact absurd ⟨it, hpost it hit, q, h1, h2, h3⟩ hnone
    subst hqx
    refine ⟨?_, pre, item, post, rfl, hx, hpre⟩
    by_contra hcon
    exact hnone ⟨item, hitem, q, hx, hxs, by omega⟩

set_option maxRecDepth 100000 in
/-- Witness of C5 as amended: the two candidates with cutoff 999500; only the
first has time ≤ cutoff. -/
theorem selectBlockFromCandidates_result_witness :
    ∃ q, SelectBlockFromCandidates (fun _ => 0) exLookup exCandidates [] 999500 4242 = some q ∧
      q.hashBlock ∉ ([] : List Nat) ∧
      (∃ it ∈ exCandidates, exLookup it.2 = some q) ∧
      ((∃ it ∈ exCandidates, ∃ c, exLookup it.2 = some c ∧ c.hashBlock ∉ ([] : List Nat) ∧
            (c.nTime : Int) ≤ 999500) →
        (q.nTime : Int) ≤ 999500 ∧
        ∀ it ∈ exCandidates, ∀ c, exLookup it.2 = some c → c.hashBlock ∉ ([] : List Nat) →
          (c.nTime : Int) ≤ 999500 →
          hashSelection (fun _ => 0) 4242 q ≤ hashSelection (fun _ => 0) 4242 c) ∧
      ((¬ ∃ it ∈ exCandidates, ∃ c, exLookup it.2 = some c ∧ c.hashBlock ∉ ([] : List Nat) ∧
            (c.nTime : Int) ≤ 999500) →
        (999500 : Int) < (q.nTime : Int) ∧
        ∃ pre item post, exCandidates = pre ++ item :: post ∧ exLookup item.2 = some q ∧
          ∀ it ∈ pre, ∃ c, exLookup it.2 = some c ∧ c.hashBlock ∈ ([] : List Nat)) :=
  selectBlockFromCandidates_result (fun _ => 0) exLookup exCandidates [] 999500 4242
    (by
      intro it hit
      simp only [exCandidates, List.mem_cons, List.mem_singleton, List.not_mem_nil,
        or_false] at hit
      rcases hit with rfl | rfl
      · exact ⟨exGateAncestor, by decide, by decide⟩
      · exact ⟨exGatePrev, by decide, by decide⟩)
    (by decide)
    ⟨(999000, 505), by decide, exGateAncestor, by decide, by decide⟩

set_option maxRecDepth 100000 in
/-- C5 fails as stated: with cutoff 998000 and the two unselected candidates of
times 999000 and 1000000, no candidate has time ≤ cutoff, yet
`SelectBlockFromCandidates` returns the first one, whose time exceeds the
cutoff. -/
theorem selectBlockFromCandidates_beyond_cutoff :
    SelectBlockFromCandidates (fun _ => 0) exLookup exCandidates [] 998000 4242 =
      some exGateAncestor ∧
    ¬ ((exGateAncestor.nTime : Int) ≤ 998000) := by
  decide

/-! ## The shuffle before the sort -/

/-- The limb loop of the comparator compares the low `32 * n` bits as numbers. -/
theorem limbsLess_eq_decide (pa pb : Nat) (n : Nat) :
    limbsLess pa pb n = decide (pa % 2 ^ (32 * n) < pb % 2 ^ (32 * n)) := by
  induction n with
  | zero => simp [limbsLess, Nat.mod_one]
  | succ n ih =>
    have hpow : 2 ^ (32 * (n + 1)) = 2 ^ (32 * n) * 2 ^ 32 := by
      rw [Nat.mul_add, Nat.pow_add]
    have hB : 0 < 2 ^ (32 * n) := Nat.pow_pos (by norm_num)
    have ha : pa % 2 ^ (32 * (n + 1)) = pa % 2 ^ (32 * n) + 2 ^ (32 * n) * limb32 pa n := by
      rw [hpow, Nat.mod_mul]
      rfl
    have hb : pb % 2 ^ (32 * (n + 1)) = pb % 2 ^ (32 * n) + 2 ^ (32 * n) * limb32 pb n := by
      rw [hpow, Nat.mod_mul]
      rfl
    have hal : pa % 2 ^ (32 * n) < 2 ^ (32 * n) := Nat.mod_lt _ hB
    have hbl : pb % 2 ^ (32 * n) < 2 ^ (32 * n) := Nat.mod_lt _ hB
    rw [ha, hb]
    simp only [limbsLess, ih]
    generalize 2 ^ (32 * n) = B at *
    generalize pa % B = al at *
    generalize pb % B = bl at *
    generalize limb32 pa n = ah
    generalize limb32 pb n = bh
    by_cases hne : ah = bh
    · subst hne
      simp
    · simp only [ne_eq, hne, not_false_eq_true, if_true]
      rcases Nat.lt_or_gt_of_ne hne with hlt | hgt
      · have h1 : B * (ah + 1) ≤ B * bh := Nat.mul_le_mul_left B hlt
        have h2 : B * (ah + 1) = B * ah + B := by ring
        simp only [hlt, decide_True]
        symm
        simp only [decide_eq_true_eq]
        omega
      · have h1 : B * (bh + 1) ≤ B * ah := Nat.mul_le_mul_left B hgt
        have h2 : B * (bh + 1) = B * bh + B := by ring
        have h3 : ¬ ah < bh := by omega
        simp only [h3, decide_False]
        symm
        simp only [decide_eq_false_iff_not]
        omega

/-- The sort comparator orders by time and then by the 256-bit block hash. -/
theorem candidateLess_iff (a b : Int × Nat) :
    candidateLess a b = true ↔
      a.1 < b.1 ∨ (a.1 = b.1 ∧ a.2 % 2 ^ 256 < b.2 % 2 ^ 256) := by
  unfold candidateLess
  by_cases h : a.1 = b.1
  · simp [h, limbsLess_eq_decide]
  · simp only [ne_eq, h, not_false_eq_true, if_true, decide_eq_true_eq, false_and, or_false]

/-- Exchanging the entries at two positions of a list permutes it. -/
theorem set_set_perm {α : Type} [DecidableEq α] (v : List α) (i j : Nat) (a b : α)
    (hil : i < v.length) (hjl : j < v.length) (hia : v[i] = a) (hjb : v[j] = b) :
    ((v.set i b).set j a).Perm v := by
  rw [List.perm_iff_count]
  intro c
  have hjl' : j < (v.set i b).length := by simpa using hjl
  rw [List.count_set _ _ _ _ hjl', List.count_set _ _ _ _ hil, List.getElem_set, hia]
  have hca : a = c → 0 < List.count c v := by
    intro h
    subst h
    exact List.count_pos_iff.mpr (hia ▸ List.getElem_mem hil)
  have hcb : b = c → 0 < List.count c v := by
    intro h
    subst h
    exact List.count_pos_iff.mpr (hjb ▸ List.getElem_mem hjl)
  by_cases hij : i = j
  · subst hij
    have hab : a = b := by rw [← hia, ← hjb]
    subst hab
    simp only [if_true, beq_iff_eq]
    by_cases hac : a = c
    · have := hca hac
      simp only [hac, if_true]
      omega
    · simp only [hac, if_false]
      omega
  · simp only [hij, if_false, hjb, beq_iff_eq]
    by_cases hac : a = c <;> by_cases hbc : b = c
    · have := hca hac
      simp only [hac, hbc, if_true]
      omega
    · have := hca hac
      simp only [hac, hbc, if_true, if_false]
      omega
    · have := hcb hbc
      simp only [hac, hbc, if_true, if_false]
      omega
    · simp only [hac, hbc, if_false]
      omega

/-- Swapping two positions permutes the vector. -/
theorem swapAt_perm (v : List (Int × Nat)) (i j : Nat) : (swapAt v i j).Perm v := by
  unfold swapAt
  cases hi : v[i]? with
  | none => exact List.Perm.refl _
  | some a =>
    cases hj : v[j]? with
    | none => exact List.Perm.refl _
    | some b =>
      simp only
      obtain ⟨hil, hia⟩ := List.getElem?_eq_some.mp hi
      obtain ⟨hjl, hjb⟩ := List.getElem?_eq_some.mp hj
      exact set_set_perm v i j a b hil hjl hia hjb

/-- The shuffle permutes the vector, whatever the random draws. -/
theorem shuffleLoop_perm (rnd : Nat → Nat) (i : Nat) :
    ∀ v : List (Int × Nat), (shuffleLoop rnd i v).Perm v := by
  induction i with
  | zero => intro v; exact List.Perm.refl _
  | succ i ih =>
    intro v
    unfold shuffleLoop
    by_cases h : i + 1 > 1
    · rw [if_pos h]
      exact (ih _).trans (swapAt_perm v _ _)
    · rw [if_neg h]

/-- Sorting two arrangements of the same candidates, all with 256-bit hashes,
gives the same vector. -/
theorem sortCandidates_eq_of_perm (v w : List (Int × Nat)) (hp : v.Perm w)
    (hv : ∀ x ∈ v, x.2 < 2 ^ 256) : sortCandidates v = sortCandidates w := by
  have htotal : IsTotal (Int × Nat) (fun a b => candidateLess b a = false) := by
    constructor
    intro a b
    have ha := candidateLess_iff a b
    have hb := candidateLess_iff b a
    by_cases h1 : candidateLess b a = true
    · right
      by_contra h2
      have h2' : candidateLess a b = true := by simpa using h2
      have := ha.mp h2'
      have := hb.mp h1
      omega
    · left
      simpa using h1
  have htrans : IsTrans (Int × Nat) (fun a b => candidateLess b a = false) := by
    constructor
    intro a b c hab hbc
    have h1 := candidateLess_iff b a
    have h2 := candidateLess_iff c b
    have h3 := candidateLess_iff c a
    by_contra hcon
    have hca : candidateLess c a = true := by simpa using hcon
    have h3' := h3.mp hca
    have h1' : ¬ (b.1 < a.1 ∨ (b.1 = a.1 ∧ b.2 % 2 ^ 256 < a.2 % 2 ^ 256)) := by
      rw [← h1]; simp [hab]
    have h2' : ¬ (c.1 < b.1 ∨ (c.1 = b.1 ∧ c.2 % 2 ^ 256 < b.2 % 2 ^ 256)) := by
      rw [← h2]; simp [hbc]
    omega
  unfold sortCandidates
  apply @List.Perm.eq_of_sorted _ (fun a b => candidateLess b a = false)
  · intro a b ha hb hab hba
    have hav : a.2 < 2 ^ 256 := hv a ((List.perm_insertionSort _ v).mem_iff.mp ha)
    have hbv : b.2 < 2 ^ 256 :=
      hv b (hp.mem_iff.mpr ((List.perm_insertionSort _ w).mem_iff.mp hb))
    have h1 : ¬ (b.1 < a.1 ∨ (b.1 = a.1 ∧ b.2 % 2 ^ 256 < a.2 % 2 ^ 256)) := by
      rw [← candidateLess_iff]; simp [hab]
    have h2 : ¬ (a.1 < b.1 ∨ (a.1 = b.1 ∧ a.2 % 2 ^ 256 < b.2 % 2 ^ 256)) := by
      rw [← candidateLess_iff]; simp [hba]
    rw [Nat.mod_eq_of_lt hav, Nat.mod_eq_of_lt hbv] at h1 h2
    apply Prod.ext <;> omega
  · exact List.sorted_insertionSort _ v
  · exact List.sorted_insertionSort _ w
  · exact ((List.perm_insertionSort _ v).trans hp).trans (List.perm_insertionSort _ w).symm

/-- The collected candidates carry the block hashes of the chain. -/
theorem collectCandidates_hash_lt (start : Int) (chain : List CBlockIndex)
    (hchain : ∀ b ∈ chain, b.hashBlock < 2 ^ 256) :
    ∀ x ∈ collectCandidates start chain, x.2 < 2 ^ 256 := by
  induction chain with
  | nil => intro x hx; cases hx
  | cons b rest ih =>
    intro x hx
    unfold collectCandidates at hx
    by_cases hb : (b.nTime : Int) ≥ start
    · rw [if_pos hb] at hx
      rcases List.mem_cons.mp hx with h | h
      · rw [h]
        exact hchain b (List.mem_cons_self _ _)
      · exact ih (fun c hc => hchain c (List.mem_cons_of_mem _ hc)) x h
    · rw [if_neg hb] at hx
      cases hx

/-- C6: the random shuffle does not show in the result. For every candidate
list with 256-bit block hashes (pairwise distinct or not), sorting by time and
then by block hash, compared limb by limb from the highest 32-bit limb down,
gives the same vector for any two outcomes of the shuffle; and two computations
of the stake modifier of the same block that differ only in the random draws
return the same (modifier, generated) pair. -/
theorem computeNextStakeModifier_shuffle_independent (params : ConsensusParams)
    (net : NetworkID) (H : List Nat → Nat) (LookupBlockIndex : Nat → Option CBlockIndex)
    (rnd1 rnd2 : Nat → Nat) (current : CBlockIndex) (pindexPrev : List CBlockIndex)
    (v : List (Int × Nat))
    (hv : ∀ x ∈ v, x.2 < 2 ^ 256)
    (hchain : ∀ b ∈ pindexPrev, b.hashBlock < 2 ^ 256) :
    sortCandidates (shuffleLoop rnd1 (v.length - 1) v) =
      sortCandidates (shuffleLoop rnd2 (v.length - 1) v) ∧
    ComputeNextStakeModifier params net H LookupBlockIndex rnd1 current pindexPrev =
      ComputeNextStakeModifier params net H LookupBlockIndex rnd2 current pindexPrev := by
  have hsort : ∀ w : List (Int × Nat), (∀ x ∈ w, x.2 < 2 ^ 256) →
      sortCandidates (shuffleLoop rnd1 (w.length - 1) w) =
        sortCandidates (shuffleLoop rnd2 (w.length - 1) w) := by
    intro w hw
    have h1 := shuffleLoop_perm rnd1 (w.length - 1) w
    have h2 := shuffleLoop_perm rnd2 (w.length - 1) w
    exact sortCandidates_eq_of_perm _ _ (h1.trans h2.symm)
      (fun x hx => hw x (h1.mem_iff.mp hx))
  refine ⟨hsort v hv, ?_⟩
  cases pindexPrev with
  | nil => rfl
  | cons prev rest =>
    have hc := fun start => hsort (collectCandidates start (prev :: rest))
      (collectCandidates_hash_lt start (prev :: rest) hchain)
    simp only [ComputeNextStakeModifier, hc]

set_option maxRecDepth 100000 in
/-- Witness of C6: the modifier of the block after `exEpochPrev`, first of a new
epoch, computed with two different sequences of random draws. -/
theorem computeNextStakeModifier_shuffle_independent_witness :
    (∀ x ∈ exCandidates, x.2 < 2 ^ 256) ∧
    (∀ b ∈ [exEpochPrev, exGatePrev, exGateAncestor], b.hashBlock < 2 ^ 256) ∧
    sortCandidates (shuffleLoop (fun _ => 0) (exCandidates.length - 1) exCandidates) =
      sortCandidates (shuffleLoop (fun n => n + 1) (exCandidates.length - 1) exCandidates) ∧
    ComputeNextStakeModifier exParams NetworkID.MAIN (fun _ => 0) exLookup (fun _ => 0)
        exEpochCurrent [exEpochPrev, exGatePrev, exGateAncestor] =
      ComputeNextStakeModifier exParams NetworkID.MAIN (fun _ => 0) exLookup (fun n => n + 1)
        exEpochCurrent [exEpochPrev, exGatePrev, exGateAncestor] :=
  ⟨by decide, by decide,
    computeNextStakeModifier_shuffle_independent exParams NetworkID.MAIN (fun _ => 0) exLookup
      (fun _ => 0) (fun n => n + 1) exEpochCurrent [exEpochPrev, exGatePrev, exGateAncestor]
      exCandidates (by decide) (by decide)⟩

/-! ## Protocol eras on regtest -/

/-- C11, as amended: on regtest the predicates keyed by the previous block index
(V06, V12, V14, V15) return true for every index, and each time-keyed predicate
(V03, V04, V05, V07, V09, V10) returns true exactly from the era's testnet
switch time on. -/
theorem era_predicates_regtest (t : Nat) (prev : CBlockIndex) :
    IsProtocolV06 NetworkID.REGTEST prev = true ∧
    IsProtocolV12 NetworkID.REGTEST prev = true ∧
    IsProtocolV14 NetworkID.REGTEST prev = true ∧
    IsProtocolV15 NetworkID.REGTEST prev = true ∧
    (IsProtocolV03 NetworkID.REGTEST t = true ↔ t ≥ nProtocolV03TestSwitchTime) ∧
    (IsProtocolV04 NetworkID.REGTEST t = true ↔ t ≥ nProtocolV04TestSwitchTime) ∧
    (IsProtocolV05 NetworkID.REGTEST t = true ↔ t ≥ nProtocolV05TestSwitchTime) ∧
    (IsProtocolV07 NetworkID.REGTEST t = true ↔ t ≥ nProtocolV07TestSwitchTime) ∧
    (IsProtocolV09 NetworkID.REGTEST t = true ↔ t ≥ nProtocolV09TestSwitchTime) ∧
    (IsProtocolV10 NetworkID.REGTEST t = true ↔ t ≥ nProtocolV10TestSwitchTime) := by
  refine ⟨?_, ?_, ?_, ?_, ?_, ?_, ?_, ?_, ?_, ?_⟩ <;>
    simp [IsProtocolV03, IsProtocolV04, IsProtocolV05, IsProtocolV06, IsProtocolV07,
      IsProtocolV09, IsProtocolV10, IsProtocolV12, IsProtocolV14, IsProtocolV15]

/-- C11 fails as stated: on regtest every time-keyed era predicate returns false
for the timestamp 0. -/
theorem era_predicates_regtest_false_at_zero :
    IsProtocolV03 NetworkID.REGTEST 0 = false ∧
    IsProtocolV04 NetworkID.REGTEST 0 = false ∧
    IsProtocolV05 NetworkID.REGTEST 0 = false ∧
    IsProtocolV07 NetworkID.REGTEST 0 = false ∧
    IsProtocolV09 NetworkID.REGTEST 0 = false ∧
    IsProtocolV10 NetworkID.REGTEST 0 = false := by
  decide

/-! ## Coinstake timestamp -/

/-- C12, as amended: for all 64-bit timestamps `CheckCoinStakeTimestamp` returns
true exactly when `t_block = t_tx` if V03 is active at `t_tx` reduced modulo
2^32 (the `unsigned int` that `IsProtocolV03` receives), and exactly when
`t_tx ≤ t_block ≤ t_tx + MAX_FUTURE_BLOCK_TIME_PREV9` otherwise; for
`0 ≤ t_tx < 2^32` it agrees with the rule of the specification. -/
theorem checkCoinStakeTimestamp_iff (net : NetworkID) (MAX_FUTURE_BLOCK_TIME_PREV9 : Int)
    (nTimeBlock nTimeTx : Int) :
    (CheckCoinStakeTimestamp net MAX_FUTURE_BLOCK_TIME_PREV9 nTimeBlock nTimeTx = true ↔
      if IsProtocolV03 net (nTimeTx % 2 ^ 32).toNat = true then nTimeBlock = nTimeTx
      else nTimeTx ≤ nTimeBlock ∧ nTimeBlock ≤ nTimeTx + MAX_FUTURE_BLOCK_TIME_PREV9) ∧
    (0 ≤ nTimeTx → nTimeTx < 2 ^ 32 →
      CheckCoinStakeTimestamp net MAX_FUTURE_BLOCK_TIME_PREV9 nTimeBlock nTimeTx =
        CheckCoinStakeTimestamp_spec net MAX_FUTURE_BLOCK_TIME_PREV9 nTimeBlock nTimeTx) := by
  refine ⟨?_, ?_⟩
  · unfold CheckCoinStakeTimestamp
    by_cases h : IsProtocolV03 net (nTimeTx % 2 ^ 32).toNat = true
    · simp [h]
    · simp [h]
  · intro h0 h1
    have hmod : nTimeTx % 2 ^ 32 = nTimeTx := Int.emod_eq_of_lt h0 h1
    unfold CheckCoinStakeTimestamp CheckCoinStakeTimestamp_spec IsProtocolV03
    rw [hmod]
    have hiff : ∀ n : Nat, (nTimeTx.toNat ≥ n) ↔ (nTimeTx ≥ (n : Int)) := by
      intro n
      omega
    by_cases hn : net = NetworkID.MAIN
    · subst hn
      simp only [ne_eq, not_true_eq_false, if_false, decide_eq_true_eq, hiff]
    · simp only [ne_eq, hn, not_false_eq_true, if_true, decide_eq_true_eq, hiff]

/-- Witness of C12 as amended: a mainnet coinstake of 2017 in a block with the
same timestamp. -/
theorem checkCoinStakeTimestamp_iff_witness :
    (0 : Int) ≤ 1500000000 ∧ (1500000000 : Int) < 2 ^ 32 ∧
    CheckCoinStakeTimestamp NetworkID.MAIN 7200 1500000000 1500000000 =
      CheckCoinStakeTimestamp_spec NetworkID.MAIN 7200 1500000000 1500000000 :=
  ⟨by decide, by decide,
    (checkCoinStakeTimestamp_iff NetworkID.MAIN 7200 1500000000 1500000000).2
      (by decide) (by decide)⟩

/-- C12 fails as stated: at `t_tx = 2^32` (V03 long active on mainnet) and
`t_block = t_tx + 1` the rule of the specification demands equal timestamps and
rejects, but the code tests V03 at `2^32 mod 2^32 = 0`, applies the pre-V03 rule
and accepts. -/
theorem checkCoinStakeTimestamp_truncates_tx_time :
    CheckCoinStakeTimestamp_spec NetworkID.MAIN 7200 4294967297 4294967296 = false ∧
    CheckCoinStakeTimestamp NetworkID.MAIN 7200 4294967297 4294967296 = true := by
  decide

/-! ## Reputation score -/

/-- `UpdateReputationScore` as long as `slashableOffenses * 10` fits in 32 bits:
the score is the clamped sum of the specification. -/
theorem updateReputationScore_of_no_overflow (r : ValidatorReputation)
    (hs : r.slashableOffenses * 10 < 2 ^ 32) :
    r.UpdateReputationScore.reputationScore =
      max 0 (min (50 + ((min (r.blocksProduced / 10) 30 : Nat) : Int) -
        ((min (r.blocksMissed / 5) 20 : Nat) : Int) -
        ((min (r.slashableOffenses * 10) 50 : Nat) : Int)) 100) := by
  have ha : min (r.blocksProduced / 10) 30 ≤ 30 := Nat.min_le_right _ _
  have hb : min (r.blocksMissed / 5) 20 ≤ 20 := Nat.min_le_right _ _
  have hc : min (r.slashableOffenses * 10) 50 ≤ 50 := Nat.min_le_right _ _
  simp only [ValidatorReputation.UpdateReputationScore, Nat.mod_eq_of_lt hs]
  generalize min (r.blocksProduced / 10) 30 = a at ha ⊢
  generalize min (r.blocksMissed / 5) 20 = b at hb ⊢
  generalize min (r.slashableOffenses * 10) 50 = c at hc ⊢
  have h1 : toInt32 ((toUInt32 50 + a) % 2 ^ 32) = 50 + (a : Int) := by
    unfold toInt32 toUInt32
    split_ifs <;> omega
  rw [h1]
  have h2 : toInt32 ((toUInt32 (50 + (a : Int)) + 2 ^ 32 - b) % 2 ^ 32) =
      50 + (a : Int) - (b : Int) := by
    unfold toInt32 toUInt32
    split_ifs <;> omega
  rw [h2]
  have h3 : toInt32 ((toUInt32 (50 + (a : Int) - (b : Int)) + 2 ^ 32 - c) % 2 ^ 32) =
      50 + (a : Int) - (b : Int) - (c : Int) := by
    unfold toInt32 toUInt32
    split_ifs <;> omega
  rw [h3]

/-- C16, the code at the failing input: with 429496730 slashable offenses (and
no blocks produced or missed) `slashableOffenses * 10` wraps to 4 in 32-bit
unsigned arithmetic, and `UpdateReputationScore` sets the score to 46, where
`clamp(50 + 0 - 0 - min(4294967300, 50), 0, 100)` is 0. -/
theorem updateReputationScore_wraps_offenses :
    (429496730 : Nat) < 2 ^ 32 ∧
    (ValidatorReputation.UpdateReputationScore
      { ValidatorReputation.new with slashableOffenses := 429496730 }).reputationScore = 46 ∧
    max (0 : Int) (min (50 + ((min (0 / 10) 30 : Nat) : Int) - ((min (0 / 5) 20 : Nat) : Int) -
      ((min (429496730 * 10) 50 : Nat) : Int)) 100) = 0 := by
  decide

/-! ## The validator map -/

/-- After `m[k] = v`, `find(k)` yields `v`. -/
theorem mapFind_mapAssign_same (k : Nat) (v : CValidator) (m : List (Nat × CValidator)) :
    mapFind (mapAssign k v m) k = some v := by
  induction m with
  | nil => simp [mapAssign, mapFind]
  | cons e rest ih =>
    unfold mapAssign
    by_cases h1 : k < e.1
    · simp [h1, mapFind]
    · by_cases h2 : k = e.1
      · simp [h1, h2, mapFind]
      · have h3 : ¬ e.1 = k := fun h => h2 h.symm
        simp only [h1, h2, if_false]
        rw [mapFind, if_neg h3, ih]

/-- `m[k] = v` does not change what `find` yields for another key. -/
theorem mapFind_mapAssign_other (k k' : Nat) (v : CValidator) (m : List (Nat × CValidator))
    (hk : k' ≠ k) : mapFind (mapAssign k v m) k' = mapFind m k' := by
  induction m with
  | nil => simp [mapAssign, mapFind, hk.symm]
  | cons e rest ih =>
    unfold mapAssign
    by_cases h1 : k < e.1
    · simp only [h1, if_true]
      rw [mapFind, if_neg (by simpa using hk.symm)]
    · by_cases h2 : k = e.1
      · simp only [h1, h2, if_false, if_true]
        have h3 : ¬ e.1 = k' := fun h => hk (h2 ▸ h.symm)
        simp [mapFind, h3]
      · simp only [h1, h2, if_false]
        by_cases h3 : e.1 = k'
        · simp [mapFind, h3]
        · simp [mapFind, h3, ih]

/-- The entries after `m[k] = v` are the new entry and entries of `m`. -/
theorem mem_mapAssign (k : Nat) (v : CValidator) (m : List (Nat × CValidator))
    (e : Nat × CValidator) (he : e ∈ mapAssign k v m) : e = (k, v) ∨ e ∈ m := by
  induction m with
  | nil =>
    simp only [mapAssign, List.mem_singleton] at he
    exact Or.inl he
  | cons a rest ih =>
    unfold mapAssign at he
    by_cases h1 : k < a.1
    · simp only [h1, if_true, List.mem_cons] at he
      rcases he with h | h | h
      · exact Or.inl h
      · exact Or.inr (h ▸ List.mem_cons_self _ _)
      · exact Or.inr (List.mem_cons_of_mem _ h)
    · by_cases h2 : k = a.1
      · rw [if_neg h1, if_pos h2] at he
        rcases List.mem_cons.mp he with h | h
        · exact Or.inl h
        · exact Or.inr (List.mem_cons_of_mem _ h)
      · rw [if_neg h1, if_neg h2] at he
        rcases List.mem_cons.mp he with h | h
        · exact Or.inr (h ▸ List.mem_cons_self _ _)
        · rcases ih h with h' | h'
          · exact Or.inl h'
          · exact Or.inr (List.mem_cons_of_mem _ h')

/-- `m[k] = v` keeps the keys strictly increasing. -/
theorem mapAssign_pairwise (k : Nat) (v : CValidator) (m : List (Nat × CValidator))
    (hm : m.Pairwise (fun a b => a.1 < b.1)) :
    (mapAssign k v m).Pairwise (fun a b => a.1 < b.1) := by
  induction m with
  | nil => simp [mapAssign]
  | cons a rest ih =>
    have hrest := (List.pairwise_cons.mp hm).2
    have ha := (List.pairwise_cons.mp hm).1
    unfold mapAssign
    by_cases h1 : k < a.1
    · simp only [h1, if_true]
      refine List.pairwise_cons.mpr ⟨?_, hm⟩
      intro b hb
      rcases List.mem_cons.mp hb with h | h
      · rw [h]; exact h1
      · exact lt_trans h1 (ha b h)
    · by_cases h2 : k = a.1
      · rw [if_neg h1, if_pos h2]
        exact List.pairwise_cons.mpr ⟨fun b hb => h2 ▸ ha b hb, hrest⟩
      · rw [if_neg h1, if_neg h2]
        refine List.pairwise_cons.mpr ⟨?_, ih hrest⟩
        intro b hb
        rcases mem_mapAssign k v rest b hb with h | h
        · rw [h]
          show a.1 < k
          omega
        · exact ha b h

/-- In a map with strictly increasing keys, exactly one entry has key `k` after
`m[k] = v`, and it is `(k, v)`. -/
theorem filter_mapAssign (k : Nat) (v : CValidator) (m : List (Nat × CValidator))
    (hm : m.Pairwise (fun a b => a.1 < b.1)) :
    (mapAssign k v m).filter (fun e => decide (e.1 = k)) = [(k, v)] := by
  have hnone : ∀ l : List (Nat × CValidator), (∀ b ∈ l, k < b.1) →
      l.filter (fun e => decide (e.1 = k)) = [] := by
    intro l hl
    rw [List.filter_eq_nil_iff]
    intro b hb
    have := hl b hb
    simp only [decide_eq_true_eq]
    omega
  induction m with
  | nil => simp [mapAssign]
  | cons a rest ih =>
    have hrest := (List.pairwise_cons.mp hm).2
    have ha := (List.pairwise_cons.mp hm).1
    unfold mapAssign
    by_cases h1 : k < a.1
    · simp only [h1, if_true]
      rw [List.filter_cons_of_pos (by simp)]
      rw [hnone (a :: rest)]
      intro b hb
      rcases List.mem_cons.mp hb with h | h
      · rw [h]; exact h1
      · exact lt_trans h1 (ha b h)
    · by_cases h2 : k = a.1
      · rw [if_neg h1, if_pos h2]
        rw [List.filter_cons_of_pos (by simp)]
        rw [hnone rest]
        intro b hb
        rw [h2]
        exact ha b hb
      · rw [if_neg h1, if_neg h2]
        rw [List.filter_cons_of_neg (by simpa using fun h => h2 h.symm)]
        exact ih hrest

/-- A write through `find` is seen by the next `find` of the same key. -/
theorem mapFind_mapModify_same (k : Nat) (f : CValidator → CValidator)
    (m : List (Nat × CValidator)) (v : CValidator) (hv : mapFind m k = some v) :
    mapFind (mapModify k f m) k = some (f v) := by
  induction m with
  | nil => simp [mapFind] at hv
  | cons e rest ih =>
    unfold mapModify
    unfold mapFind at hv
    by_cases h : e.1 = k
    · simp only [h, if_true, Option.some.injEq] at hv
      simp [h, mapFind, hv]
    · simp only [h, if_false] at hv
      simp only [h, if_false]
      rw [mapFind, if_neg h]
      exact ih hv

/-- A write through `find` does not change what `find` yields for another key. -/
theorem mapFind_mapModify_other (k k' : Nat) (f : CValidator → CValidator)
    (m : List (Nat × CValidator)) (hk : k' ≠ k) :
    mapFind (mapModify k f m) k' = mapFind m k' := by
  induction m with
  | nil => rfl
  | cons e rest ih =>
    unfold mapModify
    by_cases h : e.1 = k
    · have h' : ¬ e.1 = k' := fun h'' => hk (h ▸ h''.symm)
      rw [if_pos h, mapFind, mapFind, if_neg h', if_neg h']
    · simp only [h, if_false]
      by_cases h' : e.1 = k'
      · simp [mapFind, h']
      · simp [mapFind, h', ih]

/-- A write through `find` leaves the keys and their order as they are. -/
theorem map_fst_mapModify (k : Nat) (f : CValidator → CValidator)
    (m : List (Nat × CValidator)) :
    (mapModify k f m).map (fun e => e.1) = m.map (fun e => e.1) := by
  induction m with
  | nil => rfl
  | cons e rest ih =>
    unfold mapModify
    by_cases h : e.1 = k
    · simp [h]
    · simp [h, ih]

/-- The entries after a write through `find` are entries of `m` or an entry of
`m` with `f` applied to its validator. -/
theorem mem_mapModify (k : Nat) (f : CValidator → CValidator) (m : List (Nat × CValidator))
    (e : Nat × CValidator) (he : e ∈ mapModify k f m) :
    e ∈ m ∨ ∃ e0 ∈ m, e = (e0.1, f e0.2) := by
  induction m with
  | nil => simp [mapModify] at he
  | cons a rest ih =>
    unfold mapModify at he
    by_cases h : a.1 = k
    · simp only [h, if_true, List.mem_cons] at he
      rcases he with h' | h'
      · exact Or.inr ⟨a, List.mem_cons_self _ _, by rw [h', h]⟩
      · exact Or.inl (List.mem_cons_of_mem _ h')
    · simp only [h, if_false, List.mem_cons] at he
      rcases he with h' | h'
      · exact Or.inl (h' ▸ List.mem_cons_self _ _)
      · rcases ih h' with h'' | ⟨e0, he0, h''⟩
        · exact Or.inl (List.mem_cons_of_mem _ h'')
        · exact Or.inr ⟨e0, List.mem_cons_of_mem _ he0, h''⟩

/-! ## Registration and removal -/

/-- C13: `RegisterValidator` returns false exactly when the staked amount is below
`32 * COIN = 3200000000`, and then the registry is unchanged. -/
theorem registerValidator_fails_iff (H : List Nat → Nat)
    (serializeScript : List Nat → List Nat) (reg : CValidatorRegistry)
    (scriptPubKey : List Nat) (stakedAmount registrationTime : Int) :
    32 * COIN = 3200000000 ∧
    ((reg.RegisterValidator H serializeScript scriptPubKey stakedAmount registrationTime).1 =
        false ↔ stakedAmount < 32 * COIN) ∧
    (stakedAmount < 32 * COIN →
      (reg.RegisterValidator H serializeScript scriptPubKey stakedAmount registrationTime).2 =
        reg) := by
  have hmin : VALIDATOR_MIN_STAKE = 32 * COIN := rfl
  refine ⟨by decide, ?_, ?_⟩
  · unfold CValidatorRegistry.RegisterValidator CValidator.MeetsMinimumStake CValidator.new
    simp only [hmin]
    by_cases h : stakedAmount < 32 * COIN
    · simp [h, not_le.mpr h]
    · simp [h, not_lt.mp h]
  · intro h
    unfold CValidatorRegistry.RegisterValidator CValidator.MeetsMinimumStake CValidator.new
    simp [hmin, not_le.mpr h]

set_option maxRecDepth 100000 in
/-- Witness of C13: one satoshi short of 32 coins. -/
theorem registerValidator_fails_iff_witness :
    (3199999999 : Int) < 32 * COIN ∧
    (exRegistry.RegisterValidator exHash exSerialize [118, 169, 3] 3199999999 1700000200).2 =
      exRegistry :=
  ⟨by decide,
    (registerValidator_fails_iff exHash exSerialize exRegistry [118, 169, 3] 3199999999
      1700000200).2.2 (by decide)⟩

/-- C14: for a staked amount of at least `32 * COIN`, `RegisterValidator` succeeds
and the registry (a map with strictly increasing keys, which it stays) then
holds exactly one entry for the id `H(script_pubkey)`: status Inactive, the
given script, staked amount and registration time, all counters and times of
the reputation 0 and score 50. -/
theorem registerValidator_entry (H : List Nat → Nat) (serializeScript : List Nat → List Nat)
    (reg : CValidatorRegistry) (scriptPubKey : List Nat) (stakedAmount registrationTime : Int)
    (hwf : reg.WellFormed) (hstake : stakedAmount ≥ 32 * COIN) :
    (reg.RegisterValidator H serializeScript scriptPubKey stakedAmount registrationTime).1 =
      true ∧
    (reg.RegisterValidator H serializeScript scriptPubKey stakedAmount
        registrationTime).2.validators.filter
        (fun e => decide (e.1 = Hash256 H (serializeScript scriptPubKey))) =
      [(Hash256 H (serializeScript scriptPubKey),
        { scriptPubKey := scriptPubKey, stakedAmount := stakedAmount,
          status := ValidatorStatus.INACTIVE,
          reputation :=
            { blocksProduced := 0, blocksMissed := 0, slashableOffenses := 0,
              reputationScore := 50, firstActiveTime := 0, lastActiveTime := 0,
              totalActiveTime := 0 },
          registrationTime := registrationTime,
          validatorId := Hash256 H (serializeScript scriptPubKey) })] ∧
    (reg.RegisterValidator H serializeScript scriptPubKey stakedAmount
      registrationTime).2.WellFormed := by
  have hmin : VALIDATOR_MIN_STAKE = 32 * COIN := rfl
  have hreg : reg.RegisterValidator H serializeScript scriptPubKey stakedAmount
      registrationTime =
      (true,
        { validators :=
            mapAssign (Hash256 H (serializeScript scriptPubKey))
              { scriptPubKey := scriptPubKey, stakedAmount := stakedAmount,
                status := ValidatorStatus.INACTIVE, reputation := ValidatorReputation.new,
                registrationTime := registrationTime,
                validatorId := Hash256 H (serializeScript scriptPubKey) }
              reg.validators }) := by
    unfold CValidatorRegistry.RegisterValidator CValidator.MeetsMinimumStake CValidator.new
    simp [hmin, hstake]
  rw [hreg]
  refine ⟨rfl, ?_, ?_⟩
  · exact filter_mapAssign _ _ _ hwf
  · exact mapAssign_pairwise _ _ _ hwf

set_option maxRecDepth 100000 in
/-- Witness of C14: a third validator registered with exactly 32 coins. -/
theorem registerValidator_entry_witness :
    exRegistry.WellFormed ∧ (3200000000 : Int) ≥ 32 * COIN ∧
    (exRegistry.RegisterValidator exHash exSerialize [118, 169, 3] 3200000000 1700000200).1 =
      true :=
  ⟨by unfold CValidatorRegistry.WellFormed; decide, by decide,
    (registerValidator_entry exHash exSerialize exRegistry [118, 169, 3] 3200000000 1700000200
      (by unfold CValidatorRegistry.WellFormed; decide) (by decide)).1⟩

/-- C19: for an id in the registry `RemoveValidator` returns true and sets the
status of that validator to PendingExit; the entry stays, its other fields are
unchanged, every other entry is unchanged and the keys and their order are the
same. For an id not in the registry it returns false and the registry is
unchanged. -/
theorem removeValidator_frame (reg : CValidatorRegistry) (validatorId : Nat) :
    (∀ v, reg.GetValidator validatorId = some v →
      (reg.RemoveValidator validatorId).1 = true ∧
      (reg.RemoveValidator validatorId).2.GetValidator validatorId =
        some { v with status := ValidatorStatus.PENDING_EXIT } ∧
      (∀ k, k ≠ validatorId →
        (reg.RemoveValidator validatorId).2.GetValidator k = reg.GetValidator k) ∧
      (reg.RemoveValidator validatorId).2.validators.map (fun e => e.1) =
        reg.validators.map (fun e => e.1)) ∧
    (reg.GetValidator validatorId = none → reg.RemoveValidator validatorId = (false, reg)) := by
  unfold CValidatorRegistry.GetValidator CValidatorRegistry.RemoveValidator
  refine ⟨?_, ?_⟩
  · intro v hv
    simp only [hv]
    refine ⟨trivial, ?_, ?_, ?_⟩
    · exact mapFind_mapModify_same _ _ _ _ hv
    · intro k hk
      exact mapFind_mapModify_other _ _ _ _ hk
    · exact map_fst_mapModify _ _ _
  · intro hv
    simp only [hv]

set_option maxRecDepth 100000 in
/-- Witness of C19: removing the validator of `exScriptA`, and removing an id
that is not registered. -/
theorem removeValidator_frame_witness :
    (∃ v, exRegistry.GetValidator exIdA = some v ∧
      (exRegistry.RemoveValidator exIdA).2.GetValidator exIdA =
        some { v with status := ValidatorStatus.PENDING_EXIT }) ∧
    exRegistry.GetValidator 5 = none ∧ exRegistry.RemoveValidator 5 = (false, exRegistry) := by
  have h := removeValidator_frame exRegistry exIdA
  have h5 := removeValidator_frame exRegistry 5
  have hA : ∃ v, exRegistry.GetValidator exIdA = some v := by
    refine ⟨(exRegistry.GetValidator exIdA).get (by decide), by simp⟩
  obtain ⟨v, hv⟩ := hA
  exact ⟨⟨v, hv, (h.1 v hv).2.1⟩, by decide, h5.2 (by decide)⟩

/-! ## Sequences of operations: the score range -/

/-- `UpdateReputationScore` leaves the score in [0, 100], whatever the counters. -/
theorem updateReputationScore_range (r : ValidatorReputation) :
    0 ≤ r.UpdateReputationScore.reputationScore ∧
    r.UpdateReputationScore.reputationScore ≤ 100 := by
  simp only [ValidatorReputation.UpdateReputationScore]
  constructor
  · exact le_max_left _ _
  · exact max_le (by norm_num) (min_le_right _ _)

/-- Every operation keeps all scores of the registry in [0, 100]. -/
theorem applyOp_score_range (H : List Nat → Nat) (serializeScript : List Nat → List Nat)
    (reg : CValidatorRegistry) (op : RegistryOp)
    (hreg : ∀ e ∈ reg.validators,
      0 ≤ e.2.reputation.reputationScore ∧ e.2.reputation.reputationScore ≤ 100) :
    ∀ e ∈ (applyOp H serializeScript reg op).validators,
      0 ≤ e.2.reputation.reputationScore ∧ e.2.reputation.reputationScore ≤ 100 := by
  have hmod : ∀ (k : Nat) (f : CValidator → CValidator),
      (∀ v : CValidator, 0 ≤ v.reputation.reputationScore ∧ v.reputation.reputationScore ≤ 100 →
        0 ≤ (f v).reputation.reputationScore ∧ (f v).reputation.reputationScore ≤ 100) →
      ∀ e ∈ mapModify k f reg.validators,
        0 ≤ e.2.reputation.reputationScore ∧ e.2.reputation.reputationScore ≤ 100 := by
    intro k f hf e he
    rcases mem_mapModify k f reg.validators e he with h | ⟨e0, he0, h⟩
    · exact hreg e h
    · rw [h]
      exact hf e0.2 (hreg e0 he0)
  cases op with
  | register scriptPubKey stakedAmount registrationTime =>
    intro e he
    simp only [applyOp, CValidatorRegistry.RegisterValidator] at he
    split at he
    · exact hreg e he
    · rcases mem_mapAssign _ _ _ e he with h | h
      · rw [h]
        simp [CValidator.new, ValidatorReputation.new]
      · exact hreg e h
  | remove validatorId =>
    intro e he
    simp only [applyOp, CValidatorRegistry.RemoveValidator] at he
    split at he
    · exact hreg e he
    · exact hmod validatorId (fun v => { v with status := ValidatorStatus.PENDING_EXIT })
        (fun v hv => hv) e he
  | updateReputation validatorId producedBlock =>
    intro e he
    simp only [applyOp, CValidatorRegistry.UpdateValidatorReputation] at he
    split at he
    · exact hreg e he
    · exact hmod _ _ (fun v _ => updateReputationScore_range _) e he
  | activate validatorId activationTime =>
    intro e he
    simp only [applyOp] at he
    refine hmod _ _ (fun v hv => ?_) e he
    unfold CValidator.Activate
    by_cases h : v.reputation.firstActiveTime = 0 <;> simp [h, hv]
  | deactivate validatorId deactivationTime =>
    intro e he
    simp only [applyOp] at he
    refine hmod _ _ (fun v hv => ?_) e he
    unfold CValidator.Deactivate
    by_cases h : v.status = ValidatorStatus.ACTIVE <;> simp [h, hv]
  | slash validatorId slashTime slashedAmountOf =>
    intro e he
    simp only [applyOp] at he
    refine hmod _ _ (fun v _ => ?_) e he
    exact updateReputationScore_range _

/-- C15: in every registry state reached from the empty registry by
`RegisterValidator`, `RemoveValidator`, `UpdateValidatorReputation`, `Activate`,
`Deactivate` and `Slash`, the reputation score of every validator lies in
[0, 100]. -/
theorem reachable_score_range (H : List Nat → Nat) (serializeScript : List Nat → List Nat)
    (ops : List RegistryOp) :
    ∀ e ∈ (applyOps H serializeScript { validators := [] } ops).validators,
      0 ≤ e.2.reputation.reputationScore ∧ e.2.reputation.reputationScore ≤ 100 := by
  have hgen : ∀ (ops : List RegistryOp) (reg : CValidatorRegistry),
      (∀ e ∈ reg.validators,
        0 ≤ e.2.reputation.reputationScore ∧ e.2.reputation.reputationScore ≤ 100) →
      ∀ e ∈ (applyOps H serializeScript reg ops).validators,
        0 ≤ e.2.reputation.reputationScore ∧ e.2.reputation.reputationScore ≤ 100 := by
    intro ops
    induction ops with
    | nil => intro reg hreg; exact hreg
    | cons op rest ih =>
      intro reg hreg
      exact ih (applyOp H serializeScript reg op)
        (applyOp_score_range H serializeScript reg op hreg)
  exact hgen ops _ (by simp)

/-! ## Validator selection -/

/-- The first loop of `SelectNextValidator` appends the Active validators of the
map, in order, with their weights, and adds the weights up. -/
theorem collectSelectionTable_eq (m : List (Nat × CValidator)) :
    ∀ t : SelectionTable, collectSelectionTable m t =
      { activeValidators := t.activeValidators ++
          (m.filter (fun pair => pair.2.status = ValidatorStatus.ACTIVE)).map (fun pair => pair.2),
        weights := t.weights ++
          ((m.filter (fun pair => pair.2.status = ValidatorStatus.ACTIVE)).map
            (fun pair => pair.2)).map validatorWeight,
        totalWeight :=
          ((m.filter (fun pair => pair.2.status = ValidatorStatus.ACTIVE)).map
            (fun pair => pair.2)).foldl (fun acc v => wrapInt32 (acc + validatorWeight v))
            t.totalWeight } := by
  induction m with
  | nil => intro t; simp [collectSelectionTable]
  | cons pair rest ih =>
    intro t
    unfold collectSelectionTable
    by_cases h : pair.2.status = ValidatorStatus.ACTIVE
    · simp only [h, if_true]
      rw [ih]
      simp [h]
    · simp only [h, if_false]
      rw [ih]
      simp [h]

/-- What the second loop returns is one of the validators it runs over. -/
theorem selectByWeight_mem (r : Nat) (vs : List CValidator) :
    ∀ (ws : List Int) (cum : Nat) (v : CValidator),
      selectByWeight r vs ws cum = some v → v ∈ vs := by
  induction vs with
  | nil => intro ws cum v h; simp [selectByWeight] at h
  | cons a rest ih =>
    intro ws cum v h
    cases ws with
    | nil => simp [selectByWeight] at h
    | cons w ws =>
      simp only [selectByWeight] at h
      split at h
      · simp only [Option.some.injEq] at h
        exact h ▸ List.mem_cons_self _ _
      · exact List.mem_cons_of_mem _ (ih _ _ _ h)

/-- `SelectNextValidator` in terms of the Active validators of the registry. -/
theorem selectNextValidator_eq (GetRand : Int → Nat) (reg : CValidatorRegistry)
    (prevBlockHash : Nat) (timestamp : Int) :
    reg.SelectNextValidator GetRand prevBlockHash timestamp =
      if reg.GetActiveValidators.isEmpty then none
      else
        match selectByWeight
            (GetRand (reg.GetActiveValidators.foldl
              (fun acc v => wrapInt32 (acc + validatorWeight v)) 0) % 2 ^ 64)
            reg.GetActiveValidators (reg.GetActiveValidators.map validatorWeight) 0 with
        | some v => some v
        | none => reg.GetActiveValidators.getLast? := by
  unfold CValidatorRegistry.SelectNextValidator CValidatorRegistry.GetActiveValidators
  simp only [collectSelectionTable_eq, List.nil_append]

/-- A validator returned by `SelectNextValidator` is an Active validator of the
registry. -/
theorem selectNextValidator_mem (GetRand : Int → Nat) (reg : CValidatorRegistry)
    (prevBlockHash : Nat) (timestamp : Int) (w : CValidator)
    (hw : reg.SelectNextValidator GetRand prevBlockHash timestamp = some w) :
    w ∈ reg.GetActiveValidators ∧ w.status = ValidatorStatus.ACTIVE := by
  rw [selectNextValidator_eq] at hw
  have hmem : w ∈ reg.GetActiveValidators := by
    split at hw
    · cases hw
    · split at hw
      · rename_i v hv
        simp only [Option.some.injEq] at hw
        exact hw ▸ selectByWeight_mem _ _ _ _ _ hv
      · exact List.mem_of_mem_getLast? hw
  refine ⟨hmem, ?_⟩
  unfold CValidatorRegistry.GetActiveValidators at hmem
  simp only [List.mem_map, List.mem_filter, decide_eq_true_eq] at hmem
  obtain ⟨pair, ⟨_, hp⟩, hpw⟩ := hmem
  exact hpw ▸ hp

/-- Adding up non-negative weights whose sum fits in an `int` never wraps. -/
theorem foldl_wrapInt32_eq (g : CValidator → Int) (vs : List CValidator) :
    ∀ acc : Int, 0 ≤ acc → (∀ v ∈ vs, 0 ≤ g v) → acc + (vs.map g).sum < 2 ^ 31 →
      vs.foldl (fun acc v => wrapInt32 (acc + g v)) acc = acc + (vs.map g).sum := by
  induction vs with
  | nil => intro acc _ _ _; simp
  | cons a rest ih =>
    intro acc hacc hpos hsum
    have ha : 0 ≤ g a := hpos a (List.mem_cons_self _ _)
    have hrest : ∀ v ∈ rest, 0 ≤ g v := fun v hv => hpos v (List.mem_cons_of_mem _ hv)
    have hrs : 0 ≤ (rest.map g).sum :=
      List.sum_nonneg (by simpa using hrest)
    simp only [List.map_cons, List.sum_cons] at hsum
    have hw : wrapInt32 (acc + g a) = acc + g a := by
      unfold wrapInt32
      omega
    simp only [List.foldl_cons, hw, List.map_cons, List.sum_cons]
    rw [ih (acc + g a) (by omega) hrest (by omega)]
    ring

/-- The second loop over non-negative weights whose running sum fits in 64
bits: entered with `cumulativeWeight ≤ randomValue` and a random value below the
final sum, it returns the first validator at which the running sum exceeds the
random value. -/
theorem selectByWeight_first (g : CValidator → Int) (r : Nat) (vs : List CValidator) :
    ∀ cum : Nat, cum ≤ r → (∀ v ∈ vs, 0 ≤ g v) →
      (cum : Int) + (vs.map g).sum < 2 ^ 64 → (r : Int) < (cum : Int) + (vs.map g).sum →
      ∃ i, ∃ hi : i < vs.length,
        selectByWeight r vs (vs.map g) cum = some (vs.get ⟨i, hi⟩) ∧
        (r : Int) < (cum : Int) + ((vs.take (i + 1)).map g).sum ∧
        ∀ j, j < i → (cum : Int) + ((vs.take (j + 1)).map g).sum ≤ (r : Int) := by
  induction vs with
  | nil =>
    intro cum hcr _ _ hr
    simp only [List.map_nil, List.sum_nil, add_zero] at hr
    omega
  | cons a rest ih =>
    intro cum hcr hpos hfit hr
    have ha : 0 ≤ g a := hpos a (List.mem_cons_self _ _)
    have hrest : ∀ v ∈ rest, 0 ≤ g v := fun v hv => hpos v (List.mem_cons_of_mem _ hv)
    have hrs : 0 ≤ (rest.map g).sum :=
      List.sum_nonneg (by simpa using hrest)
    simp only [List.map_cons, List.sum_cons] at hfit hr
    have hcum : (((cum + (g a % 2 ^ 64).toNat) % 2 ^ 64 : Nat) : Int) = (cum : Int) + g a := by
      omega
    simp only [List.map_cons, selectByWeight]
    by_cases hlt : r < (cum + (g a % 2 ^ 64).toNat) % 2 ^ 64
    · refine ⟨0, by simp, ?_, ?_, ?_⟩
      · rw [if_pos hlt]
        rfl
      · simp only [zero_add, List.take_succ_cons, List.take_zero, List.map_cons, List.map_nil,
          List.sum_cons, List.sum_nil, add_zero]
        omega
      · intro j hj
        omega
    · obtain ⟨i, hi, hsel, hri, hbefore⟩ :=
        ih ((cum + (g a % 2 ^ 64).toNat) % 2 ^ 64) (by omega) hrest (by omega) (by omega)
      refine ⟨i + 1, by simpa using hi, ?_, ?_, ?_⟩
      · rw [if_neg hlt, hsel]
        rfl
      · simp only [List.take_succ_cons, List.map_cons, List.sum_cons]
        omega
      · intro j hj
        cases j with
        | zero =>
          simp only [zero_add, List.take_succ_cons, List.take_zero, List.map_cons, List.map_nil,
            List.sum_cons, List.sum_nil, add_zero]
          omega
        | succ j =>
          have := hbefore j (by omega)
          simp only [List.take_succ_cons, List.map_cons, List.sum_cons]
          omega

/-- On validators with non-negative stake and score whose weights of the
specification sum to less than 2^31, the `int` weights of the code are the
weights of the specification. -/
theorem validatorWeight_eq_spec (vs : List CValidator)
    (hpos : ∀ v ∈ vs, 0 ≤ v.stakedAmount ∧ 0 ≤ v.reputation.reputationScore)
    (hW : (vs.map selectionWeight_spec).sum < 2 ^ 31) :
    (∀ v ∈ vs, 0 ≤ selectionWeight_spec v) ∧
    ∀ v ∈ vs, validatorWeight v = selectionWeight_spec v := by
  have hnonneg : ∀ v ∈ vs, 0 ≤ selectionWeight_spec v := by
    intro v hv
    obtain ⟨h1, h2⟩ := hpos v hv
    unfold selectionWeight_spec
    have hc : (0 : Int) ≤ COIN := by decide
    have hq : 0 ≤ v.reputation.reputationScore / 10 := Int.ediv_nonneg h2 (by norm_num)
    exact Int.mul_nonneg (Int.ediv_nonneg h1 hc) (by omega)
  refine ⟨hnonneg, ?_⟩
  intro v hv
  obtain ⟨h1, h2⟩ := hpos v hv
  have hle : selectionWeight_spec v ≤ (vs.map selectionWeight_spec).sum :=
    List.single_le_sum (by simpa using hnonneg) _ (List.mem_map_of_mem _ hv)
  have h0 := hnonneg v hv
  unfold validatorWeight
  have hc : (0 : Int) ≤ COIN := by decide
  simp only [Int.tdiv_eq_ediv h1 hc, Int.tdiv_eq_ediv h2 (by norm_num : (0 : Int) ≤ 10)]
  show wrapInt32 (selectionWeight_spec v) = selectionWeight_spec v
  unfold wrapInt32
  omega

/-- Selection where the `int` weights of the code are the weights of the
specification: `SelectNextValidator` returns None exactly when the registry has
no Active validator. Otherwise, when the Active validators have non-negative
stake and score, their weights `w = (stake / COIN) * (score / 10 + 1)` sum to
`W < 2^31` and the drawn value `r = GetRand(W)` is below `W`, it returns the
first Active validator, in registry order, at which the cumulative weight
exceeds `r`. -/
theorem selectNextValidator_weighted (GetRand : Int → Nat) (reg : CValidatorRegistry)
    (prevBlockHash : Nat) (timestamp : Int) :
    (reg.SelectNextValidator GetRand prevBlockHash timestamp = none ↔
      reg.GetActiveValidators = []) ∧
    ((∀ v ∈ reg.GetActiveValidators, 0 ≤ v.stakedAmount ∧ 0 ≤ v.reputation.reputationScore) →
      (reg.GetActiveValidators.map selectionWeight_spec).sum < 2 ^ 31 →
      (GetRand (reg.GetActiveValidators.map selectionWeight_spec).sum : Int) <
        (reg.GetActiveValidators.map selectionWeight_spec).sum →
      ∃ i, ∃ hi : i < reg.GetActiveValidators.length,
        reg.SelectNextValidator GetRand prevBlockHash timestamp =
          some (reg.GetActiveValidators.get ⟨i, hi⟩) ∧
        (GetRand (reg.GetActiveValidators.map selectionWeight_spec).sum : Int) <
          ((reg.GetActiveValidators.take (i + 1)).map selectionWeight_spec).sum ∧
        ∀ j, j < i →
          ((reg.GetActiveValidators.take (j + 1)).map selectionWeight_spec).sum ≤
            (GetRand (reg.GetActiveValidators.map selectionWeight_spec).sum : Int)) := by
  rw [selectNextValidator_eq]
  generalize reg.GetActiveValidators = A
  refine ⟨?_, ?_⟩
  · cases A with
    | nil => simp
    | cons a rest =>
      simp only [List.isEmpty_cons, Bool.false_eq_true, if_false, reduceCtorEq, iff_false]
      split
      · simp
      · simp [List.getLast?_eq_none_iff]
  · intro hpos hW hr
    obtain ⟨hnonneg, hweq⟩ := validatorWeight_eq_spec A hpos hW
    have hmap : A.map validatorWeight = A.map selectionWeight_spec :=
      List.map_congr_left hweq
    have hsum0 : 0 ≤ (A.map selectionWeight_spec).sum :=
      List.sum_nonneg (by simpa using hnonneg)
    have htotal : A.foldl (fun acc v => wrapInt32 (acc + validatorWeight v)) 0 =
        (A.map selectionWeight_spec).sum := by
      rw [foldl_wrapInt32_eq validatorWeight A 0 (le_refl _)
        (fun v hv => (hweq v hv) ▸ hnonneg v hv) (by rw [hmap]; omega), hmap]
      ring
    rw [htotal, hmap]
    have hne : A ≠ [] := by
      intro h
      subst h
      simp at hr
      omega
    have hempty : A.isEmpty = false := by
      cases A with
      | nil => exact absurd rfl hne
      | cons a rest => rfl
    have hrmod : GetRand (A.map selectionWeight_spec).sum % 2 ^ 64 =
        GetRand (A.map selectionWeight_spec).sum := by
      omega
    rw [hrmod]
    obtain ⟨i, hi, hsel, hri, hbefore⟩ :=
      selectByWeight_first selectionWeight_spec (GetRand (A.map selectionWeight_spec).sum) A 0
        (Nat.zero_le _) hnonneg (by simp only [Nat.cast_zero, zero_add]; omega)
        (by simp only [Nat.cast_zero, zero_add]; exact hr)
    refine ⟨i, hi, ?_, ?_, ?_⟩
    · simp only [hempty, Bool.false_eq_true, if_false, hsel]
    · simpa using hri
    · intro j hj
      simpa using hbefore j hj

set_option maxRecDepth 100000 in
/-- Witness of C15: the validator of `exOps` ends with score 40. -/
theorem reachable_score_range_witness :
    (exIdA, exSlashedValidator) ∈
      (applyOps exHash exSerialize { validators := [] } exOps).validators ∧
    0 ≤ exSlashedValidator.reputation.reputationScore ∧
    exSlashedValidator.reputation.reputationScore ≤ 100 :=
  ⟨by decide,
    reachable_score_range exHash exSerialize exOps (exIdA, exSlashedValidator) (by decide)⟩

set_option maxRecDepth 100000 in
/-- An instance of the selection rule: two Active validators of weights 600 and
192 and the draw 650: the second validator is returned. -/
theorem selectNextValidator_weighted_witness :
    exActiveRegistry.GetActiveValidators.map selectionWeight_spec = [600, 192] ∧
    ∃ i, ∃ hi : i < exActiveRegistry.GetActiveValidators.length,
      exActiveRegistry.SelectNextValidator (fun _ => 650) 0 0 =
        some (exActiveRegistry.GetActiveValidators.get ⟨i, hi⟩) ∧
      (((fun _ => 650 : Int → Nat)
          (exActiveRegistry.GetActiveValidators.map selectionWeight_spec).sum : Nat) : Int) <
        ((exActiveRegistry.GetActiveValidators.take (i + 1)).map selectionWeight_spec).sum ∧
      ∀ j, j < i →
        ((exActiveRegistry.GetActiveValidators.take (j + 1)).map selectionWeight_spec).sum ≤
          (((fun _ => 650 : Int → Nat)
            (exActiveRegistry.GetActiveValidators.map selectionWeight_spec).sum : Nat) : Int) :=
  ⟨by decide,
    (selectNextValidator_weighted (fun _ => 650) exActiveRegistry 0 0).2
      (by decide) (by decide) (by decide)⟩

set_option maxRecDepth 100000 in
/-- C20, the code at the failing input: two Active validators, the first staking
715827883 coins and the second 32 coins, both with score 50. The weights of the
specification are 4294967298 and 192, so with the draw 100 the first validator
is the first whose cumulative weight exceeds the draw; the `int` weights of the
code are 2 and 192, and `SelectNextValidator` returns the second validator. -/
theorem selectNextValidator_weight_wraps :
    exLargeStakeRegistry.GetActiveValidators.map (fun v => v.scriptPubKey) =
      [exScriptA, exScriptB] ∧
    exLargeStakeRegistry.GetActiveValidators.map selectionWeight_spec = [4294967298, 192] ∧
    exLargeStakeRegistry.GetActiveValidators.map validatorWeight = [2, 192] ∧
    (exLargeStakeRegistry.SelectNextValidator (fun _ => 100) 77 1700000700).map
      (fun v => v.scriptPubKey) = some exScriptB := by
  decide

/-! ## Slashed validators -/

/-- `RegisterValidator` either leaves the registry as it is or assigns a new
Inactive validator under its id. -/
theorem registerValidator_cases (H : List Nat → Nat) (serializeScript : List Nat → List Nat)
    (reg : CValidatorRegistry) (scriptPubKey : List Nat) (stakedAmount registrationTime : Int) :
    (reg.RegisterValidator H serializeScript scriptPubKey stakedAmount registrationTime).2 = reg ∨
    ∃ nv : CValidator, nv.status = ValidatorStatus.INACTIVE ∧
      (reg.RegisterValidator H serializeScript scriptPubKey stakedAmount registrationTime).2 =
        { validators := mapAssign nv.validatorId nv reg.validators } := by
  simp only [CValidatorRegistry.RegisterValidator]
  split
  · exact Or.inl rfl
  · exact Or.inr
      ⟨{ CValidator.new H serializeScript scriptPubKey stakedAmount with
          registrationTime := registrationTime }, rfl, rfl⟩

/-- An operation other than `Activate` on the validator `validatorId` keeps a
status of that validator that is not Active not Active. -/
theorem applyOp_keeps_not_active (H : List Nat → Nat) (serializeScript : List Nat → List Nat)
    (reg : CValidatorRegistry) (validatorId : Nat) (v : CValidator) (op : RegistryOp)
    (hv : reg.GetValidator validatorId = some v) (hs : v.status ≠ ValidatorStatus.ACTIVE)
    (hop : ∀ t, op ≠ RegistryOp.activate validatorId t) :
    ∃ v', (applyOp H serializeScript reg op).GetValidator validatorId = some v' ∧
      v'.status ≠ ValidatorStatus.ACTIVE := by
  unfold CValidatorRegistry.GetValidator at hv ⊢
  have hmod : ∀ (k : Nat) (f : CValidator → CValidator),
      (k = validatorId → (f v).status ≠ ValidatorStatus.ACTIVE) →
      ∃ v', mapFind (mapModify k f reg.validators) validatorId = some v' ∧
        v'.status ≠ ValidatorStatus.ACTIVE := by
    intro k f hf
    by_cases hk : k = validatorId
    · subst hk
      exact ⟨f v, mapFind_mapModify_same _ _ _ _ hv, hf rfl⟩
    · exact ⟨v, by rw [mapFind_mapModify_other _ _ _ _ (fun h => hk h.symm)]; exact hv, hs⟩
  cases op with
  | register scriptPubKey stakedAmount registrationTime =>
    simp only [applyOp]
    rcases registerValidator_cases H serializeScript reg scriptPubKey stakedAmount
      registrationTime with h | ⟨nv, hnv, h⟩
    · rw [h]
      exact ⟨v, hv, hs⟩
    · rw [h]
      by_cases hk : nv.validatorId = validatorId
      · refine ⟨nv, ?_, by rw [hnv]; decide⟩
        rw [← hk]
        exact mapFind_mapAssign_same _ _ _
      · refine ⟨v, ?_, hs⟩
        rw [mapFind_mapAssign_other _ _ _ _ (fun h => hk h.symm)]
        exact hv
  | remove k =>
    simp only [applyOp, CValidatorRegistry.RemoveValidator]
    split
    · exact ⟨v, hv, hs⟩
    · exact hmod k (fun v => { v with status := ValidatorStatus.PENDING_EXIT })
        (fun _ => by simp)
  | updateReputation k producedBlock =>
    simp only [applyOp, CValidatorRegistry.UpdateValidatorReputation]
    split
    · exact ⟨v, hv, hs⟩
    · exact hmod k _ (fun _ => hs)
  | activate k activationTime =>
    simp only [applyOp]
    refine hmod k _ (fun hk => ?_)
    exact absurd (hk ▸ rfl) (hop activationTime)
  | deactivate k deactivationTime =>
    simp only [applyOp]
    refine hmod k _ (fun _ => ?_)
    simp [CValidator.Deactivate]
  | slash k slashTime slashedAmountOf =>
    simp only [applyOp]
    refine hmod k _ (fun _ => ?_)
    simp [CValidator.Slash]

/-- C18, as amended: once a validator's status is Slashed, after any later
sequence of `RegisterValidator`, `RemoveValidator`, `UpdateValidatorReputation`,
`Deactivate` and `Slash` operations, and of `Activate` calls on other
validators, it is still in the registry with a status that is not Active, it is
rejected by `IsValidatorEligible` and it is not what `SelectNextValidator`
returns. -/
theorem slashed_not_active_without_activate (H : List Nat → Nat)
    (serializeScript : List Nat → List Nat) (reg : CValidatorRegistry) (validatorId : Nat)
    (v : CValidator) (ops : List RegistryOp) (view : List Coin) (GetRand : Int → Nat)
    (prevBlockHash : Nat) (timestamp : Int)
    (hv : reg.GetValidator validatorId = some v) (hs : v.status = ValidatorStatus.SLASHED)
    (hops : ∀ op ∈ ops, ∀ t, op ≠ RegistryOp.activate validatorId t) :
    ∃ v', (applyOps H serializeScript reg ops).GetValidator validatorId = some v' ∧
      v'.status ≠ ValidatorStatus.ACTIVE ∧
      IsValidatorEligible view v' = Outcome.returned false ∧
      (applyOps H serializeScript reg ops).SelectNextValidator GetRand prevBlockHash timestamp ≠
        some v' := by
  have hgen : ∀ (ops : List RegistryOp) (reg : CValidatorRegistry) (v : CValidator),
      reg.GetValidator validatorId = some v → v.status ≠ ValidatorStatus.ACTIVE →
      (∀ op ∈ ops, ∀ t, op ≠ RegistryOp.activate validatorId t) →
      ∃ v', (applyOps H serializeScript reg ops).GetValidator validatorId = some v' ∧
        v'.status ≠ ValidatorStatus.ACTIVE := by
    intro ops
    induction ops with
    | nil => intro reg v hv hs _; exact ⟨v, hv, hs⟩
    | cons op rest ih =>
      intro reg v hv hs hops
      obtain ⟨v1, hv1, hs1⟩ := applyOp_keeps_not_active H serializeScript reg validatorId v op
        hv hs (hops op (List.mem_cons_self _ _))
      exact ih (applyOp H serializeScript reg op) v1 hv1 hs1
        (fun o ho => hops o (List.mem_cons_of_mem _ ho))
  obtain ⟨v', hv', hs'⟩ := hgen ops reg v hv (by rw [hs]; decide) hops
  refine ⟨v', hv', hs', ?_, ?_⟩
  · simp [IsValidatorEligible, hs']
  · intro hsel
    exact hs' (selectNextValidator_mem _ _ _ _ _ hsel).2

set_option maxRecDepth 100000 in
/-- Witness of C18 as amended: the slashed validator of `exOps`, then removed,
re-registered and deactivated. -/
theorem slashed_not_active_without_activate_witness :
    (applyOps exHash exSerialize { validators := [] } exOps).GetValidator exIdA =
      some exSlashedValidator ∧
    exSlashedValidator.status = ValidatorStatus.SLASHED ∧
    ∃ v', (applyOps exHash exSerialize (applyOps exHash exSerialize { validators := [] } exOps)
          [RegistryOp.remove exIdA, RegistryOp.register exScriptA (50 * COIN) 1700003000,
           RegistryOp.deactivate exIdA 1700004000]).GetValidator exIdA = some v' ∧
      v'.status ≠ ValidatorStatus.ACTIVE ∧
      IsValidatorEligible exView v' = Outcome.returned false ∧
      (applyOps exHash exSerialize (applyOps exHash exSerialize { validators := [] } exOps)
          [RegistryOp.remove exIdA, RegistryOp.register exScriptA (50 * COIN) 1700003000,
           RegistryOp.deactivate exIdA 1700004000]).SelectNextValidator (fun _ => 0) 0 0 ≠
        some v' :=
  ⟨by decide, by decide,
    slashed_not_active_without_activate exHash exSerialize
      (applyOps exHash exSerialize { validators := [] } exOps) exIdA exSlashedValidator
      [RegistryOp.remove exIdA, RegistryOp.register exScriptA (50 * COIN) 1700003000,
       RegistryOp.deactivate exIdA 1700004000] exView (fun _ => 0) 0 0
      (by decide) (by decide)
      (by
        intro op hop t
        simp only [List.mem_cons, List.mem_singleton, List.not_mem_nil, or_false] at hop
        rcases hop with h | h | h <;> rw [h] <;> simp)⟩

set_option maxRecDepth 100000 in
/-- C18 fails as stated: the validator of `exOps` is Slashed; one `Activate`
makes it Active again, and then `SelectNextValidator` returns it. -/
theorem slashed_validator_reactivated :
    ((applyOps exHash exSerialize { validators := [] } exOps).GetValidator exIdA).map
      (fun v => v.status) = some ValidatorStatus.SLASHED ∧
    ((applyOps exHash exSerialize (applyOps exHash exSerialize { validators := [] } exOps)
        [RegistryOp.activate exIdA 1700002000]).GetValidator exIdA).map (fun v => v.status) =
      some ValidatorStatus.ACTIVE ∧
    (applyOps exHash exSerialize (applyOps exHash exSerialize { validators := [] } exOps)
        [RegistryOp.activate exIdA 1700002000]).SelectNextValidator (fun _ => 0) 0 0 =
      (applyOps exHash exSerialize (applyOps exHash exSerialize { validators := [] } exOps)
        [RegistryOp.activate exIdA 1700002000]).GetValidator exIdA := by
  decide

/-- What `Slash` does besides the `double` product: it returns the amount it
deducts, so that the new staked amount plus the returned amount is the old
staked amount; it sets the status to Slashed, adds one to `slashableOffenses`
(modulo 2^32) and recomputes the score; script, id, registration time and the
other counters and times stay. -/
theorem slash_frame (v : CValidator) (slashTime : Int) (slashedAmountOf : Int → Int) :
    (v.Slash slashTime slashedAmountOf).1 = slashedAmountOf v.stakedAmount ∧
    (v.Slash slashTime slashedAmountOf).2.stakedAmount + (v.Slash slashTime slashedAmountOf).1 =
      v.stakedAmount ∧
    (v.Slash slashTime slashedAmountOf).2.status = ValidatorStatus.SLASHED ∧
    (v.Slash slashTime slashedAmountOf).2.reputation.slashableOffenses =
      (v.reputation.slashableOffenses + 1) % 2 ^ 32 ∧
    (v.Slash slashTime slashedAmountOf).2.reputation.blocksProduced =
      v.reputation.blocksProduced ∧
    (v.Slash slashTime slashedAmountOf).2.reputation.blocksMissed = v.reputation.blocksMissed ∧
    (v.Slash slashTime slashedAmountOf).2.scriptPubKey = v.scriptPubKey ∧
    (v.Slash slashTime slashedAmountOf).2.validatorId = v.validatorId ∧
    (v.Slash slashTime slashedAmountOf).2.registrationTime = v.registrationTime := by
  refine ⟨rfl, ?_, rfl, rfl, rfl, rfl, rfl, rfl, rfl⟩
  simp [CValidator.Slash]

/-! ## Selection: a single Active validator, the random draw, registration only -/

/-- C21: when exactly one validator of the registry is Active,
`SelectNextValidator` returns that validator for every previous-block hash,
every timestamp and every random draw. -/
theorem selectNextValidator_single_active (GetRand : Int → Nat) (reg : CValidatorRegistry)
    (prevBlockHash : Nat) (timestamp : Int) (v : CValidator)
    (h : reg.GetActiveValidators = [v]) :
    reg.SelectNextValidator GetRand prevBlockHash timestamp = some v := by
  rw [selectNextValidator_eq, h]
  simp only [List.isEmpty_cons, Bool.false_eq_true, if_false]
  split
  · rename_i w hw
    have hmem := selectByWeight_mem _ _ _ _ _ hw
    simp only [List.mem_singleton] at hmem
    rw [hmem]
  · rfl

set_option maxRecDepth 100000 in
/-- Witness of C21: of the two registered validators only that of `exScriptA` is
Active, and it is returned at the draw 999. -/
theorem selectNextValidator_single_active_witness :
    exOneActiveRegistry.GetActiveValidators = [exActiveValidatorA] ∧
    exOneActiveRegistry.SelectNextValidator (fun _ => 999) 77 1700000700 =
      some exActiveValidatorA :=
  ⟨by decide,
    selectNextValidator_single_active (fun _ => 999) exOneActiveRegistry 77 1700000700
      exActiveValidatorA (by decide)⟩

set_option maxRecDepth 100000 in
/-- C22, the code at the failing input: on the same registry (two Active
validators of weights 600 and 192), previous-block hash and timestamp, the call
whose `GetRand` draw is 0 returns the validator of `exScriptA` and the call whose
draw is 650 returns the validator of `exScriptB`. -/
theorem selectNextValidator_depends_on_draw :
    (exActiveRegistry.SelectNextValidator (fun _ => 0) 77 1700000700).map
      (fun v => v.scriptPubKey) = some exScriptA ∧
    (exActiveRegistry.SelectNextValidator (fun _ => 650) 77 1700000700).map
      (fun v => v.scriptPubKey) = some exScriptB := by
  decide

/-- After registrations only, every entry of the registry is Inactive. -/
theorem registered_only_inactive (H : List Nat → Nat) (serializeScript : List Nat → List Nat)
    (regs : List (List Nat × Int × Int)) :
    ∀ reg : CValidatorRegistry,
      (∀ e ∈ reg.validators, e.2.status = ValidatorStatus.INACTIVE) →
      ∀ e ∈ (applyOps H serializeScript reg
          (regs.map (fun r => RegistryOp.register r.1 r.2.1 r.2.2))).validators,
        e.2.status = ValidatorStatus.INACTIVE := by
  induction regs with
  | nil => intro reg hreg; exact hreg
  | cons r rest ih =>
    intro reg hreg
    simp only [List.map_cons, applyOps, List.foldl_cons]
    refine ih _ ?_
    intro e he
    simp only [applyOp] at he
    rcases registerValidator_cases H serializeScript reg r.1 r.2.1 r.2.2 with h | ⟨nv, hnv, h⟩
    · rw [h] at he
      exact hreg e he
    · rw [h] at he
      rcases mem_mapAssign _ _ _ e he with h' | h'
      · rw [h']
        exact hnv
      · exact hreg e h'

/-- From a registry that has only seen registrations, `SelectNextValidator`
returns None. -/
theorem selectNextValidator_none_of_registered_only (H : List Nat → Nat)
    (serializeScript : List Nat → List Nat) (regs : List (List Nat × Int × Int))
    (GetRand : Int → Nat) (prevBlockHash : Nat) (timestamp : Int) :
    (applyOps H serializeScript { validators := [] }
        (regs.map (fun r => RegistryOp.register r.1 r.2.1 r.2.2))).SelectNextValidator
      GetRand prevBlockHash timestamp = none := by
  have hin := registered_only_inactive H serializeScript regs { validators := [] } (by simp)
  rw [selectNextValidator_eq]
  have hA : (applyOps H serializeScript { validators := [] }
      (regs.map (fun r => RegistryOp.register r.1 r.2.1 r.2.2))).GetActiveValidators = [] := by
    unfold CValidatorRegistry.GetActiveValidators
    rw [List.map_eq_nil_iff, List.filter_eq_nil_iff]
    intro e he
    simp [hin e he]
  rw [hA]
  rfl

set_option maxRecDepth 100000 in
/-- C23, the code at the failing input: after registering `exScriptA` with 100
coins and `exScriptB` with 32 coins and nothing else, the registry holds both
validators, both Inactive, and `SelectNextValidator` returns None. -/
theorem selectNextValidator_none_after_registration :
    exRegistry.validators.map (fun e => (e.2.scriptPubKey, e.2.stakedAmount, e.2.status)) =
      [(exScriptA, 100 * COIN, ValidatorStatus.INACTIVE),
       (exScriptB, 32 * COIN, ValidatorStatus.INACTIVE)] ∧
    exRegistry.SelectNextValidator (fun _ => 0) 0x1234567890abcdef 1700000700 = none := by
  decide

/-! ## The minter's bookkeeping and the reported validator id -/

/-- The minter's bookkeeping adds 2 to `blocksProduced` (modulo 2^32) of our
validator. -/
theorem posMinerUpdateReputation_blocksProduced (reg : CValidatorRegistry)
    (ourValidatorId : Nat) (v : CValidator) (hv : reg.GetValidator ourValidatorId = some v) :
    ∃ v', (PoSMinerUpdateReputation reg ourValidatorId).GetValidator ourValidatorId = some v' ∧
      v'.reputation.blocksProduced = ((v.reputation.blocksProduced + 1) % 2 ^ 32 + 1) % 2 ^ 32 := by
  unfold PoSMinerUpdateReputation
  rw [hv]
  unfold CValidatorRegistry.GetValidator at hv
  have h1 := mapFind_mapModify_same ourValidatorId
    (fun v : CValidator =>
      { v with reputation :=
          { v.reputation with blocksProduced := (v.reputation.blocksProduced + 1) % 2 ^ 32 } })
    reg.validators v hv
  simp only [CValidatorRegistry.UpdateValidatorReputation, h1, CValidatorRegistry.GetValidator]
  refine ⟨_, mapFind_mapModify_same _ _ _ _ h1, ?_⟩
  simp [ValidatorReputation.UpdateReputationScore]

set_option maxRecDepth 100000 in
/-- C25, the code at the failing input: our validator has produced no block so
far; after the minter's bookkeeping for one submitted block its `blocksProduced`
counter is 2. -/
theorem posMiner_counts_block_twice :
    (exActiveRegistry.GetValidator exIdA).map (fun v => v.reputation.blocksProduced) = some 0 ∧
    ((PoSMinerUpdateReputation exActiveRegistry exIdA).GetValidator exIdA).map
      (fun v => v.reputation.blocksProduced) = some 2 := by
  decide

/-- After a successful `registervalidator` the reported id is the hash of the
bytes of the script, and the registry holds the validator under the hash of the
serialised script. -/
theorem registervalidator_ids (H : List Nat → Nat) (serializeScript : List Nat → List Nat)
    (reg reg' : CValidatorRegistry) (stake_amount available_balance : Int)
    (scriptPubKey : List Nat) (registration_time : Int) (validator_id : Nat)
    (h : registervalidator H serializeScript reg stake_amount available_balance scriptPubKey
      registration_time = (some validator_id, reg')) :
    validator_id = Hash256 H scriptPubKey ∧
    ∃ v, reg'.GetValidator (Hash256 H (serializeScript scriptPubKey)) = some v ∧
      v.scriptPubKey = scriptPubKey := by
  unfold registervalidator at h
  split at h
  · cases h
  · split at h
    · cases h
    · simp only [CValidatorRegistry.RegisterValidator] at h
      split at h
      · simp at h
      · simp only [Bool.not_true, Bool.false_eq_true, if_false, Prod.mk.injEq,
          Option.some.injEq] at h
        obtain ⟨h1, h2⟩ := h
        refine ⟨h1.symm, ?_⟩
        rw [← h2]
        exact ⟨_, mapFind_mapAssign_same _ _ _, rfl⟩

set_option maxRecDepth 100000 in
/-- C26, the code at the failing input: with a serialisation that puts the
length of the script before its bytes, `registervalidator` for `exScriptA` on
the empty registry reports the id 1288, the hash of the bytes of the script;
the registry stores the validator under 1291, the hash of the serialised script,
and `getvalidatorinfo` with the reported id finds no validator. -/
theorem registervalidator_reported_id_not_found :
    (registervalidator exHash exSerialize { validators := [] } (32 * COIN) (40 * COIN)
      exScriptA 1700000000).1 = some 1288 ∧
    getvalidatorinfo (registervalidator exHash exSerialize { validators := [] } (32 * COIN)
      (40 * COIN) exScriptA 1700000000).2 1288 = none ∧
    ((registervalidator exHash exSerialize { validators := [] } (32 * COIN) (40 * COIN)
      exScriptA 1700000000).2.validators.map (fun e => (e.1, e.2.scriptPubKey))) =
      [(1291, exScriptA)] := by
  decide

/-! ## The score never exceeds 80 -/

/-- `UpdateReputationScore` leaves the score in [0, 80], whatever the counters. -/
theorem updateReputationScore_le_80 (r : ValidatorReputation) :
    0 ≤ r.UpdateReputationScore.reputationScore ∧
    r.UpdateReputationScore.reputationScore ≤ 80 := by
  have ha : min (r.blocksProduced / 10) 30 ≤ 30 := Nat.min_le_right _ _
  have hb : min (r.blocksMissed / 5) 20 ≤ 20 := Nat.min_le_right _ _
  have hc : min ((r.slashableOffenses * 10) % 2 ^ 32) 50 ≤ 50 := Nat.min_le_right _ _
  simp only [ValidatorReputation.UpdateReputationScore]
  generalize min (r.blocksProduced / 10) 30 = a at ha ⊢
  generalize min (r.blocksMissed / 5) 20 = b at hb ⊢
  generalize min ((r.slashableOffenses * 10) % 2 ^ 32) 50 = c at hc ⊢
  have h1 : toInt32 ((toUInt32 50 + a) % 2 ^ 32) = 50 + (a : Int) := by
    unfold toInt32 toUInt32
    split_ifs <;> omega
  rw [h1]
  have h2 : toInt32 ((toUInt32 (50 + (a : Int)) + 2 ^ 32 - b) % 2 ^ 32) =
      50 + (a : Int) - (b : Int) := by
    unfold toInt32 toUInt32
    split_ifs <;> omega
  rw [h2]
  have h3 : toInt32 ((toUInt32 (50 + (a : Int) - (b : Int)) + 2 ^ 32 - c) % 2 ^ 32) =
      50 + (a : Int) - (b : Int) - (c : Int) := by
    unfold toInt32 toUInt32
    split_ifs <;> omega
  rw [h3]
  omega

/-- A property of scores that holds of 50 and of every score that
`UpdateReputationScore` computes is kept by every operation. -/
theorem applyOp_score_pred (P : Int → Prop) (h50 : P 50)
    (hU : ∀ r : ValidatorReputation, P r.UpdateReputationScore.reputationScore)
    (H : List Nat → Nat) (serializeScript : List Nat → List Nat)
    (reg : CValidatorRegistry) (op : RegistryOp)
    (hreg : ∀ e ∈ reg.validators, P e.2.reputation.reputationScore) :
    ∀ e ∈ (applyOp H serializeScript reg op).validators, P e.2.reputation.reputationScore := by
  have hmod : ∀ (k : Nat) (f : CValidator → CValidator),
      (∀ v : CValidator, P v.reputation.reputationScore → P (f v).reputation.reputationScore) →
      ∀ e ∈ mapModify k f reg.validators, P e.2.reputation.reputationScore := by
    intro k f hf e he
    rcases mem_mapModify k f reg.validators e he with h | ⟨e0, he0, h⟩
    · exact hreg e h
    · rw [h]
      exact hf e0.2 (hreg e0 he0)
  cases op with
  | register scriptPubKey stakedAmount registrationTime =>
    intro e he
    simp only [applyOp, CValidatorRegistry.RegisterValidator] at he
    split at he
    · exact hreg e he
    · rcases mem_mapAssign _ _ _ e he with h | h
      · rw [h]
        exact h50
      · exact hreg e h
  | remove validatorId =>
    intro e he
    simp only [applyOp, CValidatorRegistry.RemoveValidator] at he
    split at he
    · exact hreg e he
    · exact hmod validatorId (fun v => { v with status := ValidatorStatus.PENDING_EXIT })
        (fun v hv => hv) e he
  | updateReputation validatorId producedBlock =>
    intro e he
    simp only [applyOp, CValidatorRegistry.UpdateValidatorReputation] at he
    split at he
    · exact hreg e he
    · exact hmod _ _ (fun v _ => hU _) e he
  | activate validatorId activationTime =>
    intro e he
    simp only [applyOp] at he
    refine hmod _ _ (fun v hv => ?_) e he
    unfold CValidator.Activate
    by_cases h : v.reputation.firstActiveTime = 0
    · simp only [h, if_true]
      exact hv
    · simp only [h, if_false]
      exact hv
  | deactivate validatorId deactivationTime =>
    intro e he
    simp only [applyOp] at he
    refine hmod _ _ (fun v hv => ?_) e he
    unfold CValidator.Deactivate
    by_cases h : v.status = ValidatorStatus.ACTIVE
    · simp only [h, if_true]
      exact hv
    · simp only [h, if_false]
      exact hv
  | slash validatorId slashTime slashedAmountOf =>
    intro e he
    simp only [applyOp] at he
    refine hmod _ _ (fun v _ => ?_) e he
    exact hU _

/-- C30: a new validator starts at score 50; for all counter values
`UpdateReputationScore` yields a score in [0, 80]; and in every registry state
reached from the empty registry by the operations of the validator code every
score lies in [0, 80], so no score in (80, 100] is ever reached. -/
theorem reputationScore_never_exceeds_80 (r : ValidatorReputation) (H : List Nat → Nat)
    (serializeScript : List Nat → List Nat) (ops : List RegistryOp) :
    ValidatorReputation.new.reputationScore = 50 ∧
    (0 ≤ r.UpdateReputationScore.reputationScore ∧
      r.UpdateReputationScore.reputationScore ≤ 80) ∧
    ∀ e ∈ (applyOps H serializeScript { validators := [] } ops).validators,
      0 ≤ e.2.reputation.reputationScore ∧ e.2.reputation.reputationScore ≤ 80 := by
  refine ⟨rfl, updateReputationScore_le_80 r, ?_⟩
  have hgen : ∀ (ops : List RegistryOp) (reg : CValidatorRegistry),
      (∀ e ∈ reg.validators,
        0 ≤ e.2.reputation.reputationScore ∧ e.2.reputation.reputationScore ≤ 80) →
      ∀ e ∈ (applyOps H serializeScript reg ops).validators,
        0 ≤ e.2.reputation.reputationScore ∧ e.2.reputation.reputationScore ≤ 80 := by
    intro ops
    induction ops with
    | nil => intro reg hreg; exact hreg
    | cons op rest ih =>
      intro reg hreg
      exact ih (applyOp H serializeScript reg op)
        (applyOp_score_pred (fun s => 0 ≤ s ∧ s ≤ 80) (by norm_num)
          updateReputationScore_le_80 H serializeScript reg op hreg)
  exact hgen ops _ (by simp)

set_option maxRecDepth 100000 in
/-- Witness of C30: 200 blocks produced and nothing else give the score 70, and
the validator slashed in `exOps` ends with score 40. -/
theorem reputationScore_never_exceeds_80_witness :
    (ValidatorReputation.UpdateReputationScore
      { ValidatorReputation.new with blocksProduced := 200 }).reputationScore = 70 ∧
    (exIdA, exSlashedValidator) ∈
      (applyOps exHash exSerialize { validators := [] } exOps).validators ∧
    0 ≤ exSlashedValidator.reputation.reputationScore ∧
    exSlashedValidator.reputation.reputationScore ≤ 80 :=
  ⟨by decide, by decide,
    (reputationScore_never_exceeds_80 { ValidatorReputation.new with blocksProduced := 200 }
      exHash exSerialize exOps).2.2 (exIdA, exSlashedValidator) (by decide)⟩

/-! ## Proof-of-stake and proof-of-work candidates -/

set_option maxRecDepth 1000000 in
/-- C27, the code at the failing input, with the double SHA-256 for the hash: a
proof-of-stake block and a proof-of-work block, neither selected before, both
with time up to the cut-off. The selection hash of the proof-of-stake block,
shifted right by 32 bits, is above the selection hash of the proof-of-work
block, and `SelectBlockFromCandidates` selects the proof-of-work block. -/
theorem selectBlockFromCandidates_selects_proof_of_work :
    exStakeBlock.fProofOfStake = true ∧ exWorkBlock.fProofOfStake = false ∧
    (exStakeBlock.nTime : Int) ≤ 1000000 ∧ (exWorkBlock.nTime : Int) ≤ 1000000 ∧
    hashSelection sha256d 4242 exStakeBlock =
      0xffffffdbe6bd5a3a0c9d3a6a08bdafbc1490d7d2822efd3ae766577b ∧
    hashSelection sha256d 4242 exWorkBlock =
      0x7d1415718274221b8ad89816ab4e613b871997981e249969bb4a4cb4 ∧
    SelectBlockFromCandidates sha256d exMixedLookup exMixedCandidates [] 1000000 4242 =
      some exWorkBlock := by
  decide

/-! ## The kernel check and the staked value -/

/-- Truncating division by a positive number is monotone. -/
theorem tdiv_le_tdiv_of_le (a b c : Int) (hc : 0 < c) (h : a ≤ b) : a.tdiv c ≤ b.tdiv c := by
  have hc0 : 0 ≤ c := le_of_lt hc
  have hneg : ∀ x : Int, x < 0 → x.tdiv c = -((-x) / c) := by
    intro x hx
    have h1 : (-x).tdiv c = (-x) / c := Int.tdiv_eq_ediv (by omega) hc0
    have h2 : (-x).tdiv c = -(x.tdiv c) := Int.neg_tdiv x c
    omega
  by_cases ha : 0 ≤ a
  · have hb : 0 ≤ b := le_trans ha h
    rw [Int.tdiv_eq_ediv ha hc0, Int.tdiv_eq_ediv hb hc0]
    exact Int.ediv_le_ediv hc h
  · have ha' : a < 0 := not_le.mp ha
    rw [hneg a ha']
    have hq : 0 ≤ (-a) / c := Int.ediv_nonneg (by omega) hc0
    by_cases hb : 0 ≤ b
    · rw [Int.tdiv_eq_ediv hb hc0]
      have : 0 ≤ b / c := Int.ediv_nonneg hb hc0
      omega
    · have hb' : b < 0 := not_le.mp hb
      rw [hneg b hb']
      have := Int.ediv_le_ediv hc (show -b ≤ -a by omega)
      omega

/-- C28: with a non-negative time weight and a non-negative target, and the
staked output's value raised from `v` to `v' ≥ v` while every other input stays
the same, `CheckStakeKernelHash` passes for `v'` whenever it passes for `v`, and
reports the same proof hash. -/
theorem checkStakeKernelHash_monotone_in_value (params : ConsensusParams) (net : NetworkID)
    (H : List Nat → Nat) (SetCompact : Nat → Int) (cs : Chainstate) (fuel nBits : Nat)
    (pindexPrev : CBlockIndex) (pprev : List CBlockIndex) (blockFrom : CBlockHeader)
    (nTxPrevOffset : Nat) (txPrev txPrev' : CTransaction) (prevout : COutPoint) (nTimeTx : Nat)
    (hashProofOfStake : Option Nat)
    (htime : txPrev'.nTime = txPrev.nTime)
    (hval : nValueIn txPrev prevout ≤ nValueIn txPrev' prevout)
    (hweight : 0 ≤ nTimeWeight params net blockFrom txPrev nTimeTx)
    (htarget : 0 ≤ SetCompact nBits)
    (hpass : CheckStakeKernelHash params net H SetCompact cs fuel nBits pindexPrev pprev
        blockFrom nTxPrevOffset txPrev prevout nTimeTx =
      Outcome.returned (true, hashProofOfStake)) :
    CheckStakeKernelHash params net H SetCompact cs fuel nBits pindexPrev pprev blockFrom
        nTxPrevOffset txPrev' prevout nTimeTx = Outcome.returned (true, hashProofOfStake) := by
  have hT : nTimeTxPrev blockFrom txPrev' = nTimeTxPrev blockFrom txPrev := by
    unfold nTimeTxPrev
    rw [htime]
  have hW : nTimeWeight params net blockFrom txPrev' nTimeTx =
      nTimeWeight params net blockFrom txPrev nTimeTx := by
    unfold nTimeWeight
    rw [hT]
  have hS : ∀ ss0, kernelStream ss0 blockFrom nTxPrevOffset txPrev' prevout nTimeTx =
      kernelStream ss0 blockFrom nTxPrevOffset txPrev prevout nTimeTx := by
    intro ss0
    unfold kernelStream
    rw [hT]
  by_cases h1 : nTimeTx < nTimeTxPrev blockFrom txPrev
  · exfalso
    unfold CheckStakeKernelHash at hpass
    simp [h1] at hpass
  by_cases h2 : (blockFrom.nTime : Int) + params.nStakeMinAge > (nTimeTx : Int)
  · exfalso
    unfold CheckStakeKernelHash at hpass
    simp [h1, h2] at hpass
  have hno : ∀ o : Outcome (Option (List Nat)),
      (if IsProtocolV03 net nTimeTx then
        (GetKernelStakeModifier params net cs fuel pindexPrev pprev blockFrom.hash nTimeTx).map
          (Option.map (fun m => leBytes 8 m.1))
      else Outcome.returned (some (leBytes 4 nBits))) = o →
      (∀ ss0, o ≠ Outcome.returned (some ss0)) → False := by
    intro o ho hnot
    unfold CheckStakeKernelHash at hpass
    simp only [ho] at hpass
    rw [if_neg h1, if_neg h2] at hpass
    cases o with
    | thrown => cases hpass
    | undefined => cases hpass
    | returned value =>
      cases value with
      | none =>
        simp only [Outcome.returned.injEq, Prod.mk.injEq, Bool.false_eq_true, false_and] at hpass
      | some ss0 => exact hnot ss0 rfl
  cases h3 : (if IsProtocolV03 net nTimeTx then
      (GetKernelStakeModifier params net cs fuel pindexPrev pprev blockFrom.hash nTimeTx).map
        (Option.map (fun m => leBytes 8 m.1))
    else Outcome.returned (some (leBytes 4 nBits))) with
  | thrown => exact (hno _ h3 (fun _ h => by cases h)).elim
  | undefined => exact (hno _ h3 (fun _ h => by cases h)).elim
  | returned value =>
    cases value with
    | none => exact (hno _ h3 (fun _ h => by cases h)).elim
    | some ss0 =>
      rw [checkStakeKernelHash_of_checks params net H SetCompact cs fuel nBits pindexPrev pprev
        blockFrom nTxPrevOffset txPrev prevout nTimeTx ss0 (by omega) (by omega) h3] at hpass
      rw [checkStakeKernelHash_of_checks params net H SetCompact cs fuel nBits pindexPrev pprev
        blockFrom nTxPrevOffset txPrev' prevout nTimeTx ss0 (by rw [hT]; omega) (by omega) h3]
      simp only [Outcome.returned.injEq, Prod.mk.injEq, decide_eq_true_eq] at hpass ⊢
      obtain ⟨hle, hh⟩ := hpass
      refine ⟨?_, by rw [hS]; exact hh⟩
      rw [hS]
      refine le_trans hle (Int.mul_le_mul_of_nonneg_right ?_ htarget)
      unfold bnCoinDayWeight
      rw [hW]
      refine tdiv_le_tdiv_of_le _ _ _ (by norm_num) (tdiv_le_tdiv_of_le _ _ _ (by decide) ?_)
      exact Int.mul_le_mul_of_nonneg_right hval hweight

set_option maxRecDepth 100000 in
/-- Witness of C28: one day past the minimum age, with time weight 86400, the
check passes for the output of 10 coins (coin-day weight 10) and so for the
output of 20 coins, with the same proof hash 5. -/
theorem checkStakeKernelHash_monotone_in_value_witness :
    nTimeWeight exParams NetworkID.MAIN exBlockFrom exTxPrev 1500086400 = 86400 ∧
    CheckStakeKernelHash exParams NetworkID.MAIN (fun _ => 5) exSetCompact exChainstate 0
        0x1d00ffff exPrev [exAncestor] exBlockFrom 81 exTxPrev exPrevout 1500086400 =
      Outcome.returned (true, some 5) ∧
    CheckStakeKernelHash exParams NetworkID.MAIN (fun _ => 5) exSetCompact exChainstate 0
        0x1d00ffff exPrev [exAncestor] exBlockFrom 81 exTxPrevLarger exPrevout 1500086400 =
      Outcome.returned (true, some 5) :=
  ⟨by decide, by decide,
    checkStakeKernelHash_monotone_in_value exParams NetworkID.MAIN (fun _ => 5) exSetCompact
      exChainstate 0 0x1d00ffff exPrev [exAncestor] exBlockFrom 81 exTxPrev exTxPrevLarger
      exPrevout 1500086400 (some 5) (by decide) (by decide) (by decide) (by decide) (by decide)⟩

/-! ## Validator eligibility -/

/-- The second loop of `CheckValidatorMinimumStake` ends with a defined total
only when it has added no value: the total is the one it was entered with. -/
theorem checkValidatorMinimumStakeLoop_total (view : List Coin) (scriptPubKey : List Nat) :
    ∀ (l : List COutPoint) (totalStake t : Int),
      checkValidatorMinimumStakeLoop view scriptPubKey l totalStake = some t → t = totalStake := by
  intro l
  induction l with
  | nil =>
    intro totalStake t h
    simp only [checkValidatorMinimumStakeLoop, Option.some.injEq] at h
    exact h.symm
  | cons outpoint rest ih =>
    intro totalStake t h
    unfold checkValidatorMinimumStakeLoop at h
    split at h
    · exact ih _ _ h
    · split at h
      · exact ih _ _ h
      · split at h
        · cases h
        · exact ih _ _ h

/-- `CheckValidatorMinimumStake(scriptPubKey, chainstate)` does not return true:
a total that is defined is 0. -/
theorem checkValidatorMinimumStakeScript_ne_true (view : List Coin) (scriptPubKey : List Nat) :
    CheckValidatorMinimumStakeScript view scriptPubKey ≠ Outcome.returned true := by
  unfold CheckValidatorMinimumStakeScript
  simp only
  split
  · intro h
    cases h
  · rename_i totalStake hloop
    have h0 := checkValidatorMinimumStakeLoop_total view scriptPubKey _ _ _ hloop
    rw [h0, if_pos (by decide)]
    intro h
    cases h

/-- `IsValidatorEligible` does not return true, whatever the validator and the
UTXO view; for a validator whose status is not Active (so for one whose status
is Slashed) it returns false. -/
theorem isValidatorEligible_ne_true (view : List Coin) (validator : CValidator) :
    IsValidatorEligible view validator ≠ Outcome.returned true ∧
    (validator.status ≠ ValidatorStatus.ACTIVE →
      IsValidatorEligible view validator = Outcome.returned false) := by
  refine ⟨?_, ?_⟩
  · unfold IsValidatorEligible
    split
    · intro h
      cases h
    · split
      · intro h
        cases h
      · split
        · intro h
          cases h
        · have hne := checkValidatorMinimumStakeScript_ne_true view validator.scriptPubKey
          cases hc : CheckValidatorMinimumStakeScript view validator.scriptPubKey with
          | thrown =>
            intro h
            cases h
          | undefined =>
            intro h
            cases h
          | returned stakeVerified =>
            cases stakeVerified with
            | true => exact absurd hc hne
            | false =>
              intro h
              simp at h
  · intro hs
    unfold IsValidatorEligible
    rw [if_pos hs]

set_option maxRecDepth 100000 in
/-- C24, the code at the failing input: the validator of `exScriptA` is Active
and stakes 100 coins, and two unspent outputs of 20 coins each pay its script,
40 coins in all; the first pass of the second loop of
`CheckValidatorMinimumStake` appends to the vector the loop runs over, and the
outcome of `IsValidatorEligible` is undefined. -/
theorem isValidatorEligible_undefined_for_funded_validator :
    exActiveValidatorA.status = ValidatorStatus.ACTIVE ∧
    exActiveValidatorA.stakedAmount ≥ 32 * COIN ∧
    utxoStake_spec exStakeView exActiveValidatorA.scriptPubKey = 40 * COIN ∧
    (40 * COIN : Int) ≥ 32 * COIN ∧
    IsValidatorEligible exStakeView exActiveValidatorA = Outcome.undefined := by
  decide

/-! ## The rounds of the stake modifier -/

/-- Once a block is selected, the loop of `SelectBlockFromCandidates` over
candidates that are all in the block index ends with a block selected: the one
it was entered with, or a not yet selected candidate of the list. -/
theorem selectLoop_selected_some (H : List Nat → Nat) (L : Nat → Option CBlockIndex)
    (sel : List Nat) (stop : Int) (M : Nat) (v : List (Int × Nat)) :
    (∀ it ∈ v, ∃ b, L it.2 = some b) →
    ∀ (hb : Nat) (p : CBlockIndex),
      ∃ hb' q, selectLoop H L sel stop M v
          { fSelected := true, hashBest := hb, pindexSelected := some p } =
          some { fSelected := true, hashBest := hb', pindexSelected := some q } ∧
        (q = p ∨ ∃ it ∈ v, L it.2 = some q ∧ q.hashBlock ∉ sel) := by
  induction v with
  | nil =>
    intro _ hb p
    exact ⟨hb, p, rfl, Or.inl rfl⟩
  | cons item rest ih =>
    intro hlook hb p
    obtain ⟨b, hbl⟩ := hlook item (List.mem_cons_self _ _)
    have hlook' : ∀ it ∈ rest, ∃ b, L it.2 = some b :=
      fun it hit => hlook it (List.mem_cons_of_mem _ hit)
    simp only [selectLoop, hbl]
    by_cases hstop : (b.nTime : Int) > stop
    · exact ⟨hb, p, by simp [hstop], Or.inl rfl⟩
    · simp only [hstop, decide_False, Bool.and_false, Bool.false_eq_true, if_false]
      by_cases hsel : sel.contains b.hashBlock = true
      · rw [if_pos hsel]
        obtain ⟨hb', q, hq, hq1⟩ := ih hlook' hb p
        refine ⟨hb', q, hq, ?_⟩
        rcases hq1 with h | ⟨it, hit, h⟩
        · exact Or.inl h
        · exact Or.inr ⟨it, List.mem_cons_of_mem _ hit, h⟩
      · rw [if_neg hsel]
        have hbs : b.hashBlock ∉ sel := by simpa using hsel
        by_cases hlt : hashSelection H M b < hb
        · simp only [Bool.true_and, hlt, decide_True, if_true]
          obtain ⟨hb', q, hq, hq1⟩ := ih hlook' (hashSelection H M b) b
          refine ⟨hb', q, hq, ?_⟩
          rcases hq1 with h | ⟨it, hit, h⟩
          · exact Or.inr ⟨item, List.mem_cons_self _ _, h ▸ hbl, h ▸ hbs⟩
          · exact Or.inr ⟨it, List.mem_cons_of_mem _ hit, h⟩
        · simp only [Bool.true_and, hlt, decide_False, Bool.false_eq_true, if_false,
            Bool.not_true]
          obtain ⟨hb', q, hq, hq1⟩ := ih hlook' hb p
          refine ⟨hb', q, hq, ?_⟩
          rcases hq1 with h | ⟨it, hit, h⟩
          · exact Or.inl h
          · exact Or.inr ⟨it, List.mem_cons_of_mem _ hit, h⟩

/-- On candidates that are all in the block index and not all selected yet,
`SelectBlockFromCandidates` returns a block of the list that is not already
selected. -/
theorem selectBlockFromCandidates_some (H : List Nat → Nat) (L : Nat → Option CBlockIndex)
    (v : List (Int × Nat)) (sel : List Nat) (stop : Int) (M : Nat)
    (hlook : ∀ it ∈ v, ∃ b, L it.2 = some b ∧ (b.nTime : Int) = it.1)
    (hex : ∃ it ∈ v, ∃ b, L it.2 = some b ∧ b.hashBlock ∉ sel) :
    ∃ q, SelectBlockFromCandidates H L v sel stop M = some q ∧ q.hashBlock ∉ sel ∧
      ∃ it ∈ v, L it.2 = some q := by
  obtain ⟨pre, item, post, x, hv, hpre, hx, hxs⟩ := exists_first_unselected L sel v hlook hex
  subst hv
  obtain ⟨hb', q, hq, hq1⟩ :=
    selectLoop_selected_some H L sel stop M post
      (fun it hit => (hlook it (by simp [hit])).imp (fun b hb => hb.1))
      (hashSelection H M x) x
  refine ⟨q, ?_, ?_, ?_⟩
  · unfold SelectBlockFromCandidates
    rw [selectLoop_unselected H L sel stop M pre item post x 0 none hpre hx hxs, hq]
    rfl
  · rcases hq1 with h | ⟨_, _, _, h⟩
    · exact h ▸ hxs
    · exact h
  · rcases hq1 with h | ⟨it, hit, h, _⟩
    · exact ⟨item, by simp, h ▸ hx⟩
    · exact ⟨it, by simp [hit], h⟩

/-- Fewer selected hashes than candidates with pairwise distinct hashes leave a
candidate that is not selected. -/
theorem exists_unselected_of_length_lt (v : List (Int × Nat)) (sel : List Nat)
    (hnd : (v.map Prod.snd).Nodup) (hlen : sel.length < v.length) :
    ∃ it ∈ v, it.2 ∉ sel := by
  by_contra hcon
  push_neg at hcon
  have hsub : v.map Prod.snd ⊆ sel := by
    intro h hh
    obtain ⟨it, hit, rfl⟩ := List.mem_map.mp hh
    exact hcon it hit
  have hle := (hnd.subperm hsub).length_le
  rw [List.length_map] at hle
  omega

/-- The bits of an entropy bit shifted to the position of its round. -/
theorem entropyBit_testBit (e nRound i : Nat) (he : e ≤ 1) :
    ((e <<< nRound) % 2 ^ 64).testBit i =
      (decide (i = nRound) && decide (i < 64) && decide (e = 1)) := by
  rw [Nat.testBit_mod_two_pow]
  interval_cases e
  · simp
  · rw [Nat.one_shiftLeft, Nat.testBit_two_pow]
    by_cases h : nRound = i
    · simp [h]
    · have h' : ¬ i = nRound := fun h'' => h h''.symm
      simp [h, h']

/-- The rounds of `ComputeNextStakeModifier` on candidates with pairwise
distinct hashes that are all in the block index, entered with fewer blocks
selected than there are candidates left to select: every round selects a block,
no block twice, and ORs its entropy bit in at the position of the round. -/
theorem modifierRounds_select (params : ConsensusParams) (H : List Nat → Nat)
    (L : Nat → Option CBlockIndex) (v : List (Int × Nat)) (M : Nat)
    (hlook : ∀ it ∈ v, ∃ b, L it.2 = some b ∧ (b.nTime : Int) = it.1 ∧ b.hashBlock = it.2 ∧
      b.nStakeEntropyBit ≤ 1)
    (hnd : (v.map Prod.snd).Nodup) :
    ∀ (k nRound acc : Nat) (stop : Int) (sel : List Nat),
      sel.Nodup → sel.length + k ≤ v.length →
      ∃ (bs : List CBlockIndex) (m : Nat), bs.length = k ∧
        modifierRounds params H L v M k nRound acc stop sel = some m ∧
        (∀ i (hi : i < bs.length),
          SelectBlockFromCandidates H L v
            (((bs.take i).map (fun b => b.hashBlock)).reverse ++ sel)
            (stop + ∑ j ∈ Finset.range (i + 1),
              GetStakeModifierSelectionIntervalSection params ((nRound + j : Nat) : Int)) M =
            some (bs.get ⟨i, hi⟩)) ∧
        ((bs.map (fun b => b.hashBlock)).reverse ++ sel).Nodup ∧
        (∀ i, i < nRound → m.testBit i = acc.testBit i) ∧
        (∀ i (hi : i < bs.length), nRound + i < 64 → acc.testBit (nRound + i) = false →
          m.testBit (nRound + i) = decide ((bs.get ⟨i, hi⟩).nStakeEntropyBit = 1)) ∧
        (∀ i, nRound + k ≤ i → m.testBit i = acc.testBit i) := by
  have hlook' : ∀ it ∈ v, ∃ b, L it.2 = some b ∧ (b.nTime : Int) = it.1 :=
    fun it hit => (hlook it hit).imp (fun b hb => ⟨hb.1, hb.2.1⟩)
  intro k
  induction k with
  | zero =>
    intro nRound acc stop sel hsel _
    refine ⟨[], acc, rfl, rfl, ?_, by simpa using hsel, fun _ _ => rfl, ?_, fun _ _ => rfl⟩
    · intro i hi
      cases hi
    · intro i hi
      cases hi
  | succ k ih =>
    intro nRound acc stop sel hsel hlen
    obtain ⟨it0, hit0, hit0s⟩ := exists_unselected_of_length_lt v sel hnd (by omega)
    obtain ⟨b0, hb0, _, hb0h, _⟩ := hlook it0 hit0
    obtain ⟨q, hq, hqs, itq, hitq, hLq⟩ :=
      selectBlockFromCandidates_some H L v sel
        (stop + GetStakeModifierSelectionIntervalSection params (nRound : Int)) M hlook'
        ⟨it0, hit0, b0, hb0, by rw [hb0h]; exact hit0s⟩
    have hqbit : q.nStakeEntropyBit ≤ 1 := by
      obtain ⟨b, hb, _, _, hbit⟩ := hlook itq hitq
      rw [hLq] at hb
      cases hb
      exact hbit
    obtain ⟨bs, m, hbs, hm, hselect, hnodup, hlow, hbits, hhigh⟩ :=
      ih (nRound + 1) (acc ||| ((q.nStakeEntropyBit <<< nRound) % 2 ^ 64))
        (stop + GetStakeModifierSelectionIntervalSection params (nRound : Int))
        (q.hashBlock :: sel) (List.nodup_cons.mpr ⟨hqs, hsel⟩)
        (by simp only [List.length_cons]; omega)
    refine ⟨q :: bs, m, by simp [hbs], ?_, ?_, ?_, ?_, ?_, ?_⟩
    · simp only [modifierRounds, hq]
      exact hm
    · intro i hi
      cases i with
      | zero =>
        simp only [List.take_zero, List.map_nil, List.reverse_nil, List.nil_append, zero_add,
          Finset.range_one, Finset.sum_singleton, Nat.add_zero, List.get_eq_getElem,
          List.getElem_cons_zero]
        exact hq
      | succ i =>
        have hi' : i < bs.length := by simpa using hi
        have h := hselect i hi'
        have hsum : (∑ j ∈ Finset.range (i + 1 + 1),
              GetStakeModifierSelectionIntervalSection params ((nRound + j : Nat) : Int)) =
            GetStakeModifierSelectionIntervalSection params (nRound : Int) +
              ∑ j ∈ Finset.range (i + 1),
                GetStakeModifierSelectionIntervalSection params ((nRound + 1 + j : Nat) : Int) := by
          rw [Finset.sum_range_succ' _ (i + 1), add_comm]
          congr 1
          apply Finset.sum_congr rfl
          intro j _
          have : nRound + (j + 1) = nRound + 1 + j := by omega
          rw [this]
        rw [hsum, ← add_assoc]
        simp only [List.take_succ_cons, List.map_cons, List.reverse_cons, List.append_assoc,
          List.singleton_append, List.get_eq_getElem, List.getElem_cons_succ]
        simpa using h
    · simp only [List.map_cons, List.reverse_cons, List.append_assoc, List.singleton_append]
      exact hnodup
    · intro i hi
      rw [hlow i (by omega), Nat.testBit_or, entropyBit_testBit _ _ _ hqbit]
      have : ¬ i = nRound := by omega
      simp [this]
    · intro i hi h64 hacc
      cases i with
      | zero =>
        simp only [Nat.add_zero, List.get_eq_getElem, List.getElem_cons_zero] at hacc ⊢
        have h64' : nRound < 64 := by omega
        rw [hlow nRound (by omega), Nat.testBit_or, entropyBit_testBit _ _ _ hqbit, hacc]
        simp [h64']
      | succ i =>
        have hi' : i < bs.length := by simpa using hi
        have hidx : nRound + (i + 1) = nRound + 1 + i := by omega
        simp only [List.get_eq_getElem, List.getElem_cons_succ]
        rw [hidx] at hacc h64 ⊢
        have h := hbits i hi' h64 (by
          rw [Nat.testBit_or, entropyBit_testBit _ _ _ hqbit, hacc]
          have : ¬ nRound + 1 + i = nRound := by omega
          simp [this])
        simpa using h
    · intro i hi
      rw [hhigh i (by omega), Nat.testBit_or, entropyBit_testBit _ _ _ hqbit]
      have : ¬ i = nRound := by omega
      simp [this]

/-- C29: when `ComputeNextStakeModifier` gets past the epoch gate and the `N`
collected candidates have pairwise distinct hashes and are each the entry (with
entropy bit 0 or 1) that the block index holds for their hash, the function
succeeds with `generated = true`: there are blocks `bs[0], ..., bs[n-1]`,
`n = min(64, N)`, such that round `i` selects `bs[i]` (among the sorted
candidates, with the blocks of the earlier rounds as selected and the cut-off of
round `i`), the blocks have pairwise distinct hashes, bit `i` of the new
modifier is the entropy bit of `bs[i]`, and every bit from `n` on is 0. -/
theorem computeNextStakeModifier_rounds (params : ConsensusParams) (net : NetworkID)
    (H : List Nat → Nat) (LookupBlockIndex : Nat → Option CBlockIndex) (rnd : Nat → Nat)
    (current prev : CBlockIndex) (rest : List CBlockIndex) (M : Nat) (t start : Int)
    (cands v : List (Int × Nat))
    (hlast : GetLastStakeModifier (prev :: rest) = some (M, t))
    (hgate1 : ¬ t.tdiv params.nModifierInterval ≥
      (prev.nTime : Int).tdiv params.nModifierInterval)
    (hgate2 : ¬ (t.tdiv params.nModifierInterval ≥
        (current.nTime : Int).tdiv params.nModifierInterval ∧
      IsProtocolV04 net current.nTime = true))
    (hstart : start = ((prev.nTime : Int).tdiv params.nModifierInterval) *
      params.nModifierInterval - GetStakeModifierSelectionInterval params)
    (hcands : cands = collectCandidates start (prev :: rest))
    (hv : v = sortCandidates (shuffleLoop rnd (cands.length - 1) cands))
    (hnd : (cands.map Prod.snd).Nodup)
    (hlook : ∀ it ∈ cands, ∃ b, LookupBlockIndex it.2 = some b ∧ (b.nTime : Int) = it.1 ∧
      b.hashBlock = it.2 ∧ b.nStakeEntropyBit ≤ 1) :
    ∃ (bs : List CBlockIndex) (m : Nat),
      bs.length = min 64 cands.length ∧
      ComputeNextStakeModifier params net H LookupBlockIndex rnd current (prev :: rest) =
        some (m, true) ∧
      (∀ i (hi : i < bs.length),
        SelectBlockFromCandidates H LookupBlockIndex v
          ((bs.take i).map (fun b => b.hashBlock)).reverse
          (start + ∑ j ∈ Finset.range (i + 1),
            GetStakeModifierSelectionIntervalSection params (j : Int)) M =
          some (bs.get ⟨i, hi⟩)) ∧
      (bs.map (fun b => b.hashBlock)).Nodup ∧
      (∀ i (hi : i < bs.length),
        m.testBit i = decide ((bs.get ⟨i, hi⟩).nStakeEntropyBit = 1)) ∧
      (∀ i, min 64 cands.length ≤ i → m.testBit i = false) := by
  have hperm : v.Perm cands := by
    rw [hv]
    unfold sortCandidates
    exact (List.perm_insertionSort _ _).trans (shuffleLoop_perm rnd _ cands)
  have hlookv : ∀ it ∈ v, ∃ b, LookupBlockIndex it.2 = some b ∧ (b.nTime : Int) = it.1 ∧
      b.hashBlock = it.2 ∧ b.nStakeEntropyBit ≤ 1 :=
    fun it hit => hlook it (hperm.mem_iff.mp hit)
  have hndv : (v.map Prod.snd).Nodup := (hperm.map Prod.snd).nodup_iff.mpr hnd
  have hlen : v.length = cands.length := hperm.length_eq
  obtain ⟨bs, m, hbs, hm, hselect, hnodup, _, hbits, hhigh⟩ :=
    modifierRounds_select params H LookupBlockIndex v M hlookv hndv (min 64 v.length) 0 0 start []
      List.nodup_nil (by simp)
  refine ⟨bs, m, by rw [hbs, hlen], ?_, ?_, ?_, ?_, ?_⟩
  · unfold ComputeNextStakeModifier
    simp only [hlast]
    rw [if_neg hgate1, if_neg hgate2]
    simp only [← hstart, ← hcands, ← hv, hm]
  · intro i hi
    have h := hselect i hi
    simpa using h
  · simpa using hnodup
  · intro i hi
    have h64 : i < 64 := by
      have : bs.length ≤ 64 := by
        rw [hbs]
        exact Nat.min_le_left _ _
      omega
    have h := hbits i hi (by omega) (by simp)
    simpa using h
  · intro i hi
    have h := hhigh i (by rw [hlen]; omega)
    simpa using h

set_option maxRecDepth 100000 in
/-- Witness of C29: the modifier of the block after `exEpochPrev`: three
candidates, three rounds, the new modifier is 4. -/
theorem computeNextStakeModifier_rounds_witness :
    collectCandidates 253280 [exEpochPrev, exGatePrev, exGateAncestor] =
      [(1016000, 808), (1000000, 606), (999000, 505)] ∧
    ComputeNextStakeModifier exParams NetworkID.MAIN (fun _ => 0) exLookup (fun _ => 0)
        exEpochCurrent [exEpochPrev, exGatePrev, exGateAncestor] = some (4, true) ∧
    ∃ (bs : List CBlockIndex) (m : Nat),
      bs.length = min 64 [((1016000 : Int), 808), (1000000, 606), (999000, 505)].length ∧
      ComputeNextStakeModifier exParams NetworkID.MAIN (fun _ => 0) exLookup (fun _ => 0)
          exEpochCurrent [exEpochPrev, exGatePrev, exGateAncestor] = some (m, true) ∧
      (∀ i (hi : i < bs.length),
        SelectBlockFromCandidates (fun _ => 0) exLookup
          [(999000, 505), (1000000, 606), (1016000, 808)]
          ((bs.take i).map (fun b => b.hashBlock)).reverse
          (253280 + ∑ j ∈ Finset.range (i + 1),
            GetStakeModifierSelectionIntervalSection exParams (j : Int)) 4242 =
          some (bs.get ⟨i, hi⟩)) ∧
      (bs.map (fun b => b.hashBlock)).Nodup ∧
      (∀ i (hi : i < bs.length),
        m.testBit i = decide ((bs.get ⟨i, hi⟩).nStakeEntropyBit = 1)) ∧
      (∀ i, min 64 [((1016000 : Int), 808), (1000000, 606), (999000, 505)].length ≤ i →
        m.testBit i = false) :=
  ⟨by decide, by decide,
    computeNextStakeModifier_rounds exParams NetworkID.MAIN (fun _ => 0) exLookup (fun _ => 0)
      exEpochCurrent exEpochPrev [exGatePrev, exGateAncestor] 4242 999000 253280
      [(1016000, 808), (1000000, 606), (999000, 505)]
      [(999000, 505), (1000000, 606), (1016000, 808)]
      (by decide) (by decide) (by decide) (by decide) (by decide) (by decide) (by decide)
      (by
        intro it hit
        simp only [List.mem_cons, List.mem_singleton, List.not_mem_nil, or_false] at hit
        rcases hit with rfl | rfl | rfl
        · exact ⟨exEpochPrev, by decide, by decide, by decide, by decide⟩
        · exact ⟨exGatePrev, by decide, by decide, by decide, by decide⟩
        · exact ⟨exGateAncestor, by decide, by decide, by decide, by decide⟩)⟩

end Bit2coin
